import Mathlib

/-!
# PageWatch V1.0.4: change detection and diff display

A shallow embedding of `background.js` (normalisation, fingerprinting and the
`pageContent` message handler with its storage) and of `diff.js` (the formatted
diff view), followed by the properties established about them.

JavaScript strings are sequences of UTF-16 code units; they are modelled as
lists of natural numbers, one per code unit, so that `charCodeAt`, `length`
and the non-unicode regular expressions of the source act on the same units
as in the source.
-/

namespace PageWatch

/-! ## Strings -/

/-- A JavaScript string: its UTF-16 code units in order. -/
abbrev JSString := List Nat

/-- The UTF-16 code units of one Unicode scalar value. -/
def utf16Char (c : Char) : List Nat :=
  if c.toNat < 65536 then [c.toNat]
  else [55296 + (c.toNat - 65536) / 1024, 56320 + (c.toNat - 65536) % 1024]

/-- The JavaScript string written by a literal. -/
def utf16 (s : String) : JSString :=
  s.toList.flatMap utf16Char

/-- The `\s` class of a non-unicode JavaScript regular expression, which is also
the set of code units removed by `String.prototype.trim`. -/
def isWs (c : Nat) : Bool :=
  c == 9 || c == 10 || c == 11 || c == 12 || c == 13 || c == 32 || c == 160 ||
  c == 5760 || (8192 ≤ c && c ≤ 8202) || c == 8232 || c == 8233 || c == 8239 ||
  c == 8287 || c == 12288 || c == 65279

/-- The `\d` class: the ten ASCII digits. -/
def isDigit (c : Nat) : Bool :=
  48 ≤ c && c ≤ 57

/-- The `\w` class, which decides `\b`: ASCII letters, digits and underscore. -/
def isWordChar (c : Nat) : Bool :=
  (48 ≤ c && c ≤ 57) || (65 ≤ c && c ≤ 90) || c == 95 || (97 ≤ c && c ≤ 122)

/-- Canonicalisation of the `i` flag restricted to what can equal an ASCII
pattern character: ASCII lower-case letters go to upper case, every other code
unit is left alone (a non-ASCII unit never canonicalises to an ASCII one). -/
def asciiUpper (c : Nat) : Nat :=
  if 97 ≤ c && c ≤ 122 then c - 32 else c

/-- Does the subject start with the ASCII pattern, ignoring ASCII case? -/
def startsWithCI : List Nat → List Nat → Bool
  | [], _ => true
  | _ :: _, [] => false
  | p :: ps, c :: cs => asciiUpper p == asciiUpper c && startsWithCI ps cs

/-- Does the subject start with the pattern, code unit for code unit? -/
def startsWith : List Nat → List Nat → Bool
  | [], _ => true
  | _ :: _, [] => false
  | p :: ps, c :: cs => p == c && startsWith ps cs

/-- Index of the first position at which the pattern starts, ignoring ASCII case. -/
def findCI (pat : List Nat) : List Nat → Option Nat
  | [] => none
  | c :: cs =>
    if startsWithCI pat (c :: cs) then some 0 else (findCI pat cs).map (· + 1)

/-- Index of the first position at which the pattern starts. -/
def findExact (pat : List Nat) : List Nat → Option Nat
  | [] => none
  | c :: cs =>
    if startsWith pat (c :: cs) then some 0 else (findExact pat cs).map (· + 1)

/-- Length of the longest leading run of code units in the class. -/
def spanLen (p : Nat → Bool) : List Nat → Nat
  | [] => 0
  | c :: cs => if p c then spanLen p cs + 1 else 0

/-! ## Global regular-expression replacement

`subject.replace(/re/g, replacement)` scans the subject from the left; at each
position where the expression matches, the match is replaced and scanning
resumes right after it, otherwise the code unit is copied.  A matcher gives the
length of the match that starts at the head of its argument.  None of the
expressions of `cleanHtml` can match the empty string. -/

/-- The scan of a global replace; the first argument counts the code units of
the current match that are still to be skipped. -/
def replaceGo (m : List Nat → Option Nat) (repl : List Nat) : Nat → List Nat → List Nat
  | _, [] => []
  | skip + 1, _ :: cs => replaceGo m repl skip cs
  | 0, c :: cs =>
    match m (c :: cs) with
    | some (n + 1) => repl ++ replaceGo m repl n cs
    | _ => c :: replaceGo m repl 0 cs

/-- `s.replace(/re/g, repl)` for the expression whose matcher is `m`. -/
def replaceAll (m : List Nat → Option Nat) (repl : List Nat) (s : List Nat) : List Nat :=
  replaceGo m repl 0 s

/-- Matcher of `/<name\b[^<]*(?:(?!<\/name>)<[^<]*)*<\/name>/gi`, given the opening
`<name` and the closing `</name>`.  After the opening and the word boundary the
expression can only advance over code units other than `<` and over `<` that do
not start the closing tag, so it ends at the first closing tag, if there is one. -/
def elementMatch (openTag closeTag : List Nat) (s : List Nat) : Option Nat :=
  if startsWithCI openTag s then
    match s.drop openTag.length with
    | [] => none
    | c :: rest =>
      if isWordChar c then none
      else (findCI closeTag (c :: rest)).map (fun j => openTag.length + j + closeTag.length)
  else none

/-- Matcher of `/<!--.*?-->/gs`: from `<!--` to the first `-->` after it. -/
def commentMatch (s : List Nat) : Option Nat :=
  if startsWith (utf16 "<!--") s then
    (findExact (utf16 "-->") (s.drop 4)).map (fun j => 4 + j + 3)
  else none

/-- Matcher of `/\s+/g`. -/
def wsMatch (s : List Nat) : Option Nat :=
  if spanLen isWs s = 0 then none else some (spanLen isWs s)

/-- Matcher of `/name="\d+"/g`, given the literal part `name="`. -/
def attrMatch (pre : List Nat) (s : List Nat) : Option Nat :=
  if startsWith pre s then
    if spanLen isDigit (s.drop pre.length) = 0 then none
    else
      match (s.drop pre.length).drop (spanLen isDigit (s.drop pre.length)) with
      | 34 :: _ => some (pre.length + spanLen isDigit (s.drop pre.length) + 1)
      | _ => none
  else none

/-- One position of a fixed-width pattern: a digit or a given code unit. -/
inductive Atom where
  | digit : Atom
  | lit : Nat → Atom
deriving DecidableEq, Repr

/-- Does the code unit satisfy the atom? -/
def Atom.accepts : Atom → Nat → Bool
  | Atom.digit, c => isDigit c
  | Atom.lit p, c => p == c

/-- Does the subject start with the fixed-width pattern? -/
def startsWithAtoms : List Atom → List Nat → Bool
  | [], _ => true
  | _ :: _, [] => false
  | a :: as, c :: cs => a.accepts c && startsWithAtoms as cs

/-- The atoms of `\d{4}-\d{2}-\d{2}T\d{2}:\d{2}:\d{2}`. -/
def isoAtoms : List Atom :=
  [Atom.digit, Atom.digit, Atom.digit, Atom.digit, Atom.lit 45,
   Atom.digit, Atom.digit, Atom.lit 45, Atom.digit, Atom.digit, Atom.lit 84,
   Atom.digit, Atom.digit, Atom.lit 58, Atom.digit, Atom.digit, Atom.lit 58,
   Atom.digit, Atom.digit]

/-- Matcher of `/\d{4}-\d{2}-\d{2}T\d{2}:\d{2}:\d{2}/g`. -/
def isoMatch (s : List Nat) : Option Nat :=
  if startsWithAtoms isoAtoms s then some isoAtoms.length else none

/-- `String.prototype.trim`: white space removed at both ends. -/
def trim (s : List Nat) : List Nat :=
  ((s.dropWhile isWs).reverse.dropWhile isWs).reverse

/-! ## background.js: cleanHtml and generateHash -/

/-- `cleanHtml(html)`: the seven replacements in source order, then `trim`. -/
def cleanHtml (html : JSString) : JSString :=
  trim
    (replaceAll isoMatch (utf16 "[TIMESTAMP]")
      (replaceAll (attrMatch (utf16 "data-time=\"")) []
        (replaceAll (attrMatch (utf16 "timestamp=\"")) []
          (replaceAll wsMatch (utf16 " ")
            (replaceAll commentMatch []
              (replaceAll (elementMatch (utf16 "<style") (utf16 "</style>")) []
                (replaceAll (elementMatch (utf16 "<script") (utf16 "</script>")) []
                  html)))))))

/-- `ToInt32` on an integer-valued Number: wrap into `[-2^31, 2^31 - 1]`. -/
def toInt32 (x : Int) : Int :=
  (x + 2147483648) % 4294967296 - 2147483648

/-- One round of the loop of `generateHash`:
`hash = ((hash << 5) - hash) + char; hash = hash & hash`.  The shift and the
bitwise and convert their operands with `ToInt32`; the subtraction and the
addition are exact, their operands being integers far below `2^53`. -/
def hashStep (hash : Int) (char : Nat) : Int :=
  toInt32 ((toInt32 (toInt32 hash * 32) - hash) + (char : Int))

/-- `Number.prototype.toString` on an integer: decimal digits, `-` when negative. -/
def intToString (x : Int) : JSString :=
  match x with
  | Int.ofNat n => (Nat.toDigits 10 n).map Char.toNat
  | Int.negSucc n => 45 :: (Nat.toDigits 10 (n + 1)).map Char.toNat

/-- The number held by `hash` when the loop of `generateHash` ends. -/
def hashValue (content : JSString) : Int :=
  content.foldl hashStep 0

/-- `generateHash(content)`. -/
def generateHash (content : JSString) : JSString :=
  intToString (hashValue content)

/-- From the specification, the polynomial: the sum over `i` of `c_i * 31^(n-1-i)` for the code
units `c_0 .. c_(n-1)` of the content. -/
def polynomialSum (content : JSString) : Int :=
  Finset.sum (Finset.range content.length)
    (fun i => (content.getD i 0 : Int) * 31 ^ (content.length - 1 - i))

/-- From the specification, the 32-bit signed value of an integer: its residue
modulo `2^32` taken in `[-2^31, 2^31 - 1]`. -/
def signed32 (x : Int) : Int :=
  if x % 4294967296 < 2147483648 then x % 4294967296 else x % 4294967296 - 4294967296

/-- From the specification, the fold: `h := 31 * h + c_i`, reduced to 32 bits
signed at every step, from `h = 0`. -/
def wrappedFold (content : JSString) : Int :=
  content.foldl (fun (h : Int) (c : Nat) => signed32 (31 * h + (c : Int))) 0

/-! ## background.js: the stored state -/

/-- A plain JavaScript object used as a map from strings: its own properties in
insertion order.  (Keys here are page addresses, never array indices.) -/
abbrev JSObject (α : Type) := List (JSString × α)

/-- The value read by `obj[key]`; `none` stands for `undefined`. -/
def getProp {α : Type} : JSObject α → JSString → Option α
  | [], _ => none
  | (k, v) :: rest, key => if k = key then some v else getProp rest key

/-- The object after `obj[key] = value`: an existing property keeps its place, a
new one goes last. -/
def setProp {α : Type} : JSObject α → JSString → α → JSObject α
  | [], key, value => [(key, value)]
  | (k, v) :: rest, key, value =>
    if k = key then (k, value) :: rest else (k, v) :: setProp rest key value

/-- The object after `delete obj[key]`. -/
def deleteProp {α : Type} : JSObject α → JSString → JSObject α
  | [], _ => []
  | (k, v) :: rest, key => if k = key then rest else (k, v) :: deleteProp rest key

/-- An entry of `snapshots`: `{ hash, content }`. -/
structure Snapshot where
  hash : JSString
  content : JSString
deriving DecidableEq, Repr

/-- An entry of a `history[url]` array: `{ timestamp, oldContent, newContent }`. -/
structure ChangeRecord where
  timestamp : JSString
  oldContent : JSString
  newContent : JSString
deriving DecidableEq, Repr

/-- An entry of `pendingNotifications`: `{ url, timestamp, timeoutId }`, without
the timer handle. -/
structure PendingNotification where
  url : JSString
  timestamp : JSString
deriving DecidableEq, Repr

/-- A call `chrome.notifications.create(notificationId, { ..., message })`. -/
structure Notification where
  notificationId : JSString
  message : JSString
deriving DecidableEq, Repr

/-- What the handlers of `background.js` read and write: the two objects kept in
`chrome.storage.local` (an absent key reads as `{}` everywhere) and the
in-memory `pendingNotifications`. -/
structure State where
  snapshots : JSObject Snapshot
  history : JSObject (List ChangeRecord)
  pendingNotifications : JSObject PendingNotification
deriving DecidableEq, Repr

/-- The state before anything was stored. -/
def State.empty : State :=
  { snapshots := [], history := [], pendingNotifications := [] }

/-- The branch taken by the `pageContent` handler once it has content. -/
inductive DetectionOutcome where
  | FirstSeen : DetectionOutcome
  | Unchanged : DetectionOutcome
  | Changed : DetectionOutcome
deriving DecidableEq, Repr

/-- The failure of the `pageContent` handler: `!html`. -/
inductive ObserveError where
  | EmptyContent : ObserveError
deriving DecidableEq, Repr

/-- Equality of handler results can be computed. -/
instance : DecidableEq (Except ObserveError DetectionOutcome)
  | Except.ok a, Except.ok b =>
    if h : a = b then isTrue (by rw [h]) else isFalse (fun e => h (by cases e; rfl))
  | Except.error a, Except.error b =>
    if h : a = b then isTrue (by rw [h]) else isFalse (fun e => h (by cases e; rfl))
  | Except.ok _, Except.error _ => isFalse (fun e => by cases e)
  | Except.error _, Except.ok _ => isFalse (fun e => by cases e)

/-- What one `pageContent` message does: the state it leaves, the branch it took
and the notifications it created. -/
structure Response where
  state : State
  outcome : Except ObserveError DetectionOutcome
  notifications : List Notification

/-- `history[url].slice(-10)` when the array is longer than 10, else the array. -/
def keepLast10 (records : List ChangeRecord) : List ChangeRecord :=
  if records.length > 10 then records.drop (records.length - 10) else records

/-- The text of the notification shown for a change of `url`. -/
def changeMessage (url : JSString) : JSString :=
  utf16 "The URL \"" ++ url ++ utf16 "\" has changed. Would you like to view the diff?"

/-- The first-seen branch: `snapshots[url] = { hash, content }`, stored alone. -/
def firstSeen (st : State) (url currentHash cleanedHtml : JSString) : Response :=
  { state := { st with snapshots := setProp st.snapshots url ⟨currentHash, cleanedHtml⟩ },
    outcome := Except.ok DetectionOutcome.FirstSeen,
    notifications := [] }

/-- The change branch: push the record, keep the last 10, replace the snapshot,
register and create the notification `change-${Date.now()}`. -/
def changeDetected (st : State) (url currentHash cleanedHtml : JSString)
    (storedSnapshot : Snapshot) (timestamp : JSString) (nowMs : Nat) : Response :=
  { state :=
      { snapshots := setProp st.snapshots url ⟨currentHash, cleanedHtml⟩,
        history := setProp st.history url
          (keepLast10 (((getProp st.history url).getD []) ++
            [⟨timestamp, storedSnapshot.content, cleanedHtml⟩])),
        pendingNotifications := setProp st.pendingNotifications
          (utf16 "change-" ++ intToString (Int.ofNat nowMs)) ⟨url, timestamp⟩ },
    outcome := Except.ok DetectionOutcome.Changed,
    notifications := [⟨utf16 "change-" ++ intToString (Int.ofNat nowMs), changeMessage url⟩] }

/-- The `pageContent` branch of the `onMessage` listener.  `html` is `none` when
the message has no `html`; `timestamp` is the value of
`new Date().toISOString()` and `nowMs` that of `Date.now()` in the change
branch. -/
def pageContent (st : State) (url : JSString) (html : Option JSString)
    (timestamp : JSString) (nowMs : Nat) : Response :=
  match html with
  | none => { state := st, outcome := Except.error ObserveError.EmptyContent, notifications := [] }
  | some [] => { state := st, outcome := Except.error ObserveError.EmptyContent, notifications := [] }
  | some (c :: cs) =>
    match getProp st.snapshots url with
    | none => firstSeen st url (generateHash (cleanHtml (c :: cs))) (cleanHtml (c :: cs))
    | some storedSnapshot =>
      if storedSnapshot.hash = [] then
        firstSeen st url (generateHash (cleanHtml (c :: cs))) (cleanHtml (c :: cs))
      else if storedSnapshot.hash ≠ generateHash (cleanHtml (c :: cs)) then
        changeDetected st url (generateHash (cleanHtml (c :: cs))) (cleanHtml (c :: cs))
          storedSnapshot timestamp nowMs
      else { state := st, outcome := Except.ok DetectionOutcome.Unchanged, notifications := [] }

/-- The `clearHistory` message: `chrome.storage.local.remove(["history"])`. -/
def clearHistory (st : State) : State :=
  { st with history := [] }

/-- The `clearAllData` message: `chrome.storage.local.clear()`. -/
def clearAllData (st : State) : State :=
  { st with snapshots := [], history := [] }

/-- The end of a notification (a click, a button or the ten-minute timer):
`delete pendingNotifications[notificationId]`. -/
def dismissNotification (st : State) (notificationId : JSString) : State :=
  { st with pendingNotifications := deleteProp st.pendingNotifications notificationId }

/-- The states the extension can be in: from nothing stored, any sequence of
`pageContent`, `clearHistory` and `clearAllData` messages and of notification
endings. -/
inductive Reachable : State → Prop where
  | empty : Reachable State.empty
  | pageContent (st : State) (url : JSString) (html : Option JSString)
      (timestamp : JSString) (nowMs : Nat) :
      Reachable st → Reachable (pageContent st url html timestamp nowMs).state
  | clearHistory (st : State) : Reachable st → Reachable (clearHistory st)
  | clearAllData (st : State) : Reachable st → Reachable (clearAllData st)
  | dismissNotification (st : State) (notificationId : JSString) :
      Reachable st → Reachable (dismissNotification st notificationId)

/-- One observation of a page: its html and the two clock readings. -/
structure Observation where
  html : JSString
  timestamp : JSString
  nowMs : Nat
deriving DecidableEq, Repr

/-- The state after the `pageContent` messages of one address, in order. -/
def observeAll (url : JSString) : State → List Observation → State
  | st, [] => st
  | st, o :: os =>
    observeAll url (pageContent st url (some o.html) o.timestamp o.nowMs).state os

/-- The branches taken by the `pageContent` messages of one address, in order. -/
def outcomesAll (url : JSString) : State → List Observation →
    List (Except ObserveError DetectionOutcome)
  | _, [] => []
  | st, o :: os =>
    (pageContent st url (some o.html) o.timestamp o.nowMs).outcome ::
      outcomesAll url (pageContent st url (some o.html) o.timestamp o.nowMs).state os

/-- The records the change branch creates for a run of observations of one
address, the first of which finds the content `prev` stored. -/
def expectedRecords (prev : JSString) : List Observation → List ChangeRecord
  | [] => []
  | o :: os =>
    ChangeRecord.mk o.timestamp prev (cleanHtml o.html) :: expectedRecords (cleanHtml o.html) os

/-- An address used in the examples. -/
def exampleUrl : JSString :=
  utf16 "https://a.test"

/-- The state after a first observation of the example address. -/
def exampleStart : State :=
  (pageContent State.empty exampleUrl (some (utf16 "<p>v0</p>")) (utf16 "t0") 0).state

/-- Eleven observations whose contents all differ from the one before. -/
def exampleObservations : List Observation :=
  (List.range 11).map (fun i =>
    Observation.mk (utf16 "<p>v" ++ intToString (Int.ofNat (i + 1)) ++ utf16 "</p>")
      (utf16 "t" ++ intToString (Int.ofNat (i + 1))) (1000 + i))

/-! ## diff.js: the formatted view -/

/-- Matcher of `/></g`. -/
def tagBoundaryMatch (s : List Nat) : Option Nat :=
  if startsWith (utf16 "><") s then some 2 else none

/-- `processContentForDisplay(html)`: a line feed between `>` and `<`, then
`/\s+/g` to one space, then `trim`. -/
def processContentForDisplay (html : JSString) : JSString :=
  trim
    (replaceAll wsMatch (utf16 " ")
      (replaceAll tagBoundaryMatch (utf16 ">\n<") html))

/-- `text.split('\n')`: the pieces between line feeds; at least one piece. -/
def splitLines : JSString → List JSString
  | [] => [[]]
  | c :: cs =>
    if c = 10 then [] :: splitLines cs
    else
      match splitLines cs with
      | [] => [[c]]
      | line :: lines => (c :: line) :: lines

/-- `escapeHtml(text)`: the text set as `textContent` and read back as
`innerHTML`, which escapes `&`, `<`, `>` and the no-break space. -/
def escapeHtml (text : JSString) : JSString :=
  text.flatMap (fun c =>
    if c = 38 then utf16 "&amp;"
    else if c = 60 then utf16 "&lt;"
    else if c = 62 then utf16 "&gt;"
    else if c = 160 then utf16 "&nbsp;"
    else [c])

/-- How a line of a view is shown. -/
inductive LineTag where
  | unchanged : LineTag
  | removed : LineTag
  | added : LineTag
deriving DecidableEq, Repr

/-- The body of the `map` callback of `highlightDifferences` as a decision:
`compareLine` is `compareLines[index]`, `none` when the index is past the end.
`!compareLine` holds for `undefined` and for the empty string. -/
def lineTag (isOld : Bool) (line : JSString) (compareLine : Option JSString) : LineTag :=
  match compareLine with
  | none => if isOld then LineTag.removed else LineTag.added
  | some [] => if isOld then LineTag.removed else LineTag.added
  | some (c :: cs) =>
    if line ≠ c :: cs then (if isOld then LineTag.removed else LineTag.added)
    else LineTag.unchanged

/-- The markup of one line for its tag. -/
def renderLine (tag : LineTag) (line : JSString) : JSString :=
  match tag with
  | LineTag.unchanged => escapeHtml line
  | LineTag.removed => utf16 "<span class=\"removed\">" ++ escapeHtml line ++ utf16 "</span>"
  | LineTag.added => utf16 "<span class=\"added\">" ++ escapeHtml line ++ utf16 "</span>"

/-- The lines of `content` with the tag `highlightDifferences` gives each. -/
def taggedLines (content compareContent : JSString) (isOld : Bool) : List (LineTag × JSString) :=
  (splitLines content).enum.map
    (fun il => (lineTag isOld il.2 ((splitLines compareContent)[il.1]?), il.2))

/-- `highlightDifferences(content, compareContent, isOld)`. -/
def highlightDifferences (content compareContent : JSString) (isOld : Bool) : JSString :=
  List.intercalate [10]
    ((taggedLines content compareContent isOld).map (fun tl => renderLine tl.1 tl.2))

/-- What `displayDiff` puts in one pane: plain text or markup. -/
inductive Pane where
  | textContent : JSString → Pane
  | innerHTML : JSString → Pane
deriving DecidableEq, Repr

/-- `displayDiff(oldHtml, newHtml)` under the flag `showRawHtml`: the old pane
and the new pane. -/
def displayDiff (showRawHtml : Bool) (oldHtml newHtml : JSString) : Pane × Pane :=
  if showRawHtml then (Pane.textContent oldHtml, Pane.textContent newHtml)
  else
    (Pane.innerHTML (highlightDifferences (processContentForDisplay oldHtml)
        (processContentForDisplay newHtml) true),
     Pane.innerHTML (highlightDifferences (processContentForDisplay newHtml)
        (processContentForDisplay oldHtml) false))

/-- Does the subject start with code units accepted, position by position, by
the pattern items under the test `acc`?  The three prefix tests of the model
are instances of it. -/
def startsWithBy {α : Type} (acc : α → Nat → Bool) : List α → List Nat → Bool
  | [], _ => true
  | _ :: _, [] => false
  | p :: ps, c :: cs => acc p c && startsWithBy acc ps cs

/-- None of the five openers of what `cleanHtml` removes starts anywhere in the
string: `<script` and `<style` in any letter case, `<!--`, `timestamp="` and
`data-time="`. -/
def NoOpener (s : List Nat) : Prop :=
  (∀ t : List Nat, t <:+ s → startsWithCI (utf16 "<script") t = false) ∧
  (∀ t : List Nat, t <:+ s → startsWithCI (utf16 "<style") t = false) ∧
  (∀ t : List Nat, t <:+ s → startsWith (utf16 "<!--") t = false) ∧
  (∀ t : List Nat, t <:+ s → startsWith (utf16 "timestamp=\"") t = false) ∧
  (∀ t : List Nat, t <:+ s → startsWith (utf16 "data-time=\"") t = false)

/-- White space in normal form: the only white-space code unit is the space,
and no two white-space code units are adjacent. -/
def WsNormal (s : List Nat) : Prop :=
  (∀ c ∈ s, isWs c = true → c = 32) ∧
    List.Chain' (fun a b => ¬ (isWs a = true ∧ isWs b = true)) s

/-- The text that replaces a date-time in `cleanHtml`. -/
def timestampToken : List Nat :=
  utf16 "[TIMESTAMP]"

/-! ## search-reports.js: searchContent -/

/-- An element of `content.matchAll(pattern)`: `match.index` and `match[0]`. -/
structure RegExpMatch where
  index : Nat
  text : JSString
deriving DecidableEq, Repr

/-- The platform's `new RegExp(pattern, flags)` as far as `searchContent` uses it:
for a pattern that compiles, the function from a content to the array
`[...content.matchAll(regexp)]`; for one that does not, the message of the
error thrown. -/
abbrev RegExpCtor := JSString → JSString → Except JSString (JSString → List RegExpMatch)

/-- The field `type` of a search result: `'snapshot'`, `'history_old'` or
`'history_new'`. -/
inductive ResultType where
  | snapshot : ResultType
  | history_old : ResultType
  | history_new : ResultType
deriving DecidableEq, Repr

/-- A search result: `{ type, url, timestamp, content, matches, matchCount }`;
the fields `type` and `matches` are called `kind` and `matchList` here. -/
structure SearchResult where
  kind : ResultType
  url : JSString
  timestamp : JSString
  content : JSString
  matchList : List RegExpMatch
  matchCount : Nat
deriving DecidableEq, Repr

/-- The object `options` built at the start of `searchContent`.  `urlFilter` is
the empty string when no address is chosen; `dateFilter` is
`parseInt(dateFilter.value) || null`. -/
structure SearchOptions where
  caseSensitive : Bool
  useRegex : Bool
  includeHistory : Bool
  includeSnapshots : Bool
  urlFilter : JSString
  dateFilter : Option Int
deriving DecidableEq, Repr

/-- The platform's clock and dates as `searchContent` uses them: the value of
the n-th clock reading of a call (`Date.now()`, `new Date()`), the text
`toISOString` gives for a time value, and the time value `new Date(text)` has
(`none` for an invalid date). -/
structure DateEnv where
  clock : Nat → Int
  toISOString : Int → JSString
  parseDate : JSString → Option Int

/-- Is the code unit one of `. * + ? ^ $ { } ( ) | [ ] \`, the class of the
expression `/[.*+?^${}()|[\]\\]/g`? -/
def isSyntaxChar (c : Nat) : Bool :=
  c == 46 || c == 42 || c == 43 || c == 63 || c == 94 || c == 36 || c == 123 || c == 125 ||
  c == 40 || c == 41 || c == 124 || c == 91 || c == 93 || c == 92

/-- `query.replace(/[.*+?^${}()|[\]\\]/g, '\\$&')`: every code unit of the class
is replaced by a backslash and itself. -/
def escapeQuery : JSString → JSString
  | [] => []
  | c :: cs => if isSyntaxChar c then 92 :: c :: escapeQuery cs else c :: escapeQuery cs

/-- The flags given to `new RegExp`. -/
def searchFlags (options : SearchOptions) : JSString :=
  if options.caseSensitive then utf16 "g" else utf16 "gi"

/-- The `try` block of `searchContent`: the compiled pattern, or the message of
the error it throws. -/
def searchPattern (regExp : RegExpCtor) (options : SearchOptions) (query : JSString) :
    Except JSString (JSString → List RegExpMatch) :=
  if options.useRegex then regExp query (searchFlags options)
  else regExp (escapeQuery query) (searchFlags options)

/-- `options.urlFilter && url !== options.urlFilter`: the entry is passed over. -/
def urlExcluded (options : SearchOptions) (url : JSString) : Bool :=
  options.urlFilter ≠ [] && url ≠ options.urlFilter

/-- The loop over `Object.entries(allData.snapshots)`: the results pushed and the
number of clock readings made, starting from reading number `tick`. -/
def scanSnapshots (m : JSString → List RegExpMatch) (env : DateEnv) (options : SearchOptions) :
    Nat → JSObject Snapshot → List SearchResult × Nat
  | tick, [] => ([], tick)
  | tick, (url, snapshot) :: rest =>
    if urlExcluded options url then scanSnapshots m env options tick rest
    else if (m snapshot.content).length > 0 then
      (⟨ResultType.snapshot, url, env.toISOString (env.clock tick), snapshot.content,
          m snapshot.content, (m snapshot.content).length⟩ ::
        (scanSnapshots m env options (tick + 1) rest).1,
       (scanSnapshots m env options (tick + 1) rest).2)
    else scanSnapshots m env options tick rest

/-- `new Date(value)`: the time value, invalid beyond 8.64e15 ms from the epoch. -/
def timeClip (t : Int) : Option Int :=
  if -8640000000000000 ≤ t ∧ t ≤ 8640000000000000 then some t else none

/-- `a < b` on two dates: false when either is invalid. -/
def dateLess (a b : Option Int) : Bool :=
  match a, b with
  | some x, some y => decide (x < y)
  | _, _ => false

/-- The results pushed for one change: one for the old content and one for the
new content, each when it has a match. -/
def sideResults (m : JSString → List RegExpMatch) (url : JSString) (change : ChangeRecord) :
    List SearchResult :=
  (if (m change.oldContent).length > 0 then
      [⟨ResultType.history_old, url, change.timestamp, change.oldContent, m change.oldContent,
        (m change.oldContent).length⟩]
    else []) ++
  (if (m change.newContent).length > 0 then
      [⟨ResultType.history_new, url, change.timestamp, change.newContent, m change.newContent,
        (m change.newContent).length⟩]
    else [])

/-- The days of the date filter when `if (options.dateFilter)` holds. -/
def activeDateFilter (options : SearchOptions) : Option Int :=
  match options.dateFilter with
  | none => none
  | some d => if d = 0 then none else some d

/-- `changeDate < cutoffDate` for a change, the clock reading `now` and `d` days. -/
def olderThanCutoff (env : DateEnv) (change : ChangeRecord) (now d : Int) : Bool :=
  dateLess (env.parseDate change.timestamp) (timeClip (now - d * 24 * 60 * 60 * 1000))

/-- The loop `for (const change of changes)` for one address, from clock reading
number `tick`: with a date filter each change reads the clock once. -/
def scanChanges (m : JSString → List RegExpMatch) (env : DateEnv) (options : SearchOptions)
    (url : JSString) : Nat → List ChangeRecord → List SearchResult × Nat
  | tick, [] => ([], tick)
  | tick, change :: rest =>
    match activeDateFilter options with
    | some d =>
      if olderThanCutoff env change (env.clock tick) d then
        scanChanges m env options url (tick + 1) rest
      else
        (sideResults m url change ++ (scanChanges m env options url (tick + 1) rest).1,
         (scanChanges m env options url (tick + 1) rest).2)
    | none =>
      (sideResults m url change ++ (scanChanges m env options url tick rest).1,
       (scanChanges m env options url tick rest).2)

/-- The loop over `Object.entries(allData.history)`. -/
def scanHistory (m : JSString → List RegExpMatch) (env : DateEnv) (options : SearchOptions) :
    Nat → JSObject (List ChangeRecord) → List SearchResult × Nat
  | tick, [] => ([], tick)
  | tick, (url, changes) :: rest =>
    if urlExcluded options url then scanHistory m env options tick rest
    else
      ((scanChanges m env options url tick changes).1 ++
          (scanHistory m env options (scanChanges m env options url tick changes).2 rest).1,
       (scanHistory m env options (scanChanges m env options url tick changes).2 rest).2)

/-- The array `results` when the two loops are over: snapshot results, then
history results. -/
def discoverResults (m : JSString → List RegExpMatch) (env : DateEnv) (allData : State)
    (options : SearchOptions) : List SearchResult :=
  (if options.includeSnapshots then (scanSnapshots m env options 0 allData.snapshots).1
    else []) ++
  (if options.includeHistory then
      (scanHistory m env options
        (if options.includeSnapshots then (scanSnapshots m env options 0 allData.snapshots).2
          else 0)
        allData.history).1
    else [])

/-- One step of the sort: `r`, which stood before all of the sorted `rest`, goes
in front of the first result that has no more matches than it. -/
def insertByMatchCount (r : SearchResult) : List SearchResult → List SearchResult
  | [] => [r]
  | x :: xs =>
    if x.matchCount ≤ r.matchCount then r :: x :: xs else x :: insertByMatchCount r xs

/-- `results.sort((a, b) => b.matchCount - a.matchCount)`.  The sort of the
platform is stable, so its result is the one arrangement in non-increasing
`matchCount` that keeps equal counts in their order; insertion computes it. -/
def sortByMatchCount : List SearchResult → List SearchResult
  | [] => []
  | r :: rest => insertByMatchCount r (sortByMatchCount rest)

/-- `searchContent(query)` over the stored data `allData` and the form state
`options`: the sorted results, or the message of the error thrown. -/
def searchContent (regExp : RegExpCtor) (env : DateEnv) (allData : State)
    (options : SearchOptions) (query : JSString) : Except JSString (List SearchResult) :=
  match searchPattern regExp options query with
  | Except.error message => Except.error (utf16 "Invalid regular expression: " ++ message)
  | Except.ok m => Except.ok (sortByMatchCount (discoverResults m env allData options))


/-! ## The regular expressions whose meaning is fixed here -/

/-- The literal text denoted by a pattern made only of ordinary characters and
of syntax characters escaped by a backslash; `none` for any other pattern. -/
def literalOfPattern : JSString → Option JSString
  | [] => some []
  | [c] => if isSyntaxChar c then none else some [c]
  | 92 :: c :: rest =>
    if isSyntaxChar c then (literalOfPattern rest).map (fun lit => c :: lit) else none
  | c :: d :: rest =>
    if isSyntaxChar c then none else (literalOfPattern (d :: rest)).map (fun lit => c :: lit)

/-- `[...content.matchAll(re)]` for a global expression that denotes the literal
`lit`: the occurrences from the left, none overlapping another; the empty
literal matches once at every index up to the length. -/
def literalMatchGo (ignoreCase : Bool) (lit : JSString) : Nat → Nat → JSString → List RegExpMatch
  | _, index, [] => if lit = [] then [⟨index, []⟩] else []
  | skip + 1, index, _ :: cs => literalMatchGo ignoreCase lit skip (index + 1) cs
  | 0, index, c :: cs =>
    if (if ignoreCase then startsWithCI lit (c :: cs) else startsWith lit (c :: cs)) then
      ⟨index, (c :: cs).take lit.length⟩ ::
        literalMatchGo ignoreCase lit (lit.length - 1) (index + 1) cs
    else literalMatchGo ignoreCase lit 0 (index + 1) cs

/-- The matches of a literal in a content. -/
def literalMatchAll (ignoreCase : Bool) (lit content : JSString) : List RegExpMatch :=
  literalMatchGo ignoreCase lit 0 0 content

/-- `new RegExp` with the meaning of the literal patterns fixed: under the flags
`g` a literal pattern matches its text, under `gi` a literal pattern of ASCII
code units matches its text in any ASCII letter case; every other pattern and
flag is left to `other`. -/
def literalRegExp (other : RegExpCtor) : RegExpCtor :=
  fun pattern flags =>
    match literalOfPattern pattern with
    | some lit =>
      if flags = utf16 "g" then Except.ok (literalMatchAll false lit)
      else if flags = utf16 "gi" ∧ lit.all (fun c => decide (c < 128)) = true then
        Except.ok (literalMatchAll true lit)
      else other pattern flags
    | none => other pattern flags

/-! ## search-reports.js: getMatchContexts -/

/-- `s.substring(start, end)`: both ends clamped to the length, swapped when out
of order. -/
def substring (s : JSString) (start finish : Nat) : JSString :=
  (s.take (max start finish)).drop (min start finish)

/-- The body of the loop of `getMatchContexts` for one match: the window around
the match with the match in a highlight span and the ellipses.  `escape` is
the helper `escapeHtml` of the page. -/
def matchContext (escape : JSString → JSString) (content : JSString) (contextLength : Nat)
    (m : RegExpMatch) : JSString :=
  (if m.index - contextLength > 0 then utf16 "..." else []) ++
    (escape (substring
        (substring content (m.index - contextLength)
          (min content.length (m.index + m.text.length + contextLength)))
        0 (m.index - (m.index - contextLength))) ++
      utf16 "<span class=\"search-highlight\">" ++ escape m.text ++ utf16 "</span>" ++
      escape ((substring content (m.index - contextLength)
          (min content.length (m.index + m.text.length + contextLength))).drop
        (m.index - (m.index - contextLength) + m.text.length))) ++
    (if min content.length (m.index + m.text.length + contextLength) < content.length then
      utf16 "..." else [])

/-- The loop of `getMatchContexts`; `processedPositions` holds the indices seen. -/
def getMatchContextsGo (escape : JSString → JSString) (content : JSString)
    (contextLength : Nat) : List Nat → List RegExpMatch → List JSString
  | _, [] => []
  | processedPositions, m :: rest =>
    if m.index ∈ processedPositions then
      getMatchContextsGo escape content contextLength processedPositions rest
    else
      matchContext escape content contextLength m ::
        getMatchContextsGo escape content contextLength (m.index :: processedPositions) rest

/-- `getMatchContexts(content, matches, contextLength)`; the callers leave
`contextLength` at its default 200. -/
def getMatchContexts (escape : JSString → JSString) (content : JSString)
    (matchList : List RegExpMatch) (contextLength : Nat) : List JSString :=
  getMatchContextsGo escape content contextLength [] (matchList.take 10)

/-! ## search-reports.js: generateReport -/

/-- `currentResults.reduce((sum, result) => sum + result.matchCount, 0)`. -/
def totalMatchCount (results : List SearchResult) : Nat :=
  results.foldl (fun sum result => sum + result.matchCount) 0

/-- `new Set(currentResults.map(result => result.url))`: the addresses in the
order of their first result. -/
def uniqueUrls (results : List SearchResult) : List JSString :=
  results.foldl (fun set result => if result.url ∈ set then set else set ++ [result.url]) []

/-- The object `resultsByUrl` after the grouping loop. -/
def groupByUrl (results : List SearchResult) : JSObject (List SearchResult) :=
  results.foldl
    (fun resultsByUrl result =>
      setProp resultsByUrl result.url ((getProp resultsByUrl result.url).getD [] ++ [result]))
    []

/-- The label of a result type in the report. -/
def reportTypeLabel (kind : ResultType) : JSString :=
  match kind with
  | ResultType.snapshot => utf16 "Current"
  | ResultType.history_old => utf16 "Historical (Old)"
  | ResultType.history_new => utf16 "Historical (New)"

/-- The text added to the report for one address of `resultsByUrl`. -/
def reportUrlBlock (toLocaleString : JSString → JSString)
    (entry : JSString × List SearchResult) : JSString :=
  utf16 "\n" ++ entry.1 ++ utf16 "\n" ++
    utf16 "  Total Matches: " ++ intToString (Int.ofNat (totalMatchCount entry.2)) ++ utf16 "\n" ++
    entry.2.flatMap (fun result =>
      utf16 "  - " ++ reportTypeLabel result.kind ++ utf16 ": " ++
        intToString (Int.ofNat result.matchCount) ++ utf16 " matches (" ++
        toLocaleString result.timestamp ++ utf16 ")\n")

/-- The section SUMMARY of the report. -/
def reportSummary (results : List SearchResult) : JSString :=
  utf16 "SUMMARY\n" ++ utf16 "-------\n" ++
    utf16 "Total Matches: " ++ intToString (Int.ofNat (totalMatchCount results)) ++ utf16 "\n" ++
    utf16 "URLs with Matches: " ++ intToString (Int.ofNat (uniqueUrls results).length) ++
      utf16 "\n" ++
    utf16 "Total Results: " ++ intToString (Int.ofNat results.length) ++ utf16 "\n\n"

/-- `generateReport()` as far as the source shows it: nothing for an empty result
list, else the header, the summary and the section RESULTS BY URL, followed by
`detailed`, the text of the section DETAILED MATCHES.  `generated` is
`new Date().toLocaleString()` and `toLocaleString` gives
`new Date(timestamp).toLocaleString()`. -/
def generateReport (toLocaleString : JSString → JSString) (generated detailed query : JSString)
    (currentResults : List SearchResult) : Option JSString :=
  if currentResults.length = 0 then none
  else
    some (utf16 "SEARCH REPORT\n" ++ utf16 "=============\n\n" ++
      utf16 "Search Query: \"" ++ query ++ utf16 "\"\n" ++
      utf16 "Generated: " ++ generated ++ utf16 "\n\n" ++
      reportSummary currentResults ++
      utf16 "RESULTS BY URL\n" ++ utf16 "--------------\n" ++
      (groupByUrl currentResults).flatMap (reportUrlBlock toLocaleString) ++
      detailed)

/-- The result a change gives for its old content when that content matches. -/
def oldResult (m : JSString → List RegExpMatch) (url : JSString) (change : ChangeRecord) :
    SearchResult :=
  ⟨ResultType.history_old, url, change.timestamp, change.oldContent, m change.oldContent,
    (m change.oldContent).length⟩

/-- The result a change gives for its new content when that content matches. -/
def newResult (m : JSString → List RegExpMatch) (url : JSString) (change : ChangeRecord) :
    SearchResult :=
  ⟨ResultType.history_new, url, change.timestamp, change.newContent, m change.newContent,
    (m change.newContent).length⟩

/-- All history results there could be, in the order of discovery: addresses in
the order of the stored object, the changes of an address oldest first, the old
content of a change before its new content. -/
def historyCandidates (m : JSString → List RegExpMatch) (history : JSObject (List ChangeRecord)) :
    List SearchResult :=
  history.flatMap (fun entry =>
    entry.2.flatMap (fun change => [oldResult m entry.1 change, newResult m entry.1 change]))

/-- The state of the scenario: the example address observed with a first html,
then with a second one, then with the second one again, at the given times. -/
def scenarioState (t1 t2 t3 : JSString) (n1 n2 n3 : Nat) : State :=
  (pageContent
    (pageContent
      (pageContent State.empty exampleUrl (some (utf16 "<html><body>v1</body></html>")) t1
        n1).state
      exampleUrl (some (utf16 "<html><body>v2</body></html>")) t2 n2).state
    exampleUrl (some (utf16 "<html><body>v2</body></html>")) t3 n3).state

/-- An expression constructor that knows the literal patterns only. -/
def literalOnlyRegExp : RegExpCtor :=
  literalRegExp (fun _ _ => Except.error (utf16 "unsupported pattern"))

/-- A date environment with a clock that stands still. -/
def fixedDateEnv (now : Int) : DateEnv :=
  { clock := fun _ => now, toISOString := fun t => intToString t, parseDate := fun _ => none }

/-- From the specification, the escaped form of a literal: each of the
characters `. * + ? ^ $ { } ( ) | [ ] \` is preceded by a backslash. -/
def escapedLiteral (s : JSString) : JSString :=
  s.flatMap (fun c => if c ∈ utf16 ".*+?^$\x7b\x7d()|[]\\" then [92, c] else [c])

/-- The two results of the scenario that contain "v2". -/
def scenarioSnapshotResult (timestamp : JSString) : SearchResult :=
  ⟨ResultType.snapshot, exampleUrl, timestamp, utf16 "<html><body>v2</body></html>",
    [⟨12, utf16 "v2"⟩], 1⟩

/-- The result for the new content of the one change of the scenario. -/
def scenarioNewResult (timestamp : JSString) : SearchResult :=
  ⟨ResultType.history_new, exampleUrl, timestamp, utf16 "<html><body>v2</body></html>",
    [⟨12, utf16 "v2"⟩], 1⟩

/-- From the specification, the history results under one cutoff for the whole
call: every change of every address that passes the address filter is judged
against `now` less the days of the date filter. -/
def historyResultsAt (m : JSString → List RegExpMatch) (env : DateEnv) (options : SearchOptions)
    (now : Int) (history : JSObject (List ChangeRecord)) : List SearchResult :=
  history.flatMap (fun entry =>
    if urlExcluded options entry.1 then []
    else
      entry.2.flatMap (fun change =>
        match activeDateFilter options with
        | some d => if olderThanCutoff env change now d then [] else sideResults m entry.1 change
        | none => sideResults m entry.1 change))

/-- A date environment whose clock advances 5 ms from one reading to the next,
the first reading being 2024-01-02T00:00:00.000Z. -/
def driftingDateEnv : DateEnv :=
  { clock := fun n => 1704153600000 + 5 * (n : Int),
    toISOString := fun t => intToString t,
    parseDate := fun s =>
      if s = utf16 "2024-01-01T00:00:00.000Z" then some 1704067200000
      else if s = utf16 "2024-01-01T00:00:00.001Z" then some 1704067200001
      else none }

/-- The example address after three observations with different contents, the
two changes 1 ms apart. -/
def twoChangesState : State :=
  (pageContent
    (pageContent
      (pageContent State.empty exampleUrl (some (utf16 "<p>v1</p>"))
        (utf16 "2023-12-31T00:00:00.000Z") 1).state
      exampleUrl (some (utf16 "<p>v2</p>")) (utf16 "2024-01-01T00:00:00.000Z") 2).state
    exampleUrl (some (utf16 "<p>v2 and v2</p>")) (utf16 "2024-01-01T00:00:00.001Z") 3).state

/-- The options of the date-filter example: history only, one day. -/
def oneDayOptions : SearchOptions :=
  ⟨false, false, true, false, [], some 1⟩

/-- The first change of `twoChangesState`. -/
def firstChange : ChangeRecord :=
  ⟨utf16 "2024-01-01T00:00:00.000Z", utf16 "<p>v1</p>", utf16 "<p>v2</p>"⟩

/-- The second change of `twoChangesState`. -/
def secondChange : ChangeRecord :=
  ⟨utf16 "2024-01-01T00:00:00.001Z", utf16 "<p>v2</p>", utf16 "<p>v2 and v2</p>"⟩

/-- From the specification, the part `content[a .. b)` of a content. -/
def slice (content : JSString) (a b : Nat) : JSString :=
  (content.drop a).take (b - a)

/-- From the specification, the context of one match: the window of 200 code
units on each side of the match, clipped to the content, with the match in a
highlight span, `...` in front when the window does not start at 0 and `...`
behind when it does not reach the end. -/
def expectedContext (escape : JSString → JSString) (content : JSString) (m : RegExpMatch) :
    JSString :=
  (if 0 < m.index - 200 then utf16 "..." else []) ++
    (escape (slice content (m.index - 200) m.index) ++
      utf16 "<span class=\"search-highlight\">" ++ escape m.text ++ utf16 "</span>" ++
      escape (slice content (m.index + m.text.length)
        (min content.length (m.index + m.text.length + 200)))) ++
    (if min content.length (m.index + m.text.length + 200) < content.length then utf16 "..."
      else [])

/-- The stored state is consistent: every snapshot holds the fingerprint of its
content, in every history each record starts from the content the one before
it ended with, and the last record of a history ends with the content of the
snapshot of its address. -/
def ConsistentLog (st : State) : Prop :=
  (∀ (url : JSString) (snap : Snapshot), getProp st.snapshots url = some snap →
    snap.hash = generateHash snap.content) ∧
  (∀ (url : JSString) (records : List ChangeRecord), getProp st.history url = some records →
    List.Chain' (fun a b : ChangeRecord => b.oldContent = a.newContent) records ∧
    ∀ last ∈ records.getLast?,
      ∃ snap : Snapshot, getProp st.snapshots url = some snap ∧ last.newContent = snap.content)

/-- From the specification, the distinct addresses of a list in the order in
which each appears first. -/
def firstOccurrences : List JSString → List JSString
  | [] => []
  | u :: us => u :: (firstOccurrences us).filter (fun v => decide (v ≠ u))

/-- Three results as a search ranks them: 3 and 1 matches at one address, 2
matches at another. -/
def reportResults : List SearchResult :=
  [⟨ResultType.history_old, utf16 "https://b.test", utf16 "t1", utf16 "v2 v2 v2",
      [⟨0, utf16 "v2"⟩, ⟨3, utf16 "v2"⟩, ⟨6, utf16 "v2"⟩], 3⟩,
   ⟨ResultType.snapshot, utf16 "https://a.test", utf16 "t2", utf16 "v2 v2",
      [⟨0, utf16 "v2"⟩, ⟨3, utf16 "v2"⟩], 2⟩,
   ⟨ResultType.snapshot, utf16 "https://b.test", utf16 "t3", utf16 "v2",
      [⟨0, utf16 "v2"⟩], 1⟩]

/-- Nothing in the string is matched by a replacement of `cleanHtml`: at no
position starts a script element, a style element or a comment that is closed
further on, or a `timestamp` or `data-time` attribute with a digits value, and
the only white space is single spaces. -/
def Settled (s : List Nat) : Prop :=
  (∀ t ∈ s.tails, elementMatch (utf16 "<script") (utf16 "</script>") t = none) ∧
  (∀ t ∈ s.tails, elementMatch (utf16 "<style") (utf16 "</style>") t = none) ∧
  (∀ t ∈ s.tails, commentMatch t = none) ∧
  WsNormal s ∧
  (∀ t ∈ s.tails, attrMatch (utf16 "timestamp=\"") t = none) ∧
  (∀ t ∈ s.tails, attrMatch (utf16 "data-time=\"") t = none)

/-! ## Properties of the stored state -/

theorem getProp_setProp_same {α : Type} (o : JSObject α) (key : JSString) (value : α) :
    getProp (setProp o key value) key = some value := by
  induction o with
  | nil => simp [setProp, getProp]
  | cons kv rest ih =>
    obtain ⟨k, v⟩ := kv
    by_cases h : k = key
    · simp [setProp, getProp, h]
    · simp [setProp, getProp, h, ih]

theorem getProp_setProp_other {α : Type} (o : JSObject α) (key other : JSString) (value : α)
    (h : other ≠ key) : getProp (setProp o key value) other = getProp o other := by
  induction o with
  | nil => simp [setProp, getProp, Ne.symm h]
  | cons kv rest ih =>
    obtain ⟨k, v⟩ := kv
    by_cases hk : k = key
    · subst hk
      simp [setProp, getProp, Ne.symm h]
    · by_cases ho : k = other
      · subst ho
        simp [setProp, getProp, h]
      · simp [setProp, getProp, hk, ho, ih]

theorem keepLast10_eq_drop (records : List ChangeRecord) :
    keepLast10 records = records.drop (records.length - 10) := by
  unfold keepLast10
  split
  · rfl
  · rename_i h
    have : records.length - 10 = 0 := by omega
    simp [this]

theorem keepLast10_length_le (records : List ChangeRecord) :
    (keepLast10 records).length ≤ 10 := by
  rw [keepLast10_eq_drop, List.length_drop]
  omega

theorem toDigits_ne_nil (n : Nat) : Nat.toDigits 10 n ≠ [] := by
  intro h
  have hlen : (Nat.toDigits 10 n).length = 0 := by rw [h]; rfl
  unfold Nat.toDigits at hlen
  unfold Nat.toDigitsCore at hlen
  simp only at hlen
  split at hlen
  · simp at hlen
  · rw [Nat.toDigitsCore_lens_eq] at hlen
    omega

theorem intToString_ne_nil (x : Int) : intToString x ≠ [] := by
  cases x with
  | ofNat n => simpa [intToString] using toDigits_ne_nil n
  | negSucc n => simp [intToString]

theorem generateHash_ne_nil (content : JSString) : generateHash content ≠ [] :=
  intToString_ne_nil _

theorem reachable_hash_ne_nil (st : State) (h : Reachable st) :
    ∀ (url : JSString) (snap : Snapshot), getProp st.snapshots url = some snap → snap.hash ≠ [] := by
  induction h with
  | empty => intro url snap hs; simp [State.empty, getProp] at hs
  | pageContent st url html timestamp nowMs _ ih =>
    intro other snap hs
    have key : ∀ (content : JSString),
        getProp (setProp st.snapshots url ⟨generateHash content, content⟩) other = some snap →
        snap.hash ≠ [] := by
      intro content hc
      by_cases ho : other = url
      · subst ho
        rw [getProp_setProp_same] at hc
        cases hc
        exact generateHash_ne_nil _
      · rw [getProp_setProp_other _ _ _ _ ho] at hc
        exact ih other snap hc
    unfold PageWatch.pageContent at hs
    split at hs
    · exact ih other snap hs
    · exact ih other snap hs
    · split at hs
      · exact key _ hs
      · split at hs
        · exact key _ hs
        · split at hs
          · exact key _ hs
          · exact ih other snap hs
  | clearHistory st _ ih => intro url snap hs; exact ih url snap hs
  | clearAllData st _ ih => intro url snap hs; simp [PageWatch.clearAllData, getProp] at hs
  | dismissNotification st n _ ih => intro url snap hs; exact ih url snap hs

theorem pageContent_changed_of (st : State) (url html timestamp : JSString) (nowMs : Nat)
    (snap : Snapshot) (hsnap : getProp st.snapshots url = some snap) (hne : snap.hash ≠ [])
    (hhtml : html ≠ []) (hdiff : generateHash (cleanHtml html) ≠ snap.hash) :
    pageContent st url (some html) timestamp nowMs =
      changeDetected st url (generateHash (cleanHtml html)) (cleanHtml html) snap timestamp nowMs := by
  cases html with
  | nil => exact absurd rfl hhtml
  | cons c cs =>
    simp only [pageContent, hsnap]
    rw [if_neg hne, if_pos (Ne.symm hdiff)]

/-- C1: in a reachable state, a `pageContent` message for an address that has a
stored snapshot, with non-empty html whose fingerprint differs from the stored
hash, takes the change branch: the history of the address becomes the last 10
entries of the old history followed by the one new record (time of the call,
stored content, cleaned html), the snapshot of the address is replaced by the
new fingerprint and content, exactly one notification is created and registered
with the address and the time, and the snapshot and history of every other
address read as before. -/
theorem C1_change_detected (st : State) (url html timestamp : JSString) (nowMs : Nat)
    (snap : Snapshot) (hreach : Reachable st)
    (hsnap : getProp st.snapshots url = some snap) (hhtml : html ≠ [])
    (hdiff : generateHash (cleanHtml html) ≠ snap.hash) :
    (pageContent st url (some html) timestamp nowMs).outcome = Except.ok DetectionOutcome.Changed ∧
    getProp (pageContent st url (some html) timestamp nowMs).state.history url =
      some (List.drop (((getProp st.history url).getD []).length + 1 - 10)
        ((getProp st.history url).getD [] ++
          [ChangeRecord.mk timestamp snap.content (cleanHtml html)])) ∧
    getProp (pageContent st url (some html) timestamp nowMs).state.snapshots url =
      some ⟨generateHash (cleanHtml html), cleanHtml html⟩ ∧
    (pageContent st url (some html) timestamp nowMs).notifications =
      [⟨utf16 "change-" ++ intToString (Int.ofNat nowMs), changeMessage url⟩] ∧
    getProp (pageContent st url (some html) timestamp nowMs).state.pendingNotifications
      (utf16 "change-" ++ intToString (Int.ofNat nowMs)) = some ⟨url, timestamp⟩ ∧
    ∀ other : JSString, other ≠ url →
      getProp (pageContent st url (some html) timestamp nowMs).state.snapshots other =
        getProp st.snapshots other ∧
      getProp (pageContent st url (some html) timestamp nowMs).state.history other =
        getProp st.history other := by
  rw [pageContent_changed_of st url html timestamp nowMs snap hsnap
    (reachable_hash_ne_nil st hreach url snap hsnap) hhtml hdiff]
  refine ⟨rfl, ?_, ?_, rfl, ?_, ?_⟩
  · simp only [changeDetected]
    rw [getProp_setProp_same, keepLast10_eq_drop, List.length_append]
    rfl
  · simp only [changeDetected]
    rw [getProp_setProp_same]
  · simp only [changeDetected]
    rw [getProp_setProp_same]
  · intro other ho
    simp only [changeDetected]
    exact ⟨getProp_setProp_other _ _ _ _ ho, getProp_setProp_other _ _ _ _ ho⟩

theorem pageContent_changed_inv (st : State) (url html timestamp : JSString) (nowMs : Nat)
    (h : (pageContent st url (some html) timestamp nowMs).outcome =
      Except.ok DetectionOutcome.Changed) :
    ∃ snap : Snapshot, getProp st.snapshots url = some snap ∧
      pageContent st url (some html) timestamp nowMs =
        changeDetected st url (generateHash (cleanHtml html)) (cleanHtml html) snap
          timestamp nowMs := by
  cases html with
  | nil => simp [pageContent] at h
  | cons c cs =>
    cases hs : getProp st.snapshots url with
    | none => simp [pageContent, hs, firstSeen] at h
    | some snap =>
      refine ⟨snap, rfl, ?_⟩
      simp only [pageContent, hs] at h ⊢
      by_cases h1 : snap.hash = []
      · rw [if_pos h1] at h
        simp [firstSeen] at h
      · rw [if_neg h1] at h ⊢
        by_cases h2 : snap.hash ≠ generateHash (cleanHtml (c :: cs))
        · rw [if_pos h2]
        · rw [if_neg h2] at h
          simp at h

theorem drop_last10_append (full : List ChangeRecord) (r : ChangeRecord) :
    keepLast10 (full.drop (full.length - 10) ++ [r]) =
      (full ++ [r]).drop ((full ++ [r]).length - 10) := by
  rw [keepLast10_eq_drop]
  simp only [List.length_append, List.length_drop, List.length_singleton]
  by_cases h : full.length ≤ 10
  · have h1 : full.length - 10 = 0 := by omega
    simp only [h1, List.drop_zero, Nat.sub_zero]
  · have h1 : full.length - (full.length - 10) + 1 - 10 = 1 := by omega
    have h2 : full.length + 1 - 10 = (full.length - 10) + 1 := by omega
    rw [h1, h2]
    have h3 : full.length - 10 + 1 ≤ full.length := by omega
    rw [List.drop_append_of_le_length h3]
    have h4 : 1 ≤ (full.drop (full.length - 10)).length := by
      rw [List.length_drop]; omega
    rw [List.drop_append_of_le_length h4, List.drop_drop]

theorem expectedRecords_length (prev : JSString) (obs : List Observation) :
    (expectedRecords prev obs).length = obs.length := by
  induction obs generalizing prev with
  | nil => rfl
  | cons o os ih => simp [expectedRecords, ih]

theorem observeAll_changed (url : JSString) (obs : List Observation) :
    ∀ (st : State) (snap : Snapshot) (full : List ChangeRecord),
      getProp st.snapshots url = some snap →
      (getProp st.history url).getD [] = full.drop (full.length - 10) →
      (∀ r ∈ outcomesAll url st obs, r = Except.ok DetectionOutcome.Changed) →
      (getProp (observeAll url st obs).history url).getD [] =
          (full ++ expectedRecords snap.content obs).drop
            ((full ++ expectedRecords snap.content obs).length - 10) ∧
        (obs ≠ [] → (getProp (observeAll url st obs).history url).isSome = true) := by
  induction obs with
  | nil =>
    intro st snap full _ hh _
    simp [observeAll, expectedRecords, hh]
  | cons o os ih =>
    intro st snap full hs hh hall
    have hfirst : (pageContent st url (some o.html) o.timestamp o.nowMs).outcome =
        Except.ok DetectionOutcome.Changed :=
      hall _ (by simp [outcomesAll])
    obtain ⟨snap2, hs2, heq⟩ := pageContent_changed_inv st url o.html o.timestamp o.nowMs hfirst
    have hsnap : snap2 = snap := by
      rw [hs] at hs2
      exact (Option.some.inj hs2).symm
    subst hsnap
    have hrest : ∀ r ∈ outcomesAll url
        (pageContent st url (some o.html) o.timestamp o.nowMs).state os,
        r = Except.ok DetectionOutcome.Changed := by
      intro r hr
      exact hall r (by simp [outcomesAll, hr])
    have hsnap2 : getProp (pageContent st url (some o.html) o.timestamp o.nowMs).state.snapshots
        url = some ⟨generateHash (cleanHtml o.html), cleanHtml o.html⟩ := by
      rw [heq]
      simp only [changeDetected]
      rw [getProp_setProp_same]
    have hhist2 : getProp (pageContent st url (some o.html) o.timestamp o.nowMs).state.history
        url = some ((full ++ [ChangeRecord.mk o.timestamp snap2.content (cleanHtml o.html)]).drop
          ((full ++ [ChangeRecord.mk o.timestamp snap2.content (cleanHtml o.html)]).length
            - 10)) := by
      rw [heq]
      simp only [changeDetected]
      rw [getProp_setProp_same, hh, drop_last10_append]
    have step := ih (pageContent st url (some o.html) o.timestamp o.nowMs).state
      ⟨generateHash (cleanHtml o.html), cleanHtml o.html⟩
      (full ++ [ChangeRecord.mk o.timestamp snap2.content (cleanHtml o.html)])
      hsnap2 (by rw [hhist2]; rfl) hrest
    refine ⟨?_, ?_⟩
    · have := step.1
      simp only [observeAll, expectedRecords, List.append_assoc, List.singleton_append] at this ⊢
      exact this
    · intro _
      cases os with
      | nil => simp [observeAll, hhist2]
      | cons o2 os2 => exact step.2 (by simp)

/-- C2: from a state in which the address has a snapshot and no history, more
than 10 observations that all take the change branch leave `history[url]` with
exactly 10 records: the last 10 of the records created, oldest first, each
holding the time of its observation, the content stored before it and the
cleaned html of the observation. -/
theorem C2_retention_last_ten (st : State) (url : JSString) (snap : Snapshot)
    (obs : List Observation)
    (hsnap : getProp st.snapshots url = some snap)
    (hempty : (getProp st.history url).getD [] = [])
    (hmany : obs.length > 10)
    (hall : ∀ r ∈ outcomesAll url st obs, r = Except.ok DetectionOutcome.Changed) :
    getProp (observeAll url st obs).history url =
        some ((expectedRecords snap.content obs).drop (obs.length - 10)) ∧
      ((expectedRecords snap.content obs).drop (obs.length - 10)).length = 10 := by
  have hne : obs ≠ [] := by
    intro h
    rw [h] at hmany
    simp at hmany
  have main := observeAll_changed url obs st snap [] hsnap (by simpa using hempty) hall
  have h1 := main.1
  have h2 := main.2 hne
  simp only [List.nil_append, expectedRecords_length] at h1
  refine ⟨?_, ?_⟩
  · cases hg : getProp (observeAll url st obs).history url with
    | none => rw [hg] at h2; simp at h2
    | some recs =>
      rw [hg] at h1
      simpa using h1
  · rw [List.length_drop, expectedRecords_length]
    omega

set_option maxRecDepth 100000 in
/-- C1 at the example: the second observation of the example address. -/
theorem C1_change_detected_witness :
    (pageContent exampleStart exampleUrl (some (utf16 "<p>v1</p>")) (utf16 "t1") 1000).outcome =
        Except.ok DetectionOutcome.Changed ∧
      getProp (pageContent exampleStart exampleUrl (some (utf16 "<p>v1</p>")) (utf16 "t1")
          1000).state.history exampleUrl =
        some [ChangeRecord.mk (utf16 "t1") (utf16 "<p>v0</p>") (utf16 "<p>v1</p>")] := by
  have h := C1_change_detected exampleStart exampleUrl (utf16 "<p>v1</p>") (utf16 "t1") 1000
    ⟨generateHash (utf16 "<p>v0</p>"), utf16 "<p>v0</p>"⟩
    (Reachable.pageContent State.empty exampleUrl (some (utf16 "<p>v0</p>")) (utf16 "t0") 0
      Reachable.empty)
    (by decide) (by decide) (by decide)
  refine ⟨h.1, ?_⟩
  rw [h.2.1]
  decide

set_option maxRecDepth 100000 in
/-- C2 at the example: eleven changes leave the last ten records. -/
theorem C2_retention_last_ten_witness :
    getProp (observeAll exampleUrl exampleStart exampleObservations).history exampleUrl =
        some ((expectedRecords (utf16 "<p>v0</p>") exampleObservations).drop
          (exampleObservations.length - 10)) ∧
      ((expectedRecords (utf16 "<p>v0</p>") exampleObservations).drop
          (exampleObservations.length - 10)).length = 10 :=
  C2_retention_last_ten exampleStart exampleUrl
    ⟨generateHash (utf16 "<p>v0</p>"), utf16 "<p>v0</p>"⟩ exampleObservations
    (by decide) (by decide) (by decide) (by decide)

theorem pageContent_history_le (st : State) (url : JSString) (html : Option JSString)
    (timestamp : JSString) (nowMs : Nat)
    (ih : ∀ (other : JSString) (records : List ChangeRecord),
      getProp st.history other = some records → records.length ≤ 10)
    (other : JSString) (records : List ChangeRecord)
    (h : getProp (pageContent st url html timestamp nowMs).state.history other = some records) :
    records.length ≤ 10 := by
  unfold pageContent at h
  split at h
  · exact ih other records h
  · exact ih other records h
  · split at h
    · exact ih other records h
    · split at h
      · exact ih other records h
      · split at h
        · simp only [changeDetected] at h
          by_cases ho : other = url
          · subst ho
            rw [getProp_setProp_same] at h
            cases h
            exact keepLast10_length_le _
          · rw [getProp_setProp_other _ _ _ _ ho] at h
            exact ih other records h
        · exact ih other records h

theorem pageContent_firstSeen_of (st : State) (url html timestamp : JSString) (nowMs : Nat)
    (hnone : getProp st.snapshots url = none) (hhtml : html ≠ []) :
    pageContent st url (some html) timestamp nowMs =
      firstSeen st url (generateHash (cleanHtml html)) (cleanHtml html) := by
  cases html with
  | nil => exact absurd rfl hhtml
  | cons c cs => simp only [pageContent, hnone]

theorem pageContent_unchanged_of (st : State) (url html timestamp : JSString) (nowMs : Nat)
    (snap : Snapshot) (hsnap : getProp st.snapshots url = some snap) (hne : snap.hash ≠ [])
    (hhtml : html ≠ []) (hsame : snap.hash = generateHash (cleanHtml html)) :
    pageContent st url (some html) timestamp nowMs =
      { state := st, outcome := Except.ok DetectionOutcome.Unchanged, notifications := [] } := by
  cases html with
  | nil => exact absurd rfl hhtml
  | cons c cs =>
    simp only [pageContent, hsnap]
    rw [if_neg hne, if_neg (not_not.mpr hsame)]

/-- C3: in every state reached from the empty store by `pageContent` messages
(any address, any html, present or not), `clearHistory`, `clearAllData` and
notification endings, the history of every address holds at most 10 records. -/
theorem C3_history_at_most_ten (st : State) (h : Reachable st) (url : JSString)
    (records : List ChangeRecord) (hrec : getProp st.history url = some records) :
    records.length ≤ 10 := by
  induction h generalizing url records with
  | empty => simp [State.empty, getProp] at hrec
  | pageContent st u html timestamp nowMs _ ih =>
    exact pageContent_history_le st u html timestamp nowMs ih url records hrec
  | clearHistory st _ _ => simp [clearHistory, getProp] at hrec
  | clearAllData st _ _ => simp [clearAllData, getProp] at hrec
  | dismissNotification st n _ ih => exact ih url records hrec

set_option maxRecDepth 100000 in
/-- C3 at the example: the history after the first change of the example address. -/
theorem C3_history_at_most_ten_witness :
    getProp (pageContent exampleStart exampleUrl (some (utf16 "<p>v1</p>")) (utf16 "t1")
        1000).state.history exampleUrl =
        some [ChangeRecord.mk (utf16 "t1") (utf16 "<p>v0</p>") (utf16 "<p>v1</p>")] ∧
      [ChangeRecord.mk (utf16 "t1") (utf16 "<p>v0</p>") (utf16 "<p>v1</p>")].length ≤ 10 :=
  ⟨by decide,
    C3_history_at_most_ten
      (pageContent exampleStart exampleUrl (some (utf16 "<p>v1</p>")) (utf16 "t1") 1000).state
      (Reachable.pageContent exampleStart exampleUrl (some (utf16 "<p>v1</p>")) (utf16 "t1") 1000
        (Reachable.pageContent State.empty exampleUrl (some (utf16 "<p>v0</p>")) (utf16 "t0") 0
          Reachable.empty))
      exampleUrl [ChangeRecord.mk (utf16 "t1") (utf16 "<p>v0</p>") (utf16 "<p>v1</p>")]
      (by decide)⟩

/-- C4: a `pageContent` message with non-empty html for an address without a
stored snapshot takes the first-seen branch: it stores the fingerprint and the
cleaned html as the snapshot of the address, leaves the snapshots of the other
addresses, the whole history and the pending notifications as they were, and
creates no notification. -/
theorem C4_first_seen (st : State) (url html timestamp : JSString) (nowMs : Nat)
    (hnone : getProp st.snapshots url = none) (hhtml : html ≠ []) :
    (pageContent st url (some html) timestamp nowMs).outcome =
        Except.ok DetectionOutcome.FirstSeen ∧
      getProp (pageContent st url (some html) timestamp nowMs).state.snapshots url =
        some ⟨generateHash (cleanHtml html), cleanHtml html⟩ ∧
      (∀ other : JSString, other ≠ url →
        getProp (pageContent st url (some html) timestamp nowMs).state.snapshots other =
          getProp st.snapshots other) ∧
      (pageContent st url (some html) timestamp nowMs).state.history = st.history ∧
      (pageContent st url (some html) timestamp nowMs).state.pendingNotifications =
        st.pendingNotifications ∧
      (pageContent st url (some html) timestamp nowMs).notifications = [] := by
  rw [pageContent_firstSeen_of st url html timestamp nowMs hnone hhtml]
  refine ⟨rfl, getProp_setProp_same _ _ _, ?_, rfl, rfl, rfl⟩
  intro other ho
  exact getProp_setProp_other _ _ _ _ ho

set_option maxRecDepth 100000 in
/-- C4 at the example: the first observation of the example address. -/
theorem C4_first_seen_witness :
    (pageContent State.empty exampleUrl (some (utf16 "<p>v0</p>")) (utf16 "t0") 0).outcome =
        Except.ok DetectionOutcome.FirstSeen ∧
      (pageContent State.empty exampleUrl (some (utf16 "<p>v0</p>")) (utf16 "t0") 0).state.history
        = [] ∧
      (pageContent State.empty exampleUrl (some (utf16 "<p>v0</p>")) (utf16 "t0") 0).notifications
        = [] :=
  have h := C4_first_seen State.empty exampleUrl (utf16 "<p>v0</p>") (utf16 "t0") 0
    (by decide) (by decide)
  ⟨h.1, h.2.2.2.1, h.2.2.2.2.2⟩

/-- C5: a `pageContent` message whose html is absent or the empty string fails
as empty content, whatever the state and the address, and leaves snapshots,
history and pending notifications exactly as they were, creating no
notification. -/
theorem C5_empty_content (st : State) (url timestamp : JSString) (nowMs : Nat) :
    (pageContent st url none timestamp nowMs).outcome = Except.error ObserveError.EmptyContent ∧
      (pageContent st url none timestamp nowMs).state = st ∧
      (pageContent st url none timestamp nowMs).notifications = [] ∧
      (pageContent st url (some []) timestamp nowMs).outcome =
        Except.error ObserveError.EmptyContent ∧
      (pageContent st url (some []) timestamp nowMs).state = st ∧
      (pageContent st url (some []) timestamp nowMs).notifications = [] :=
  ⟨rfl, rfl, rfl, rfl, rfl, rfl⟩

/-- C6: for an address without a stored snapshot and non-empty html (also html
that cleans to the empty string, whose fingerprint is "0"), two `pageContent`
messages in a row with that html take the first-seen branch and then the
unchanged branch; the second leaves the whole state as the first left it (same
snapshot, no new record) and creates no notification. -/
theorem C6_observe_twice (st : State) (url html timestamp timestamp2 : JSString)
    (nowMs nowMs2 : Nat)
    (hnone : getProp st.snapshots url = none) (hhtml : html ≠ []) :
    (pageContent st url (some html) timestamp nowMs).outcome =
        Except.ok DetectionOutcome.FirstSeen ∧
      (pageContent (pageContent st url (some html) timestamp nowMs).state url (some html)
        timestamp2 nowMs2).outcome = Except.ok DetectionOutcome.Unchanged ∧
      (pageContent (pageContent st url (some html) timestamp nowMs).state url (some html)
        timestamp2 nowMs2).state = (pageContent st url (some html) timestamp nowMs).state ∧
      (pageContent (pageContent st url (some html) timestamp nowMs).state url (some html)
        timestamp2 nowMs2).notifications = [] := by
  rw [pageContent_firstSeen_of st url html timestamp nowMs hnone hhtml,
    pageContent_unchanged_of (firstSeen st url (generateHash (cleanHtml html))
      (cleanHtml html)).state url html timestamp2 nowMs2
      ⟨generateHash (cleanHtml html), cleanHtml html⟩ (getProp_setProp_same _ _ _)
      (generateHash_ne_nil _) hhtml rfl]
  exact ⟨rfl, rfl, rfl, rfl⟩

set_option maxRecDepth 100000 in
/-- C6 at an example whose html cleans to the empty string. -/
theorem C6_observe_twice_witness :
    cleanHtml (utf16 "<!-- x -->") = [] ∧
      (pageContent State.empty exampleUrl (some (utf16 "<!-- x -->")) (utf16 "t0") 0).outcome =
        Except.ok DetectionOutcome.FirstSeen ∧
      (pageContent (pageContent State.empty exampleUrl (some (utf16 "<!-- x -->")) (utf16 "t0")
        0).state exampleUrl (some (utf16 "<!-- x -->")) (utf16 "t1") 1).outcome =
        Except.ok DetectionOutcome.Unchanged :=
  have h := C6_observe_twice State.empty exampleUrl (utf16 "<!-- x -->") (utf16 "t0") (utf16 "t1")
    0 1 (by decide) (by decide)
  ⟨by decide, h.1, h.2.1⟩

/-! ## Properties of generateHash -/

theorem toInt32_eq_signed32 (x : Int) : toInt32 x = signed32 x := by
  unfold toInt32 signed32
  split <;> omega

theorem hashStep_eq (hash : Int) (char : Nat) :
    hashStep hash char = signed32 (31 * hash + (char : Int)) := by
  rw [← toInt32_eq_signed32]
  unfold hashStep toInt32
  omega

theorem signed32_range (x : Int) : -2147483648 ≤ signed32 x ∧ signed32 x ≤ 2147483647 := by
  unfold signed32
  split <;> omega

theorem signed32_modEq (x : Int) : signed32 x ≡ x [ZMOD 4294967296] := by
  unfold signed32 Int.ModEq
  split <;> omega

theorem signed32_congr (a b : Int) (h : a ≡ b [ZMOD 4294967296]) : signed32 a = signed32 b := by
  unfold Int.ModEq at h
  unfold signed32
  rw [h]

theorem signed32_idem (x : Int) : signed32 (signed32 x) = signed32 x :=
  signed32_congr _ _ (signed32_modEq x)

theorem polynomialSum_cons (c : Nat) (cs : JSString) :
    polynomialSum (c :: cs) = (c : Int) * 31 ^ cs.length + polynomialSum cs := by
  unfold polynomialSum
  rw [List.length_cons, Finset.sum_range_succ']
  simp only [List.getD_cons_succ, List.getD_cons_zero, Nat.add_sub_cancel, Nat.sub_zero]
  rw [add_comm]
  congr 1
  apply Finset.sum_congr rfl
  intro i _
  congr 2
  omega

theorem foldl_hashStep (content : JSString) :
    ∀ a : Int, signed32 a = a →
      content.foldl hashStep a = signed32 (a * 31 ^ content.length + polynomialSum content) := by
  induction content with
  | nil =>
    intro a ha
    simp [polynomialSum, ha]
  | cons c cs ih =>
    intro a _
    rw [List.foldl_cons, ih (hashStep a c) (by rw [hashStep_eq, signed32_idem]),
      polynomialSum_cons, hashStep_eq]
    apply signed32_congr
    have h1 : signed32 (31 * a + (c : Int)) * 31 ^ cs.length ≡
        (31 * a + (c : Int)) * 31 ^ cs.length [ZMOD 4294967296] :=
      Int.ModEq.mul_right _ (signed32_modEq _)
    have h2 := Int.ModEq.add_right (polynomialSum cs) h1
    have h3 : (31 * a + (c : Int)) * 31 ^ cs.length + polynomialSum cs =
        a * 31 ^ (c :: cs).length + ((c : Int) * 31 ^ cs.length + polynomialSum cs) := by
      rw [List.length_cons, pow_succ]
      ring
    rw [h3] at h2
    exact h2

theorem hashValue_eq_wrappedFold (content : JSString) : hashValue content = wrappedFold content := by
  have hfun : hashStep = fun (h : Int) (c : Nat) => signed32 (31 * h + (c : Int)) := by
    funext h c
    exact hashStep_eq h c
  unfold hashValue wrappedFold
  rw [hfun]

set_option maxRecDepth 100000 in
/-- C9: `generateHash(content)` is the decimal text of the 32-bit signed value of
the polynomial sum of `c_i * 31^(n-1-i)` over the code units of the content,
which is also the value of the fold `h := 31 * h + c_i` reduced to 32 bits
signed at every step from 0; that value lies in `[-2^31, 2^31 - 1]` and is
congruent to the polynomial modulo `2^32`; the empty string hashes to "0", and
the hash depends on the order of the code units ("ab" and "ba" differ). -/
theorem C9_generateHash_polynomial (content : JSString) :
    generateHash content = intToString (signed32 (polynomialSum content)) ∧
      generateHash content = intToString (wrappedFold content) ∧
      (-2147483648 ≤ hashValue content ∧ hashValue content ≤ 2147483647) ∧
      hashValue content ≡ polynomialSum content [ZMOD 4294967296] ∧
      generateHash [] = utf16 "0" ∧
      generateHash (utf16 "ab") ≠ generateHash (utf16 "ba") := by
  have hv : hashValue content = signed32 (polynomialSum content) := by
    have h := foldl_hashStep content 0 (by decide)
    simpa [hashValue] using h
  refine ⟨?_, ?_, ?_, ?_, by decide, by decide⟩
  · unfold generateHash
    rw [hv]
  · unfold generateHash
    rw [hashValue_eq_wrappedFold]
  · rw [hv]
    exact signed32_range _
  · rw [hv]
    exact signed32_modEq _

/-! ## Properties of the global replace -/

theorem replaceGo_nil (m : List Nat → Option Nat) (repl : List Nat) (k : Nat) :
    replaceGo m repl k [] = [] := by
  cases k <;> rfl

theorem replaceGo_skip (m : List Nat → Option Nat) (repl : List Nat) (k c : Nat)
    (cs : List Nat) : replaceGo m repl (k + 1) (c :: cs) = replaceGo m repl k cs := rfl

theorem replaceGo_none (m : List Nat → Option Nat) (repl : List Nat) (c : Nat) (cs : List Nat)
    (h : m (c :: cs) = none) : replaceGo m repl 0 (c :: cs) = c :: replaceGo m repl 0 cs := by
  simp only [replaceGo, h]

theorem replaceGo_some (m : List Nat → Option Nat) (repl : List Nat) (c n : Nat)
    (cs : List Nat) (h : m (c :: cs) = some (n + 1)) :
    replaceGo m repl 0 (c :: cs) = repl ++ replaceGo m repl n cs := by
  simp only [replaceGo, h]

theorem replaceGo_zero (m : List Nat → Option Nat) (repl : List Nat) (c : Nat) (cs : List Nat)
    (h : m (c :: cs) = some 0) : replaceGo m repl 0 (c :: cs) = c :: replaceGo m repl 0 cs := by
  simp only [replaceGo, h]

/-- A replace whose expression matches nowhere returns its subject. -/
theorem replaceAll_eq_self (m : List Nat → Option Nat) (repl : List Nat) (s : List Nat)
    (h : ∀ t : List Nat, t <:+ s → m t = none) : replaceAll m repl s = s := by
  unfold replaceAll
  induction s with
  | nil => rfl
  | cons c cs ih =>
    rw [replaceGo_none _ _ _ _ (h _ (List.suffix_refl _)),
      ih (fun t ht => h t (ht.trans (List.suffix_cons c cs)))]

/-! ## White space after cleaning -/

theorem wsNormal_nil : WsNormal [] :=
  ⟨fun _ h _ => absurd h (List.not_mem_nil _), List.chain'_nil⟩

theorem wsNormal_cons (c : Nat) (l : List Nat) :
    WsNormal (c :: l) ↔
      (isWs c = true → c = 32) ∧ (∀ y ∈ l.head?, ¬ (isWs c = true ∧ isWs y = true)) ∧
        WsNormal l := by
  unfold WsNormal
  rw [List.chain'_cons', List.forall_mem_cons]
  tauto

theorem wsNormal_tail (c : Nat) (l : List Nat) (h : WsNormal (c :: l)) : WsNormal l :=
  ((wsNormal_cons c l).mp h).2.2

theorem wsMatch_ws (c : Nat) (cs : List Nat) (h : isWs c = true) :
    wsMatch (c :: cs) = some (spanLen isWs cs + 1) := by
  simp [wsMatch, spanLen, h]

theorem wsMatch_not_ws (c : Nat) (cs : List Nat) (h : isWs c = false) :
    wsMatch (c :: cs) = none := by
  simp [wsMatch, spanLen, h]

/-- The result of `/\s+/g` to one space is in normal form. -/
theorem wsNormal_collapse (s : List Nat) :
    WsNormal (replaceGo wsMatch [32] 0 s) ∧
      WsNormal (replaceGo wsMatch [32] (spanLen isWs s) s) ∧
      ∀ y ∈ (replaceGo wsMatch [32] (spanLen isWs s) s).head?, isWs y = false := by
  induction s with
  | nil =>
    simp only [replaceGo_nil]
    exact ⟨wsNormal_nil, wsNormal_nil, fun y hy => by cases hy⟩
  | cons c cs ih =>
    obtain ⟨ih0, ihk, ihh⟩ := ih
    cases hc : isWs c with
    | true =>
      have hspan : spanLen isWs (c :: cs) = spanLen isWs cs + 1 := by simp [spanLen, hc]
      rw [replaceGo_some _ _ _ _ _ (wsMatch_ws c cs hc), hspan, replaceGo_skip]
      refine ⟨?_, ihk, ihh⟩
      show WsNormal (32 :: replaceGo wsMatch [32] (spanLen isWs cs) cs)
      rw [wsNormal_cons]
      refine ⟨fun _ => rfl, ?_, ihk⟩
      intro y hy hboth
      rw [ihh y hy] at hboth
      exact Bool.false_ne_true hboth.2
    | false =>
      have hspan : spanLen isWs (c :: cs) = 0 := by simp [spanLen, hc]
      rw [hspan, replaceGo_none _ _ _ _ (wsMatch_not_ws c cs hc)]
      have hn : WsNormal (c :: replaceGo wsMatch [32] 0 cs) := by
        rw [wsNormal_cons]
        refine ⟨fun h => ?_, ?_, ih0⟩
        · rw [hc] at h; exact absurd h Bool.false_ne_true
        · intro y _ hboth
          rw [hc] at hboth
          exact Bool.false_ne_true hboth.1
      refine ⟨hn, hn, ?_⟩
      intro y hy
      simp only [List.head?_cons, Option.mem_def, Option.some.injEq] at hy
      rw [← hy]; exact hc

/-- On white space in normal form `/\s+/g` to one space changes nothing. -/
theorem collapse_of_wsNormal (s : List Nat) (h : WsNormal s) :
    replaceAll wsMatch [32] s = s := by
  unfold replaceAll
  induction s with
  | nil => rfl
  | cons c cs ih =>
    obtain ⟨h1, h2, h3⟩ := (wsNormal_cons c cs).mp h
    cases hc : isWs c with
    | false => rw [replaceGo_none _ _ _ _ (wsMatch_not_ws c cs hc), ih h3]
    | true =>
      have hspan : spanLen isWs cs = 0 := by
        cases cs with
        | nil => rfl
        | cons d ds =>
          have hd : isWs d = false := by
            cases hd : isWs d with
            | false => rfl
            | true => exact absurd ⟨hc, hd⟩ (h2 d rfl)
          simp [spanLen, hd]
      have hm := wsMatch_ws c cs hc
      rw [hspan] at hm
      rw [replaceGo_some _ _ _ _ _ hm, ih h3, h1 hc]
      rfl

theorem wsNormal_of_within (s t : List Nat) (h : WsNormal s) (ht : t <:+: s) : WsNormal t :=
  ⟨fun c hc => h.1 c (ht.subset hc), List.Chain'.infix h.2 ht⟩

theorem trim_within (s : List Nat) : trim s <:+: s := by
  have h1 : trim s <+: s.dropWhile isWs := by
    have := @List.rdropWhile_prefix _ isWs (s.dropWhile isWs)
    exact this
  exact h1.isInfix.trans (List.dropWhile_suffix isWs).isInfix

theorem trim_trim (s : List Nat) : trim (trim s) = trim s := by
  have hrd : trim s = (s.dropWhile isWs).rdropWhile isWs := rfl
  have hstart : (trim s).dropWhile isWs = trim s := by
    rw [List.dropWhile_eq_self_iff]
    intro hl
    have hpre : trim s <+: s.dropWhile isWs := by
      rw [hrd]; exact List.rdropWhile_prefix _ _
    obtain ⟨u, hu⟩ := hpre
    have hpos : 0 < (s.dropWhile isWs).length := by
      rw [← hu, List.length_append]; omega
    have hnot := List.dropWhile_get_zero_not isWs s hpos
    have hget : (trim s).get ⟨0, hl⟩ = (s.dropWhile isWs).get ⟨0, hpos⟩ := by
      simp only [List.get_eq_getElem]
      simp only [← hu]
      rw [List.getElem_append_left]
    rw [hget]
    exact hnot
  show ((trim s).dropWhile isWs).rdropWhile isWs = trim s
  rw [hstart, hrd, List.rdropWhile_idempotent]

/-! ## The date-time replacement -/

theorem isoMatch_cases (t : List Nat) : isoMatch t = none ∨ isoMatch t = some (18 + 1) := by
  unfold isoMatch
  split
  · exact Or.inr rfl
  · exact Or.inl rfl

theorem isoMatch_none_of_not_digit (c : Nat) (cs : List Nat) (h : isDigit c = false) :
    isoMatch (c :: cs) = none := by
  simp [isoMatch, isoAtoms, startsWithAtoms, Atom.accepts, h]

theorem isoMatch_nil : isoMatch [] = none := rfl

theorem wsNormal_append_of_not_ws (pre rest : List Nat) (hpre : ∀ c ∈ pre, isWs c = false)
    (h : WsNormal rest) : WsNormal (pre ++ rest) := by
  induction pre with
  | nil => exact h
  | cons c cs ih =>
    have hc : isWs c = false := hpre c (List.mem_cons_self _ _)
    show WsNormal (c :: (cs ++ rest))
    rw [wsNormal_cons]
    refine ⟨fun hw => ?_, fun y _ hboth => ?_, ih (fun d hd => hpre d (List.mem_cons_of_mem _ hd))⟩
    · rw [hc] at hw; exact absurd hw Bool.false_ne_true
    · rw [hc] at hboth; exact Bool.false_ne_true hboth.1

theorem head_replaceGo_iso (s : List Nat) :
    ∀ y ∈ (replaceGo isoMatch timestampToken 0 s).head?, y = 91 ∨ y ∈ s.head? := by
  intro y hy
  cases s with
  | nil => rw [replaceGo_nil] at hy; cases hy
  | cons c cs =>
    rcases isoMatch_cases (c :: cs) with hm | hm
    · rw [replaceGo_none _ _ _ _ hm] at hy
      exact Or.inr hy
    · rw [replaceGo_some _ _ _ _ _ hm] at hy
      left
      simp only [timestampToken, Option.mem_def] at hy
      have hh : (utf16 "[TIMESTAMP]" ++ replaceGo isoMatch (utf16 "[TIMESTAMP]") 18 cs).head?
          = some 91 := rfl
      rw [hh] at hy
      exact (Option.some.inj hy).symm

/-- The date-time replacement keeps white space in normal form. -/
theorem wsNormal_replaceGo_iso (s : List Nat) :
    ∀ k : Nat, WsNormal s → WsNormal (replaceGo isoMatch timestampToken k s) := by
  induction s with
  | nil => intro k _; rw [replaceGo_nil]; exact wsNormal_nil
  | cons c cs ih =>
    intro k h
    have htail := wsNormal_tail c cs h
    cases k with
    | succ k => rw [replaceGo_skip]; exact ih k htail
    | zero =>
      rcases isoMatch_cases (c :: cs) with hm | hm
      · rw [replaceGo_none _ _ _ _ hm, wsNormal_cons]
        obtain ⟨h1, h2, _⟩ := (wsNormal_cons c cs).mp h
        refine ⟨h1, ?_, ih 0 htail⟩
        intro y hy
        rcases head_replaceGo_iso cs y hy with h91 | hhead
        · intro hboth
          rw [h91] at hboth
          exact absurd hboth.2 (by decide)
        · exact h2 y hhead
      · rw [replaceGo_some _ _ _ _ _ hm]
        exact wsNormal_append_of_not_ws _ _ (by decide) (ih 18 htail)

theorem startsWithAtoms_replaceGo_iso (s : List Nat) :
    ∀ atoms : List Atom, (∀ a ∈ atoms, a.accepts 91 = false) →
      startsWithAtoms atoms (replaceGo isoMatch timestampToken 0 s) = true →
      startsWithAtoms atoms s = true := by
  induction s with
  | nil => intro atoms _ h; rw [replaceGo_nil] at h; exact h
  | cons c cs ih =>
    intro atoms hat h
    cases atoms with
    | nil => rfl
    | cons a rest =>
      rcases isoMatch_cases (c :: cs) with hm | hm
      · rw [replaceGo_none _ _ _ _ hm] at h
        simp only [startsWithAtoms, Bool.and_eq_true] at h ⊢
        exact ⟨h.1, ih rest (fun b hb => hat b (List.mem_cons_of_mem _ hb)) h.2⟩
      · rw [replaceGo_some _ _ _ _ _ hm] at h
        have h91 : a.accepts 91 = false := hat a (List.mem_cons_self _ _)
        have hh : startsWithAtoms (a :: rest)
            (timestampToken ++ replaceGo isoMatch timestampToken 18 cs) =
            (a.accepts 91 && startsWithAtoms rest
              ((utf16 "TIMESTAMP]") ++ replaceGo isoMatch timestampToken 18 cs)) := rfl
        rw [hh, h91] at h
        simp at h

theorem isoMatch_none_append (pre rest : List Nat) (hpre : ∀ c ∈ pre, isDigit c = false)
    (h : ∀ t : List Nat, t <:+ rest → isoMatch t = none) :
    ∀ t : List Nat, t <:+ pre ++ rest → isoMatch t = none := by
  induction pre with
  | nil => exact h
  | cons c cs ih =>
    intro t ht
    rcases List.suffix_cons_iff.mp ht with heq | hsuf
    · rw [heq]
      exact isoMatch_none_of_not_digit c _ (hpre c (List.mem_cons_self _ _))
    · exact ih (fun d hd => hpre d (List.mem_cons_of_mem _ hd)) t hsuf

/-- After the date-time replacement no date-time is left anywhere. -/
theorem isoMatch_none_replaceGo (s : List Nat) :
    ∀ (k : Nat) (t : List Nat), t <:+ replaceGo isoMatch timestampToken k s →
      isoMatch t = none := by
  induction s with
  | nil =>
    intro k t ht
    rw [replaceGo_nil] at ht
    rw [List.suffix_nil.mp ht]
    rfl
  | cons c cs ih =>
    intro k t ht
    cases k with
    | succ k => rw [replaceGo_skip] at ht; exact ih k t ht
    | zero =>
      rcases isoMatch_cases (c :: cs) with hm | hm
      · have heq := replaceGo_none isoMatch timestampToken c cs hm
        rw [heq] at ht
        rcases List.suffix_cons_iff.mp ht with hwhole | hsuf
        · cases hres : isoMatch t with
          | none => rfl
          | some n =>
            exfalso
            have hstart : startsWithAtoms isoAtoms t = true := by
              unfold isoMatch at hres
              split at hres
              · assumption
              · cases hres
            rw [hwhole, ← heq] at hstart
            have := startsWithAtoms_replaceGo_iso (c :: cs) isoAtoms (by decide) hstart
            simp [isoMatch, this] at hm
        · exact ih 0 t hsuf
      · rw [replaceGo_some _ _ _ _ _ hm] at ht
        exact isoMatch_none_append _ _ (by decide) (ih 18) t ht

theorem startsWithAtoms_append (atoms : List Atom) :
    ∀ (t u : List Nat), startsWithAtoms atoms t = true → startsWithAtoms atoms (t ++ u) = true := by
  induction atoms with
  | nil => intro t u _; rfl
  | cons a rest ih =>
    intro t u h
    cases t with
    | nil => simp [startsWithAtoms] at h
    | cons c cs =>
      simp only [startsWithAtoms, Bool.and_eq_true, List.cons_append] at h ⊢
      exact ⟨h.1, ih cs u h.2⟩

theorem isoMatch_none_of_within (s y : List Nat) (hy : y <:+: s)
    (h : ∀ t : List Nat, t <:+ s → isoMatch t = none) :
    ∀ t : List Nat, t <:+ y → isoMatch t = none := by
  intro t ht
  obtain ⟨a, b, hab⟩ := hy
  obtain ⟨v, hv⟩ := ht
  have hsuf : t ++ b <:+ s := ⟨a ++ v, by rw [← hab, ← hv]; simp⟩
  have hnone := h _ hsuf
  cases hres : isoMatch t with
  | none => rfl
  | some n =>
    exfalso
    have hstart : startsWithAtoms isoAtoms t = true := by
      unfold isoMatch at hres
      split at hres
      · assumption
      · cases hres
    have := startsWithAtoms_append isoAtoms t b hstart
    simp [isoMatch, this] at hnone

/-! ## Patterns that occur nowhere -/

theorem startsWith_eq_by (pat : List Nat) :
    ∀ t : List Nat, startsWith pat t = startsWithBy (fun a c => a == c) pat t := by
  induction pat with
  | nil => intro t; rfl
  | cons p ps ih =>
    intro t
    cases t with
    | nil => rfl
    | cons c cs => simp only [startsWith, startsWithBy, ih cs]

theorem startsWithCI_eq_by (pat : List Nat) :
    ∀ t : List Nat,
      startsWithCI pat t = startsWithBy (fun a c => asciiUpper a == asciiUpper c) pat t := by
  induction pat with
  | nil => intro t; rfl
  | cons p ps ih =>
    intro t
    cases t with
    | nil => rfl
    | cons c cs => simp only [startsWithCI, startsWithBy, ih cs]

theorem startsWithBy_append {α : Type} (acc : α → Nat → Bool) (pat : List α) :
    ∀ (t u : List Nat), startsWithBy acc pat t = true → startsWithBy acc pat (t ++ u) = true := by
  induction pat with
  | nil => intro t u _; rfl
  | cons a rest ih =>
    intro t u h
    cases t with
    | nil => simp [startsWithBy] at h
    | cons c cs =>
      simp only [startsWithBy, Bool.and_eq_true, List.cons_append] at h ⊢
      exact ⟨h.1, ih cs u h.2⟩

/-- A pattern that starts nowhere in a string starts nowhere in a part of it. -/
theorem nowhere_of_within {α : Type} (acc : α → Nat → Bool) (pat : List α) (s y : List Nat)
    (hy : y <:+: s) (h : ∀ t : List Nat, t <:+ s → startsWithBy acc pat t = false) :
    ∀ t : List Nat, t <:+ y → startsWithBy acc pat t = false := by
  intro t ht
  obtain ⟨a, b, hab⟩ := hy
  obtain ⟨v, hv⟩ := ht
  have hsuf : t ++ b <:+ s := ⟨a ++ v, by rw [← hab, ← hv]; simp⟩
  have hnone := h _ hsuf
  cases hres : startsWithBy acc pat t with
  | false => rfl
  | true =>
    rw [startsWithBy_append acc pat t b hres] at hnone
    exact absurd hnone (by decide)

theorem nowhere_append {α : Type} (acc : α → Nat → Bool) (p : α) (ps : List α)
    (pre rest : List Nat) (hpre : ∀ c ∈ pre, acc p c = false)
    (h : ∀ t : List Nat, t <:+ rest → startsWithBy acc (p :: ps) t = false) :
    ∀ t : List Nat, t <:+ pre ++ rest → startsWithBy acc (p :: ps) t = false := by
  induction pre with
  | nil => exact h
  | cons c cs ih =>
    intro t ht
    rcases List.suffix_cons_iff.mp ht with heq | hsuf
    · rw [heq]
      show startsWithBy acc (p :: ps) (c :: (cs ++ rest)) = false
      simp [startsWithBy, hpre c (List.mem_cons_self _ _)]
    · exact ih (fun d hd => hpre d (List.mem_cons_of_mem _ hd)) t hsuf

theorem startsWithBy_collapse {α : Type} (acc : α → Nat → Bool) (s : List Nat) :
    ∀ pat : List α, (∀ a ∈ pat, acc a 32 = false) →
      startsWithBy acc pat (replaceGo wsMatch [32] 0 s) = true →
      startsWithBy acc pat s = true := by
  induction s with
  | nil => intro pat _ h; rw [replaceGo_nil] at h; exact h
  | cons c cs ih =>
    intro pat hpat h
    cases pat with
    | nil => rfl
    | cons a rest =>
      cases hc : isWs c with
      | true =>
        rw [replaceGo_some _ _ _ _ _ (wsMatch_ws c cs hc)] at h
        have h32 : acc a 32 = false := hpat a (List.mem_cons_self _ _)
        have hh : startsWithBy acc (a :: rest)
            ([32] ++ replaceGo wsMatch [32] (spanLen isWs cs) cs) =
            (acc a 32 && startsWithBy acc rest (replaceGo wsMatch [32] (spanLen isWs cs) cs)) :=
          rfl
        rw [hh, h32] at h
        simp at h
      | false =>
        rw [replaceGo_none _ _ _ _ (wsMatch_not_ws c cs hc)] at h
        simp only [startsWithBy, Bool.and_eq_true] at h ⊢
        exact ⟨h.1, ih rest (fun b hb => hpat b (List.mem_cons_of_mem _ hb)) h.2⟩

/-- A pattern without white space that starts nowhere in a string starts nowhere
after `/\s+/g` was replaced by one space. -/
theorem nowhere_collapse {α : Type} (acc : α → Nat → Bool) (pat : List α)
    (hpat : ∀ a ∈ pat, acc a 32 = false) (s : List Nat) :
    ∀ k : Nat, (∀ t : List Nat, t <:+ s → startsWithBy acc pat t = false) →
      ∀ t : List Nat, t <:+ replaceGo wsMatch [32] k s → startsWithBy acc pat t = false := by
  induction s with
  | nil =>
    intro k h t ht
    rw [replaceGo_nil] at ht
    exact h t ht
  | cons c cs ih =>
    intro k h t ht
    have htail : ∀ t : List Nat, t <:+ cs → startsWithBy acc pat t = false :=
      fun u hu => h u (hu.trans (List.suffix_cons c cs))
    cases k with
    | succ k => rw [replaceGo_skip] at ht; exact ih k htail t ht
    | zero =>
      cases pat with
      | nil => exact absurd (h [] List.nil_suffix) (by simp [startsWithBy])
      | cons a rest =>
        cases hc : isWs c with
        | true =>
          rw [replaceGo_some _ _ _ _ _ (wsMatch_ws c cs hc)] at ht
          exact nowhere_append acc a rest [32] _
            (fun d hd => by
              rw [List.mem_singleton.mp hd]
              exact hpat a (List.mem_cons_self _ _))
            (ih (spanLen isWs cs) htail) t ht
        | false =>
          have heq := replaceGo_none wsMatch [32] c cs (wsMatch_not_ws c cs hc)
          rw [heq] at ht
          rcases List.suffix_cons_iff.mp ht with hwhole | hsuf
          · cases hres : startsWithBy acc (a :: rest) t with
            | false => rfl
            | true =>
              rw [hwhole, ← heq] at hres
              have := startsWithBy_collapse acc (c :: cs) (a :: rest) hpat hres
              rw [h (c :: cs) (List.suffix_refl _)] at this
              exact absurd this (by decide)
          · exact ih 0 htail t hsuf

theorem startsWithBy_replaceGo_iso {α : Type} (acc : α → Nat → Bool) (s : List Nat) :
    ∀ pat : List α, (∀ a ∈ pat, acc a 91 = false) →
      startsWithBy acc pat (replaceGo isoMatch timestampToken 0 s) = true →
      startsWithBy acc pat s = true := by
  induction s with
  | nil => intro pat _ h; rw [replaceGo_nil] at h; exact h
  | cons c cs ih =>
    intro pat hpat h
    cases pat with
    | nil => rfl
    | cons a rest =>
      rcases isoMatch_cases (c :: cs) with hm | hm
      · rw [replaceGo_none _ _ _ _ hm] at h
        simp only [startsWithBy, Bool.and_eq_true] at h ⊢
        exact ⟨h.1, ih rest (fun b hb => hpat b (List.mem_cons_of_mem _ hb)) h.2⟩
      · rw [replaceGo_some _ _ _ _ _ hm] at h
        have h91 : acc a 91 = false := hpat a (List.mem_cons_self _ _)
        have hh : startsWithBy acc (a :: rest)
            (timestampToken ++ replaceGo isoMatch timestampToken 18 cs) =
            (acc a 91 && startsWithBy acc rest
              ((utf16 "TIMESTAMP]") ++ replaceGo isoMatch timestampToken 18 cs)) := rfl
        rw [hh, h91] at h
        simp at h

/-- A pattern that cannot start inside `[TIMESTAMP]` nor run over its `[`, and
that starts nowhere in a string, starts nowhere after the date-time
replacement. -/
theorem nowhere_replaceGo_iso {α : Type} (acc : α → Nat → Bool) (p : α) (ps : List α)
    (hpat : ∀ a ∈ p :: ps, acc a 91 = false) (hhead : ∀ c ∈ timestampToken, acc p c = false)
    (s : List Nat) :
    ∀ k : Nat, (∀ t : List Nat, t <:+ s → startsWithBy acc (p :: ps) t = false) →
      ∀ t : List Nat, t <:+ replaceGo isoMatch timestampToken k s →
        startsWithBy acc (p :: ps) t = false := by
  induction s with
  | nil =>
    intro k h t ht
    rw [replaceGo_nil] at ht
    exact h t ht
  | cons c cs ih =>
    intro k h t ht
    have htail : ∀ t : List Nat, t <:+ cs → startsWithBy acc (p :: ps) t = false :=
      fun u hu => h u (hu.trans (List.suffix_cons c cs))
    cases k with
    | succ k => rw [replaceGo_skip] at ht; exact ih k htail t ht
    | zero =>
      rcases isoMatch_cases (c :: cs) with hm | hm
      · have heq := replaceGo_none isoMatch timestampToken c cs hm
        rw [heq] at ht
        rcases List.suffix_cons_iff.mp ht with hwhole | hsuf
        · cases hres : startsWithBy acc (p :: ps) t with
          | false => rfl
          | true =>
            rw [hwhole, ← heq] at hres
            have := startsWithBy_replaceGo_iso acc (c :: cs) (p :: ps) hpat hres
            rw [h (c :: cs) (List.suffix_refl _)] at this
            exact absurd this (by decide)
        · exact ih 0 htail t hsuf
      · rw [replaceGo_some _ _ _ _ _ hm] at ht
        exact nowhere_append acc p ps timestampToken _ hhead (ih 18 htail) t ht

theorem findCI_none (p : Nat) (ps s : List Nat) (h : findCI (p :: ps) s = none) :
    ∀ t : List Nat, t <:+ s → startsWithCI (p :: ps) t = false := by
  induction s with
  | nil =>
    intro t ht
    rw [List.suffix_nil.mp ht]
    rfl
  | cons c cs ih =>
    intro t ht
    unfold findCI at h
    split at h
    · cases h
    · rename_i hne
      rcases List.suffix_cons_iff.mp ht with hwhole | hsuf
      · rw [hwhole]
        simpa using hne
      · exact ih (by simpa using h) t hsuf

theorem findExact_none (p : Nat) (ps s : List Nat) (h : findExact (p :: ps) s = none) :
    ∀ t : List Nat, t <:+ s → startsWith (p :: ps) t = false := by
  induction s with
  | nil =>
    intro t ht
    rw [List.suffix_nil.mp ht]
    rfl
  | cons c cs ih =>
    intro t ht
    unfold findExact at h
    split at h
    · cases h
    · rename_i hne
      rcases List.suffix_cons_iff.mp ht with hwhole | hsuf
      · rw [hwhole]
        simpa using hne
      · exact ih (by simpa using h) t hsuf

theorem elementMatch_none (openTag closeTag t : List Nat) (h : startsWithCI openTag t = false) :
    elementMatch openTag closeTag t = none := by
  simp [elementMatch, h]

theorem commentMatch_none (t : List Nat) (h : startsWith (utf16 "<!--") t = false) :
    commentMatch t = none := by
  simp [commentMatch, h]

theorem attrMatch_none (pre t : List Nat) (h : startsWith pre t = false) :
    attrMatch pre t = none := by
  simp [attrMatch, h]

/-! ## cleanHtml applied twice -/

/-- The three stages of `cleanHtml` that act on html without openers keep a
pattern from starting anywhere, when the pattern has no space and no `[` and
cannot start inside `[TIMESTAMP]`. -/
theorem nowhere_stages {α : Type} (acc : α → Nat → Bool) (p : α) (ps : List α)
    (h32 : ∀ a ∈ p :: ps, acc a 32 = false) (h91 : ∀ a ∈ p :: ps, acc a 91 = false)
    (hhead : ∀ c ∈ timestampToken, acc p c = false) (s : List Nat)
    (h : ∀ t : List Nat, t <:+ s → startsWithBy acc (p :: ps) t = false) :
    (∀ t : List Nat, t <:+ replaceAll wsMatch [32] s → startsWithBy acc (p :: ps) t = false) ∧
      (∀ t : List Nat,
        t <:+ trim (replaceAll isoMatch timestampToken (replaceAll wsMatch [32] s)) →
        startsWithBy acc (p :: ps) t = false) := by
  have hw := nowhere_collapse acc (p :: ps) h32 s 0 h
  have hi := nowhere_replaceGo_iso acc p ps h91 hhead (replaceAll wsMatch [32] s) 0 hw
  exact ⟨hw, nowhere_of_within acc (p :: ps) _ _ (trim_within _) hi⟩

set_option maxRecDepth 100000 in
theorem noOpener_stages (s : List Nat) (h : NoOpener s) :
    NoOpener (replaceAll wsMatch [32] s) ∧
      NoOpener (trim (replaceAll isoMatch timestampToken (replaceAll wsMatch [32] s))) := by
  obtain ⟨h1, h2, h3, h4, h5⟩ := h
  simp only [startsWithCI_eq_by, startsWith_eq_by] at h1 h2 h3 h4 h5
  have k1 := nowhere_stages (fun a c => asciiUpper a == asciiUpper c) 60 (utf16 "script")
    (by decide) (by decide) (by decide) s h1
  have k2 := nowhere_stages (fun a c => asciiUpper a == asciiUpper c) 60 (utf16 "style")
    (by decide) (by decide) (by decide) s h2
  have k3 := nowhere_stages (fun a c => a == c) 60 (utf16 "!--")
    (by decide) (by decide) (by decide) s h3
  have k4 := nowhere_stages (fun a c => a == c) 116 (utf16 "imestamp=\"")
    (by decide) (by decide) (by decide) s h4
  have k5 := nowhere_stages (fun a c => a == c) 100 (utf16 "ata-time=\"")
    (by decide) (by decide) (by decide) s h5
  unfold NoOpener
  simp only [startsWithCI_eq_by, startsWith_eq_by]
  exact ⟨⟨k1.1, k2.1, k3.1, k4.1, k5.1⟩, ⟨k1.2, k2.2, k3.2, k4.2, k5.2⟩⟩

/-- On html without openers only the white-space collapse, the date-time
replacement and `trim` act. -/
theorem cleanHtml_of_noOpener (s : JSString) (h : NoOpener s) :
    cleanHtml s = trim (replaceAll isoMatch timestampToken (replaceAll wsMatch [32] s)) := by
  have hw := (noOpener_stages s h).1
  obtain ⟨h1, h2, h3, _, _⟩ := h
  obtain ⟨_, _, _, h4, h5⟩ := hw
  have e1 : replaceAll (elementMatch (utf16 "<script") (utf16 "</script>")) [] s = s :=
    replaceAll_eq_self _ _ s (fun t ht => elementMatch_none _ _ t (h1 t ht))
  have e2 : replaceAll (elementMatch (utf16 "<style") (utf16 "</style>")) [] s = s :=
    replaceAll_eq_self _ _ s (fun t ht => elementMatch_none _ _ t (h2 t ht))
  have e3 : replaceAll commentMatch [] s = s :=
    replaceAll_eq_self _ _ s (fun t ht => commentMatch_none t (h3 t ht))
  have e5 : replaceAll (attrMatch (utf16 "timestamp=\"")) [] (replaceAll wsMatch [32] s) =
      replaceAll wsMatch [32] s :=
    replaceAll_eq_self _ _ _ (fun t ht => attrMatch_none _ t (h4 t ht))
  have e6 : replaceAll (attrMatch (utf16 "data-time=\"")) [] (replaceAll wsMatch [32] s) =
      replaceAll wsMatch [32] s :=
    replaceAll_eq_self _ _ _ (fun t ht => attrMatch_none _ t (h5 t ht))
  have hsp : utf16 " " = [32] := rfl
  unfold cleanHtml
  rw [e1, e2, e3, hsp, e5, e6]
  rfl

/-- On html in which none of `<script`, `<style` (in any letter case), `<!--`,
`timestamp="` and `data-time="` occurs, cleaning twice gives the same as
cleaning once. -/
theorem cleanHtml_twice_without_openers (html : JSString)
    (hscript : findCI (utf16 "<script") html = none)
    (hstyle : findCI (utf16 "<style") html = none)
    (hcomment : findExact (utf16 "<!--") html = none)
    (htimestamp : findExact (utf16 "timestamp=\"") html = none)
    (hdatatime : findExact (utf16 "data-time=\"") html = none) :
    cleanHtml (cleanHtml html) = cleanHtml html := by
  have hno : NoOpener html :=
    ⟨findCI_none 60 (utf16 "script") html hscript, findCI_none 60 (utf16 "style") html hstyle,
      findExact_none 60 (utf16 "!--") html hcomment,
      findExact_none 116 (utf16 "imestamp=\"") html htimestamp,
      findExact_none 100 (utf16 "ata-time=\"") html hdatatime⟩
  have hno2 := (noOpener_stages html hno).2
  rw [cleanHtml_of_noOpener html hno, cleanHtml_of_noOpener _ hno2]
  have hinf := trim_within (replaceAll isoMatch timestampToken (replaceAll wsMatch [32] html))
  have hnormal : WsNormal
      (trim (replaceAll isoMatch timestampToken (replaceAll wsMatch [32] html))) :=
    wsNormal_of_within _ _
      (wsNormal_replaceGo_iso _ 0 (wsNormal_collapse html).1) hinf
  have hiso : ∀ t : List Nat,
      t <:+ trim (replaceAll isoMatch timestampToken (replaceAll wsMatch [32] html)) →
      isoMatch t = none :=
    isoMatch_none_of_within _ _ hinf (isoMatch_none_replaceGo _ 0)
  rw [collapse_of_wsNormal _ hnormal, replaceAll_eq_self _ _ _ hiso, trim_trim]

/-! ## The strings that cleanHtml leaves as they are -/

theorem replaceGo_length_le (m : List Nat → Option Nat) (repl : List Nat)
    (H : ∀ (t : List Nat) (n : Nat), m t = some (n + 1) →
      repl.length + (t.length - (n + 1)) ≤ t.length) :
    ∀ (s : List Nat) (k : Nat), (replaceGo m repl k s).length ≤ s.length - k := by
  intro s
  induction s with
  | nil => intro k; rw [replaceGo_nil]; simp
  | cons c cs ih =>
    intro k
    cases k with
    | succ k =>
      rw [replaceGo_skip]
      have h1 := ih k
      simp only [List.length_cons]
      omega
    | zero =>
      cases hm : m (c :: cs) with
      | none =>
        rw [replaceGo_none _ _ _ _ hm]
        have h1 := ih 0
        simp only [List.length_cons]
        omega
      | some j =>
        cases j with
        | zero =>
          rw [replaceGo_zero _ _ _ _ hm]
          have h1 := ih 0
          simp only [List.length_cons]
          omega
        | succ n =>
          rw [replaceGo_some _ _ _ _ _ hm, List.length_append]
          have h1 := ih n
          have h2 := H _ _ hm
          simp only [List.length_cons] at h2 ⊢
          omega

theorem replaceAll_length_le (m : List Nat → Option Nat) (repl : List Nat)
    (H : ∀ (t : List Nat) (n : Nat), m t = some (n + 1) →
      repl.length + (t.length - (n + 1)) ≤ t.length) (s : List Nat) :
    (replaceAll m repl s).length ≤ s.length := by
  have h := replaceGo_length_le m repl H s 0
  simpa [replaceAll] using h

theorem replaceGo_length_eq (m : List Nat → Option Nat) (repl : List Nat)
    (H : ∀ (t : List Nat) (n : Nat), m t = some (n + 1) →
      repl.length + (t.length - (n + 1)) < t.length)
    (hpos : ∀ t : List Nat, m t ≠ some 0) (hnil : m [] = none) :
    ∀ s : List Nat, (replaceGo m repl 0 s).length = s.length →
      ∀ t : List Nat, t <:+ s → m t = none := by
  intro s
  induction s with
  | nil =>
    intro _ t ht
    rw [List.suffix_nil.mp ht]
    exact hnil
  | cons c cs ih =>
    intro hlen t ht
    cases hm : m (c :: cs) with
    | none =>
      rw [replaceGo_none _ _ _ _ hm] at hlen
      simp only [List.length_cons, Nat.add_right_cancel_iff] at hlen
      rcases List.suffix_cons_iff.mp ht with e | hs
      · rw [e]; exact hm
      · exact ih hlen t hs
    | some j =>
      cases j with
      | zero => exact absurd hm (hpos _)
      | succ n =>
        exfalso
        rw [replaceGo_some _ _ _ _ _ hm, List.length_append] at hlen
        have h1 := replaceGo_length_le m repl (fun t n h => Nat.le_of_lt (H t n h)) cs n
        have h2 := H _ _ hm
        simp only [List.length_cons] at h2 hlen
        omega

theorem replaceAll_eq_self_of_length (m : List Nat → Option Nat) (repl : List Nat)
    (H : ∀ (t : List Nat) (n : Nat), m t = some (n + 1) →
      repl.length + (t.length - (n + 1)) < t.length)
    (hpos : ∀ t : List Nat, m t ≠ some 0) (hnil : m [] = none) (s : List Nat)
    (hlen : s.length ≤ (replaceAll m repl s).length) :
    (∀ t : List Nat, t <:+ s → m t = none) ∧ replaceAll m repl s = s := by
  have hle := replaceAll_length_le m repl (fun t n h => Nat.le_of_lt (H t n h)) s
  have hnone := replaceGo_length_eq m repl H hpos hnil s (Nat.le_antisymm hle hlen)
  exact ⟨hnone, replaceAll_eq_self m repl s hnone⟩

theorem removal_shrinks (m : List Nat → Option Nat) (hnil : m [] = none) :
    ∀ (t : List Nat) (n : Nat), m t = some (n + 1) →
      ([] : List Nat).length + (t.length - (n + 1)) < t.length := by
  intro t n h
  cases t with
  | nil => rw [hnil] at h; cases h
  | cons c cs => simp only [List.length_nil, List.length_cons]; omega

theorem elementMatch_ne_zero (openTag closeTag t : List Nat) (h : closeTag ≠ []) :
    elementMatch openTag closeTag t ≠ some 0 := by
  have hl : 0 < closeTag.length := List.length_pos.mpr h
  unfold elementMatch
  split
  · split
    · simp
    · split
      · simp
      · intro hm
        rw [Option.map_eq_some'] at hm
        obtain ⟨j, _, hj⟩ := hm
        omega
  · simp

theorem commentMatch_ne_zero (t : List Nat) : commentMatch t ≠ some 0 := by
  unfold commentMatch
  split
  · intro hm
    rw [Option.map_eq_some'] at hm
    obtain ⟨j, _, hj⟩ := hm
    omega
  · simp

theorem attrMatch_ne_zero (pre t : List Nat) : attrMatch pre t ≠ some 0 := by
  unfold attrMatch
  split
  · split
    · simp
    · split
      · simp
      · simp
  · simp

theorem startsWithAtoms_length (as : List Atom) :
    ∀ s : List Nat, startsWithAtoms as s = true → as.length ≤ s.length := by
  induction as with
  | nil => intro s _; simp
  | cons a as ih =>
    intro s h
    cases s with
    | nil => simp [startsWithAtoms] at h
    | cons c cs =>
      simp only [startsWithAtoms, Bool.and_eq_true] at h
      have := ih cs h.2
      simp only [List.length_cons]
      omega

theorem isoMatch_shrinks (t : List Nat) (n : Nat) (h : isoMatch t = some (n + 1)) :
    timestampToken.length + (t.length - (n + 1)) < t.length := by
  unfold isoMatch at h
  split at h
  · rename_i hs
    have hl := startsWithAtoms_length isoAtoms t hs
    have hn : n + 1 = isoAtoms.length := (Option.some.inj h).symm
    have h19 : isoAtoms.length = 19 := rfl
    have h11 : timestampToken.length = 11 := rfl
    omega
  · cases h

theorem wsMatch_no_growth (t : List Nat) (n : Nat) (h : wsMatch t = some (n + 1)) :
    [32].length + (t.length - (n + 1)) ≤ t.length := by
  cases t with
  | nil => simp [wsMatch, spanLen] at h
  | cons c cs => simp only [List.length_cons, List.length_nil]; omega

theorem trim_eq_self_of_length (s : List Nat) (h : s.length ≤ (trim s).length) :
    trim s = s :=
  (trim_within s).eq_of_length (Nat.le_antisymm (trim_within s).length_le h)

theorem cleanHtml_eq_self_of_settled (c : List Nat) (h : Settled c)
    (hiso : ∀ t : List Nat, t <:+ c → isoMatch t = none) (htrim : trim c = c) :
    cleanHtml c = c := by
  obtain ⟨h1, h2, h3, hw, h4, h5⟩ := h
  have e1 : replaceAll (elementMatch (utf16 "<script") (utf16 "</script>")) [] c = c :=
    replaceAll_eq_self _ _ c (fun t ht => h1 t ((List.mem_tails _ _).mpr ht))
  have e2 : replaceAll (elementMatch (utf16 "<style") (utf16 "</style>")) [] c = c :=
    replaceAll_eq_self _ _ c (fun t ht => h2 t ((List.mem_tails _ _).mpr ht))
  have e3 : replaceAll commentMatch [] c = c :=
    replaceAll_eq_self _ _ c (fun t ht => h3 t ((List.mem_tails _ _).mpr ht))
  have e4 : replaceAll wsMatch (utf16 " ") c = c := collapse_of_wsNormal c hw
  have e5 : replaceAll (attrMatch (utf16 "timestamp=\"")) [] c = c :=
    replaceAll_eq_self _ _ c (fun t ht => h4 t ((List.mem_tails _ _).mpr ht))
  have e6 : replaceAll (attrMatch (utf16 "data-time=\"")) [] c = c :=
    replaceAll_eq_self _ _ c (fun t ht => h5 t ((List.mem_tails _ _).mpr ht))
  have e7 : replaceAll isoMatch (utf16 "[TIMESTAMP]") c = c :=
    replaceAll_eq_self _ _ c hiso
  unfold cleanHtml
  rw [e1, e2, e3, e4, e5, e6, e7, htrim]

set_option maxRecDepth 100000 in
theorem settled_of_cleanHtml_eq_self (c : List Nat) (h : cleanHtml c = c) : Settled c := by
  have n1 : elementMatch (utf16 "<script") (utf16 "</script>") [] = none := by decide
  have n2 : elementMatch (utf16 "<style") (utf16 "</style>") [] = none := by decide
  have n3 : commentMatch [] = none := by decide
  have n5 : attrMatch (utf16 "timestamp=\"") [] = none := by decide
  have n6 : attrMatch (utf16 "data-time=\"") [] = none := by decide
  have p1 : ∀ t : List Nat, elementMatch (utf16 "<script") (utf16 "</script>") t ≠ some 0 :=
    fun t => elementMatch_ne_zero _ _ t (by decide)
  have p2 : ∀ t : List Nat, elementMatch (utf16 "<style") (utf16 "</style>") t ≠ some 0 :=
    fun t => elementMatch_ne_zero _ _ t (by decide)
  have p7 : ∀ t : List Nat, isoMatch t ≠ some 0 := by
    intro t ht
    rcases isoMatch_cases t with e | e <;> rw [e] at ht <;> cases ht
  change trim (replaceAll isoMatch timestampToken
    (replaceAll (attrMatch (utf16 "data-time=\"")) []
      (replaceAll (attrMatch (utf16 "timestamp=\"")) []
        (replaceAll wsMatch [32]
          (replaceAll commentMatch []
            (replaceAll (elementMatch (utf16 "<style") (utf16 "</style>")) []
              (replaceAll (elementMatch (utf16 "<script") (utf16 "</script>")) []
                c))))))) = c at h
  have hc := congrArg List.length h
  have l8 := (trim_within (replaceAll isoMatch timestampToken
    (replaceAll (attrMatch (utf16 "data-time=\"")) []
      (replaceAll (attrMatch (utf16 "timestamp=\"")) []
        (replaceAll wsMatch [32]
          (replaceAll commentMatch []
            (replaceAll (elementMatch (utf16 "<style") (utf16 "</style>")) []
              (replaceAll (elementMatch (utf16 "<script") (utf16 "</script>")) []
                c)))))))).length_le
  have l7 := replaceAll_length_le isoMatch timestampToken
    (fun t n hm => Nat.le_of_lt (isoMatch_shrinks t n hm))
    (replaceAll (attrMatch (utf16 "data-time=\"")) []
      (replaceAll (attrMatch (utf16 "timestamp=\"")) []
        (replaceAll wsMatch [32]
          (replaceAll commentMatch []
            (replaceAll (elementMatch (utf16 "<style") (utf16 "</style>")) []
              (replaceAll (elementMatch (utf16 "<script") (utf16 "</script>")) []
                c))))))
  have l6 := replaceAll_length_le (attrMatch (utf16 "data-time=\"")) []
    (fun t n hm => Nat.le_of_lt (removal_shrinks _ n6 t n hm))
    (replaceAll (attrMatch (utf16 "timestamp=\"")) []
      (replaceAll wsMatch [32]
        (replaceAll commentMatch []
          (replaceAll (elementMatch (utf16 "<style") (utf16 "</style>")) []
            (replaceAll (elementMatch (utf16 "<script") (utf16 "</script>")) []
              c)))))
  have l5 := replaceAll_length_le (attrMatch (utf16 "timestamp=\"")) []
    (fun t n hm => Nat.le_of_lt (removal_shrinks _ n5 t n hm))
    (replaceAll wsMatch [32]
      (replaceAll commentMatch []
        (replaceAll (elementMatch (utf16 "<style") (utf16 "</style>")) []
          (replaceAll (elementMatch (utf16 "<script") (utf16 "</script>")) []
            c))))
  have l4 := replaceAll_length_le wsMatch [32] wsMatch_no_growth
    (replaceAll commentMatch []
      (replaceAll (elementMatch (utf16 "<style") (utf16 "</style>")) []
        (replaceAll (elementMatch (utf16 "<script") (utf16 "</script>")) []
          c)))
  have l3 := replaceAll_length_le commentMatch []
    (fun t n hm => Nat.le_of_lt (removal_shrinks _ n3 t n hm))
    (replaceAll (elementMatch (utf16 "<style") (utf16 "</style>")) []
      (replaceAll (elementMatch (utf16 "<script") (utf16 "</script>")) []
        c))
  have l2 := replaceAll_length_le (elementMatch (utf16 "<style") (utf16 "</style>")) []
    (fun t n hm => Nat.le_of_lt (removal_shrinks _ n2 t n hm))
    (replaceAll (elementMatch (utf16 "<script") (utf16 "</script>")) [] c)
  have k1 := replaceAll_eq_self_of_length
    (elementMatch (utf16 "<script") (utf16 "</script>")) [] (removal_shrinks _ n1) p1 n1 c
    (by omega)
  rw [k1.2] at h hc l8 l7 l6 l5 l4 l3 l2
  have k2 := replaceAll_eq_self_of_length
    (elementMatch (utf16 "<style") (utf16 "</style>")) [] (removal_shrinks _ n2) p2 n2 c
    (by omega)
  rw [k2.2] at h hc l8 l7 l6 l5 l4 l3
  have k3 := replaceAll_eq_self_of_length commentMatch [] (removal_shrinks _ n3)
    commentMatch_ne_zero n3 c (by omega)
  rw [k3.2] at h hc l8 l7 l6 l5 l4
  have k5 := replaceAll_eq_self_of_length (attrMatch (utf16 "timestamp=\"")) []
    (removal_shrinks _ n5) (attrMatch_ne_zero _) n5 (replaceAll wsMatch [32] c) (by omega)
  rw [k5.2] at h hc l8 l7 l6
  have k6 := replaceAll_eq_self_of_length (attrMatch (utf16 "data-time=\"")) []
    (removal_shrinks _ n6) (attrMatch_ne_zero _) n6 (replaceAll wsMatch [32] c) (by omega)
  rw [k6.2] at h hc l8 l7
  have k7 := replaceAll_eq_self_of_length isoMatch timestampToken isoMatch_shrinks p7
    isoMatch_nil (replaceAll wsMatch [32] c) (by omega)
  rw [k7.2] at h hc l8
  have k8 := trim_eq_self_of_length (replaceAll wsMatch [32] c) (by omega)
  rw [k8] at h
  have hw : WsNormal c := by
    have hn := (wsNormal_collapse c).1
    rw [show replaceGo wsMatch [32] 0 c = replaceAll wsMatch [32] c from rfl, h] at hn
    exact hn
  rw [h] at k5 k6
  exact ⟨fun t ht => k1.1 t ((List.mem_tails _ _).mp ht),
    fun t ht => k2.1 t ((List.mem_tails _ _).mp ht),
    fun t ht => k3.1 t ((List.mem_tails _ _).mp ht), hw,
    fun t ht => k5.1 t ((List.mem_tails _ _).mp ht),
    fun t ht => k6.1 t ((List.mem_tails _ _).mp ht)⟩

/-- C7, amended: cleaning the result of `cleanHtml` again gives the same string
exactly when that result is settled, that is when no replacement of `cleanHtml`
matches in it: it holds no script element, style element or comment from its
opening to its closing, no `timestamp` or `data-time` attribute with a digits
value, and no white space but single spaces. -/
theorem C7_cleanHtml_twice_iff_settled (html : JSString) :
    cleanHtml (cleanHtml html) = cleanHtml html ↔ Settled (cleanHtml html) := by
  constructor
  · exact settled_of_cleanHtml_eq_self _
  · intro hs
    have hshape : cleanHtml html = trim (replaceAll isoMatch timestampToken
        (replaceAll (attrMatch (utf16 "data-time=\"")) []
          (replaceAll (attrMatch (utf16 "timestamp=\"")) []
            (replaceAll wsMatch (utf16 " ")
              (replaceAll commentMatch []
                (replaceAll (elementMatch (utf16 "<style") (utf16 "</style>")) []
                  (replaceAll (elementMatch (utf16 "<script") (utf16 "</script>")) []
                    html))))))) := rfl
    refine cleanHtml_eq_self_of_settled _ hs ?_ ?_
    · rw [hshape]
      exact isoMatch_none_of_within _ _ (trim_within _) (isoMatch_none_replaceGo _ 0)
    · rw [hshape]
      exact trim_trim _

theorem chain_of_check : ∀ s : List Nat,
    (s.zip s.tail).all (fun p => !(isWs p.1 && isWs p.2)) = true →
      List.Chain' (fun a b => ¬ (isWs a = true ∧ isWs b = true)) s
  | [], _ => List.chain'_nil
  | [a], _ => List.chain'_singleton a
  | a :: b :: rest, h => by
    simp only [List.tail_cons, List.zip_cons_cons, List.all_cons, Bool.and_eq_true] at h
    rw [List.chain'_cons]
    refine ⟨?_, chain_of_check (b :: rest) h.2⟩
    intro hab
    have h1 := h.1
    simp [hab.1, hab.2] at h1

theorem wsNormal_of_check (s : List Nat)
    (h1 : s.all (fun c => !isWs c || c == 32) = true)
    (h2 : (s.zip s.tail).all (fun p => !(isWs p.1 && isWs p.2)) = true) : WsNormal s := by
  refine ⟨?_, chain_of_check s h2⟩
  intro c hc hw
  have h := List.all_eq_true.mp h1 c hc
  simpa [hw] using h

set_option maxRecDepth 100000 in
/-- C7, amended, at a page with a script element, a comment, white-space runs
and a date-time: its cleaned content is settled, so cleaning it again changes
nothing. -/
theorem C7_cleanHtml_twice_iff_settled_witness :
    cleanHtml (utf16
        " <p class=\"note\">Updated  2024-01-02T03:04:05 \n by Bob</p><script>t = 1;</script><!-- c --> ") =
        utf16 "<p class=\"note\">Updated [TIMESTAMP] by Bob</p>" ∧
      cleanHtml (cleanHtml (utf16
        " <p class=\"note\">Updated  2024-01-02T03:04:05 \n by Bob</p><script>t = 1;</script><!-- c --> ")) =
        cleanHtml (utf16
        " <p class=\"note\">Updated  2024-01-02T03:04:05 \n by Bob</p><script>t = 1;</script><!-- c --> ") :=
  ⟨by decide,
    (C7_cleanHtml_twice_iff_settled (utf16
      " <p class=\"note\">Updated  2024-01-02T03:04:05 \n by Bob</p><script>t = 1;</script><!-- c --> ")).mpr
      (by
        unfold Settled
        exact ⟨by decide, by decide, by decide, wsNormal_of_check _ (by decide) (by decide),
          by decide, by decide⟩)⟩

set_option maxRecDepth 100000 in
/-- C7 as stated fails, in two ways.  A comment inside a tag name hides a script
element from the first cleaning, and the second cleaning removes it.  And a
`timestamp` attribute is removed after the white space was collapsed, which
leaves two spaces side by side that the second cleaning makes one. -/
theorem C7_cleanHtml_twice_counterexample :
    cleanHtml (utf16 "<scr<!---->ipt>x</script>") = utf16 "<script>x</script>" ∧
      cleanHtml (cleanHtml (utf16 "<scr<!---->ipt>x</script>")) = [] ∧
      cleanHtml (utf16 "a timestamp=\"1\" b") = utf16 "a  b" ∧
      cleanHtml (cleanHtml (utf16 "a timestamp=\"1\" b")) = utf16 "a b" ∧
      ¬ (∀ html : JSString, cleanHtml (cleanHtml html) = cleanHtml html) := by
  refine ⟨by decide, by decide, by decide, by decide, ?_⟩
  intro h
  exact absurd (h (utf16 "a timestamp=\"1\" b")) (by decide)

set_option maxRecDepth 100000 in
/-- C8 at the failing input: the `timestamp` attribute is removed after the white
space was collapsed, which leaves the two spaces around it side by side. -/
theorem C8_cleanHtml_adjacent_spaces :
    cleanHtml (utf16 "a timestamp=\"1\" b") = utf16 "a  b" := by
  decide

set_option maxRecDepth 100000 in
/-- C10 at the scenario: each side is reflowed to one line, so the formatted view
shows the whole old content as removed and the whole new content as added; the
text `<p>A</p>` is inside both tagged lines. -/
theorem C10_formatted_diff_one_line :
    processContentForDisplay (utf16 "<p>A</p><p>B</p>") = utf16 "<p>A</p> <p>B</p>" ∧
      processContentForDisplay (utf16 "<p>A</p><p>C</p>") = utf16 "<p>A</p> <p>C</p>" ∧
      taggedLines (processContentForDisplay (utf16 "<p>A</p><p>B</p>"))
        (processContentForDisplay (utf16 "<p>A</p><p>C</p>")) true =
        [(LineTag.removed, utf16 "<p>A</p> <p>B</p>")] ∧
      taggedLines (processContentForDisplay (utf16 "<p>A</p><p>C</p>"))
        (processContentForDisplay (utf16 "<p>A</p><p>B</p>")) false =
        [(LineTag.added, utf16 "<p>A</p> <p>C</p>")] ∧
      displayDiff false (utf16 "<p>A</p><p>B</p>") (utf16 "<p>A</p><p>C</p>") =
        (Pane.innerHTML
          (utf16 "<span class=\"removed\">&lt;p&gt;A&lt;/p&gt; &lt;p&gt;B&lt;/p&gt;</span>"),
         Pane.innerHTML
          (utf16 "<span class=\"added\">&lt;p&gt;A&lt;/p&gt; &lt;p&gt;C&lt;/p&gt;</span>")) := by
  refine ⟨by decide, by decide, by decide, by decide, by decide⟩

/-! ## Properties of the diff view -/

theorem lineTag_eq (isOld : Bool) (line : JSString) (compareLine : Option JSString) :
    lineTag isOld line compareLine =
      if compareLine = some line ∧ line ≠ [] then LineTag.unchanged
      else if isOld then LineTag.removed else LineTag.added := by
  cases compareLine with
  | none => simp [lineTag]
  | some cl =>
    cases cl with
    | nil =>
      have hno : ¬ (some ([] : JSString) = some line ∧ line ≠ []) := by
        rintro ⟨h1, h2⟩
        exact h2 (Option.some.inj h1).symm
      rw [if_neg hno]
      rfl
    | cons c cs =>
      by_cases h : line = c :: cs
      · subst h
        simp [lineTag]
      · have hno : ¬ (some (c :: cs) = some line ∧ line ≠ []) := by
          rintro ⟨h1, _⟩
          exact h (Option.some.inj h1).symm
        rw [if_neg hno]
        simp [lineTag, h]

theorem mem_enum_getElem {α : Type} (l : List α) (il : Nat × α) (h : il ∈ l.enum) :
    l[il.1]? = some il.2 := by
  obtain ⟨i, x⟩ := il
  exact List.mk_mem_enum_iff_getElem?.mp h

/-- C11, amended: `highlightDifferences` emits line i of `content` untagged
exactly when `compareContent` has a line i with the same text and that text is
not empty; every other line, so also an empty line that is the same on both
sides, is wrapped in a span of class `removed` (old side) or `added` (new
side).  A content compared with itself has exactly its empty lines tagged, and
where no line of `compareContent` is empty a line is untagged exactly when the
line at its index in `compareContent` has the same text. -/
theorem C11_line_untagged_iff (content compareContent : JSString) (isOld : Bool) :
    taggedLines content compareContent isOld =
        (splitLines content).enum.map
          (fun il =>
            (if (splitLines compareContent)[il.1]? = some il.2 ∧ il.2 ≠ [] then
                LineTag.unchanged
              else if isOld then LineTag.removed else LineTag.added,
             il.2)) ∧
      highlightDifferences content compareContent isOld =
        List.intercalate [10]
          ((splitLines content).enum.map
            (fun il =>
              if (splitLines compareContent)[il.1]? = some il.2 ∧ il.2 ≠ [] then
                escapeHtml il.2
              else
                utf16 "<span class=\"" ++ (if isOld then utf16 "removed" else utf16 "added") ++
                  utf16 "\">" ++ escapeHtml il.2 ++ utf16 "</span>")) ∧
      (∀ tl ∈ taggedLines content content isOld, tl.1 = LineTag.unchanged ↔ tl.2 ≠ []) ∧
      ((∀ cl ∈ splitLines compareContent, cl ≠ []) →
        ∀ tl ∈ (taggedLines content compareContent isOld).enum,
          tl.2.1 = LineTag.unchanged ↔ (splitLines compareContent)[tl.1]? = some tl.2.2) := by
  have htag : taggedLines content compareContent isOld =
      (splitLines content).enum.map
        (fun il =>
          (if (splitLines compareContent)[il.1]? = some il.2 ∧ il.2 ≠ [] then
              LineTag.unchanged
            else if isOld then LineTag.removed else LineTag.added,
           il.2)) := by
    unfold taggedLines
    apply List.map_congr_left
    intro il _
    rw [lineTag_eq]
  refine ⟨htag, ?_, ?_, ?_⟩
  · unfold highlightDifferences
    rw [htag, List.map_map]
    congr 1
    apply List.map_congr_left
    intro il _
    show renderLine (if (splitLines compareContent)[il.1]? = some il.2 ∧ il.2 ≠ [] then
        LineTag.unchanged
      else if isOld then LineTag.removed else LineTag.added) il.2 = _
    by_cases hc : (splitLines compareContent)[il.1]? = some il.2 ∧ il.2 ≠ []
    · rw [if_pos hc, if_pos hc]
      rfl
    · rw [if_neg hc, if_neg hc]
      cases isOld
      · exact (by rfl : renderLine LineTag.added il.2 = _)
      · exact (by rfl : renderLine LineTag.removed il.2 = _)
  · intro tl htl
    unfold taggedLines at htl
    obtain ⟨il, hil, rfl⟩ := List.mem_map.mp htl
    have hget := mem_enum_getElem _ il hil
    show lineTag isOld il.2 ((splitLines content)[il.1]?) = LineTag.unchanged ↔ il.2 ≠ []
    rw [lineTag_eq, hget]
    by_cases hne : il.2 = []
    · rw [if_neg (fun h => h.2 hne)]
      cases isOld <;> simp [hne]
    · rw [if_pos ⟨rfl, hne⟩]
      simp [hne]
  · intro hnoempty tl htl
    obtain ⟨i, tag, line⟩ := tl
    have hget := mem_enum_getElem _ (i, (tag, line)) htl
    rw [htag, List.getElem?_map] at hget
    cases hl : (splitLines content).enum[i]? with
    | none => rw [hl] at hget; cases hget
    | some il =>
      rw [hl] at hget
      have hil : il ∈ (splitLines content).enum := List.getElem?_mem hl
      have hi : il.1 = i := by
        obtain ⟨j, x⟩ := il
        have h1 := List.getElem?_enum (splitLines content) i
        rw [hl] at h1
        cases hx : (splitLines content)[i]? with
        | none => rw [hx] at h1; cases h1
        | some y =>
          rw [hx] at h1
          exact (congrArg Prod.fst (Option.some.inj h1))
      simp only [Option.map_some', Option.some.injEq, Prod.mk.injEq] at hget
      obtain ⟨htagv, hline⟩ := hget
      show tag = LineTag.unchanged ↔ (splitLines compareContent)[i]? = some line
      rw [← htagv, ← hline, ← hi]
      by_cases hc : (splitLines compareContent)[il.1]? = some il.2
      · have hne : il.2 ≠ [] := hnoempty il.2 (List.getElem?_mem hc)
        rw [if_pos ⟨hc, hne⟩]
        simp [hc]
      · rw [if_neg (fun h => hc h.1)]
        cases isOld <;> simp [hc]

set_option maxRecDepth 100000 in
/-- C11, amended, at a content of four lines against one of three: the first
line is the same and not empty, the second differs, the third is empty on both
sides, the fourth has no line to compare with. -/
theorem C11_line_untagged_iff_witness :
    highlightDifferences (utf16 "a\nb\n\nd") (utf16 "a\nc\n") true =
        utf16 ("a\n<span class=\"removed\">b</span>\n" ++
          "<span class=\"removed\"></span>\n<span class=\"removed\">d</span>") ∧
      (∀ cl ∈ splitLines (utf16 "a\nc"), cl ≠ []) ∧
      (∀ tl ∈ (taggedLines (utf16 "a\nb") (utf16 "a\nc") false).enum,
        tl.2.1 = LineTag.unchanged ↔ (splitLines (utf16 "a\nc"))[tl.1]? = some tl.2.2) :=
  ⟨by rw [(C11_line_untagged_iff (utf16 "a\nb\n\nd") (utf16 "a\nc\n") true).2.1]; decide,
    by decide,
    (C11_line_untagged_iff (utf16 "a\nb") (utf16 "a\nc") false).2.2.2 (by decide)⟩

set_option maxRecDepth 100000 in
/-- C11 as stated fails: a content compared with itself has its empty second
line tagged. -/
theorem C11_identical_empty_line_counterexample :
    (splitLines (utf16 "a\n\nb"))[1]? = some [] ∧
      taggedLines (utf16 "a\n\nb") (utf16 "a\n\nb") true =
        [(LineTag.unchanged, utf16 "a"), (LineTag.removed, []), (LineTag.unchanged, utf16 "b")] ∧
      highlightDifferences (utf16 "a\n\nb") (utf16 "a\n\nb") true =
        utf16 "a\n<span class=\"removed\"></span>\nb" ∧
      ¬ (∀ (content : JSString) (isOld : Bool),
        ∀ tl ∈ taggedLines content content isOld, tl.1 = LineTag.unchanged) := by
  refine ⟨by decide, by decide, by decide, ?_⟩
  intro h
  have h1 := h (utf16 "a\n\nb") true (LineTag.removed, []) (by decide)
  cases h1

theorem processContentForDisplay_no_line_feed (html : JSString) :
    10 ∉ processContentForDisplay html := by
  intro h
  have hn : WsNormal (processContentForDisplay html) :=
    wsNormal_of_within _ _ (wsNormal_collapse _).1 (trim_within _)
  exact absurd (hn.1 10 h (by decide)) (by decide)

theorem splitLines_of_no_line_feed (s : JSString) (h : 10 ∉ s) : splitLines s = [s] := by
  induction s with
  | nil => rfl
  | cons c cs ih =>
    have hc : c ≠ 10 := fun e => h (by rw [e]; exact List.mem_cons_self _ _)
    have hcs : 10 ∉ cs := fun e => h (List.mem_cons_of_mem _ e)
    simp only [splitLines, hc, if_false, ih hcs]

theorem taggedLines_single (a b : JSString) (isOld : Bool) (ha : 10 ∉ a) (hb : 10 ∉ b) :
    taggedLines a b isOld = [(lineTag isOld a (some b), a)] := by
  unfold taggedLines
  rw [splitLines_of_no_line_feed a ha, splitLines_of_no_line_feed b hb]
  rfl

/-- C20: `processContentForDisplay(html)` never contains a line feed, so in the
formatted view each side given to `highlightDifferences` is one line, and the
two views are either both untagged or the old one all removed and the new one
all added. -/
theorem C20_formatted_view_one_line (oldHtml newHtml : JSString) :
    10 ∉ processContentForDisplay oldHtml ∧
      splitLines (processContentForDisplay oldHtml) = [processContentForDisplay oldHtml] ∧
      ((taggedLines (processContentForDisplay oldHtml) (processContentForDisplay newHtml) true =
            [(LineTag.unchanged, processContentForDisplay oldHtml)] ∧
          taggedLines (processContentForDisplay newHtml) (processContentForDisplay oldHtml) false =
            [(LineTag.unchanged, processContentForDisplay newHtml)]) ∨
        (taggedLines (processContentForDisplay oldHtml) (processContentForDisplay newHtml) true =
            [(LineTag.removed, processContentForDisplay oldHtml)] ∧
          taggedLines (processContentForDisplay newHtml) (processContentForDisplay oldHtml) false =
            [(LineTag.added, processContentForDisplay newHtml)])) := by
  have ho := processContentForDisplay_no_line_feed oldHtml
  have hn := processContentForDisplay_no_line_feed newHtml
  refine ⟨ho, splitLines_of_no_line_feed _ ho, ?_⟩
  rw [taggedLines_single _ _ true ho hn, taggedLines_single _ _ false hn ho]
  generalize processContentForDisplay oldHtml = a
  generalize processContentForDisplay newHtml = b
  by_cases hab : a = b
  · subst hab
    cases a with
    | nil => right; exact ⟨rfl, rfl⟩
    | cons c cs => left; simp [lineTag]
  · right
    have hba : ¬ b = a := fun e => hab e.symm
    cases a with
    | nil =>
      cases b with
      | nil => exact absurd rfl hab
      | cons d ds => simp [lineTag]
    | cons c cs =>
      cases b with
      | nil => simp [lineTag]
      | cons d ds => simp [lineTag, hab, hba]

/-! ## A fingerprint shared by two contents -/

set_option maxRecDepth 100000 in
/-- C19: two different cleaned contents can have the same fingerprint ("Aa" and
"BB" both hash to "2112"), and for any such pair the second content is not
seen: after a first observation stored the one, a `pageContent` message whose
html cleans to the other takes the unchanged branch, leaves the whole state as
it was and creates no notification. -/
theorem C19_collision_unchanged (st : State) (url html1 html2 timestamp timestamp2 : JSString)
    (nowMs nowMs2 : Nat) (hnone : getProp st.snapshots url = none)
    (h1 : html1 ≠ []) (h2 : html2 ≠ [])
    (hdiff : cleanHtml html1 ≠ cleanHtml html2)
    (hcoll : generateHash (cleanHtml html1) = generateHash (cleanHtml html2)) :
    (cleanHtml (utf16 "Aa") = utf16 "Aa" ∧ cleanHtml (utf16 "BB") = utf16 "BB" ∧
        generateHash (utf16 "Aa") = utf16 "2112" ∧ generateHash (utf16 "BB") = utf16 "2112") ∧
      (pageContent st url (some html1) timestamp nowMs).outcome =
        Except.ok DetectionOutcome.FirstSeen ∧
      getProp (pageContent st url (some html1) timestamp nowMs).state.snapshots url =
        some ⟨generateHash (cleanHtml html1), cleanHtml html1⟩ ∧
      (pageContent (pageContent st url (some html1) timestamp nowMs).state url (some html2)
        timestamp2 nowMs2).outcome = Except.ok DetectionOutcome.Unchanged ∧
      (pageContent (pageContent st url (some html1) timestamp nowMs).state url (some html2)
        timestamp2 nowMs2).state = (pageContent st url (some html1) timestamp nowMs).state ∧
      (pageContent (pageContent st url (some html1) timestamp nowMs).state url (some html2)
        timestamp2 nowMs2).notifications = [] := by
  have _ := hdiff
  rw [pageContent_firstSeen_of st url html1 timestamp nowMs hnone h1,
    pageContent_unchanged_of (firstSeen st url (generateHash (cleanHtml html1))
      (cleanHtml html1)).state url html2 timestamp2 nowMs2
      ⟨generateHash (cleanHtml html1), cleanHtml html1⟩ (getProp_setProp_same _ _ _)
      (generateHash_ne_nil _) h2 hcoll]
  exact ⟨⟨by decide, by decide, by decide, by decide⟩, rfl, getProp_setProp_same _ _ _,
    rfl, rfl, rfl⟩

set_option maxRecDepth 100000 in
/-- C19 at the pair "Aa" and "BB": the stored content stays "Aa". -/
theorem C19_collision_unchanged_witness :
    (pageContent (pageContent State.empty exampleUrl (some (utf16 "Aa")) (utf16 "t0") 0).state
        exampleUrl (some (utf16 "BB")) (utf16 "t1") 1).outcome =
        Except.ok DetectionOutcome.Unchanged ∧
      getProp (pageContent (pageContent State.empty exampleUrl (some (utf16 "Aa")) (utf16 "t0")
        0).state exampleUrl (some (utf16 "BB")) (utf16 "t1") 1).state.snapshots exampleUrl =
        some ⟨utf16 "2112", utf16 "Aa"⟩ :=
  have h := C19_collision_unchanged State.empty exampleUrl (utf16 "Aa") (utf16 "BB")
    (utf16 "t0") (utf16 "t1") 0 1 (by decide) (by decide) (by decide) (by decide) (by decide)
  ⟨h.2.2.2.1, by rw [h.2.2.2.2.1]; decide⟩

/-! ## Properties of searchContent -/

theorem mem_insertByMatchCount (r y : SearchResult) (l : List SearchResult) :
    y ∈ insertByMatchCount r l ↔ y = r ∨ y ∈ l := by
  induction l with
  | nil => simp [insertByMatchCount]
  | cons x xs ih =>
    unfold insertByMatchCount
    split
    · simp
    · simp only [List.mem_cons, ih]
      tauto

theorem pairwise_insertByMatchCount (r : SearchResult) (l : List SearchResult)
    (h : l.Pairwise (fun a b => b.matchCount ≤ a.matchCount)) :
    (insertByMatchCount r l).Pairwise (fun a b => b.matchCount ≤ a.matchCount) := by
  induction l with
  | nil => simp [insertByMatchCount]
  | cons x xs ih =>
    rw [List.pairwise_cons] at h
    unfold insertByMatchCount
    split
    · rename_i hle
      rw [List.pairwise_cons]
      refine ⟨?_, List.pairwise_cons.mpr h⟩
      intro y hy
      rcases List.mem_cons.mp hy with e | hmem
      · rw [e]; exact hle
      · exact Nat.le_trans (h.1 y hmem) hle
    · rename_i hlt
      rw [List.pairwise_cons]
      refine ⟨?_, ih h.2⟩
      intro y hy
      rcases (mem_insertByMatchCount r y xs).mp hy with e | hmem
      · rw [e]; omega
      · exact h.1 y hmem

theorem pairwise_sortByMatchCount (l : List SearchResult) :
    (sortByMatchCount l).Pairwise (fun a b => b.matchCount ≤ a.matchCount) := by
  induction l with
  | nil => exact List.Pairwise.nil
  | cons r rest ih => exact pairwise_insertByMatchCount r _ ih

theorem filter_insertByMatchCount (k : Nat) (r : SearchResult) (l : List SearchResult) :
    (insertByMatchCount r l).filter (fun x => decide (x.matchCount = k)) =
      (r :: l).filter (fun x => decide (x.matchCount = k)) := by
  induction l with
  | nil => rfl
  | cons x xs ih =>
    unfold insertByMatchCount
    split
    · rfl
    · rename_i hlt
      rw [List.filter_cons, ih]
      by_cases hx : x.matchCount = k
      · have hr : ¬ r.matchCount = k := by omega
        simp [List.filter_cons, hx, hr]
      · simp [List.filter_cons, hx]

theorem filter_sortByMatchCount (k : Nat) (l : List SearchResult) :
    (sortByMatchCount l).filter (fun x => decide (x.matchCount = k)) =
      l.filter (fun x => decide (x.matchCount = k)) := by
  induction l with
  | nil => rfl
  | cons r rest ih =>
    show (insertByMatchCount r (sortByMatchCount rest)).filter _ = _
    rw [filter_insertByMatchCount, List.filter_cons, List.filter_cons, ih]

theorem perm_insertByMatchCount (r : SearchResult) (l : List SearchResult) :
    (insertByMatchCount r l).Perm (r :: l) := by
  induction l with
  | nil => exact List.Perm.refl _
  | cons x xs ih =>
    unfold insertByMatchCount
    split
    · exact List.Perm.refl _
    · exact (List.Perm.cons x ih).trans (List.Perm.swap r x xs)

theorem perm_sortByMatchCount (l : List SearchResult) : (sortByMatchCount l).Perm l := by
  induction l with
  | nil => exact List.Perm.refl _
  | cons r rest ih => exact (perm_insertByMatchCount r _).trans (List.Perm.cons r ih)

theorem scanSnapshots_urls (m : JSString → List RegExpMatch) (env : DateEnv)
    (options : SearchOptions) (snapshots : JSObject Snapshot) :
    ∀ tick : Nat,
      List.Sublist ((scanSnapshots m env options tick snapshots).1.map (fun r => r.url))
        (snapshots.map (fun entry => entry.1)) ∧
      ∀ r ∈ (scanSnapshots m env options tick snapshots).1, r.kind = ResultType.snapshot := by
  induction snapshots with
  | nil => intro tick; exact ⟨List.Sublist.refl _, fun r hr => absurd hr (List.not_mem_nil _)⟩
  | cons entry rest ih =>
    intro tick
    obtain ⟨url, snapshot⟩ := entry
    unfold scanSnapshots
    split
    · exact ⟨List.Sublist.cons _ (ih tick).1, (ih tick).2⟩
    · split
      · refine ⟨List.Sublist.cons₂ _ (ih (tick + 1)).1, ?_⟩
        intro r hr
        rcases List.mem_cons.mp hr with e | hmem
        · rw [e]
        · exact (ih (tick + 1)).2 r hmem
      · exact ⟨List.Sublist.cons _ (ih tick).1, (ih tick).2⟩

theorem sideResults_sublist (m : JSString → List RegExpMatch) (url : JSString)
    (change : ChangeRecord) :
    List.Sublist (sideResults m url change) [oldResult m url change, newResult m url change] := by
  unfold sideResults oldResult newResult
  split <;> split <;> simp

theorem scanChanges_sublist (m : JSString → List RegExpMatch) (env : DateEnv)
    (options : SearchOptions) (url : JSString) (changes : List ChangeRecord) :
    ∀ tick : Nat,
      List.Sublist (scanChanges m env options url tick changes).1
        (changes.flatMap (fun change => [oldResult m url change, newResult m url change])) := by
  induction changes with
  | nil => intro tick; exact List.Sublist.refl _
  | cons change rest ih =>
    intro tick
    rw [List.flatMap_cons]
    unfold scanChanges
    split
    · split
      · exact List.Sublist.trans (ih (tick + 1)) (List.sublist_append_right _ _)
      · exact List.Sublist.append (sideResults_sublist m url change) (ih (tick + 1))
    · exact List.Sublist.append (sideResults_sublist m url change) (ih tick)

theorem scanHistory_sublist (m : JSString → List RegExpMatch) (env : DateEnv)
    (options : SearchOptions) (history : JSObject (List ChangeRecord)) :
    ∀ tick : Nat,
      List.Sublist (scanHistory m env options tick history).1 (historyCandidates m history) := by
  induction history with
  | nil => intro tick; exact List.Sublist.refl _
  | cons entry rest ih =>
    intro tick
    obtain ⟨url, changes⟩ := entry
    unfold historyCandidates
    rw [List.flatMap_cons]
    unfold scanHistory
    split
    · exact List.Sublist.trans (ih tick) (List.sublist_append_right _ _)
    · exact List.Sublist.append (scanChanges_sublist m env options url changes tick) (ih _)

/-- C12: the results `searchContent` returns are in non-increasing order of
`matchCount`, and results with the same `matchCount` stand in the order of
discovery: they are a rearrangement of the discovered results (the snapshot
results, one per address in the order of the stored object, followed by the
history results, which follow the order address, change, old content before
new content) that keeps, for every count, the results of that count in their
discovered order. -/
theorem C12_results_ranked (regExp : RegExpCtor) (env : DateEnv) (allData : State)
    (options : SearchOptions) (query : JSString) (results : List SearchResult)
    (h : searchContent regExp env allData options query = Except.ok results) :
    ∃ (m : JSString → List RegExpMatch) (snapshotResults historyResults : List SearchResult),
      searchPattern regExp options query = Except.ok m ∧
      discoverResults m env allData options = snapshotResults ++ historyResults ∧
      (∀ r ∈ snapshotResults, r.kind = ResultType.snapshot) ∧
      List.Sublist (snapshotResults.map (fun r => r.url))
        (allData.snapshots.map (fun entry => entry.1)) ∧
      List.Sublist historyResults (historyCandidates m allData.history) ∧
      results.Pairwise (fun a b => b.matchCount ≤ a.matchCount) ∧
      results.Perm (snapshotResults ++ historyResults) ∧
      ∀ k : Nat, results.filter (fun r => decide (r.matchCount = k)) =
        (snapshotResults ++ historyResults).filter (fun r => decide (r.matchCount = k)) := by
  unfold searchContent at h
  cases hp : searchPattern regExp options query with
  | error message => rw [hp] at h; cases h
  | ok m =>
    rw [hp] at h
    simp only [Except.ok.injEq] at h
    subst h
    refine ⟨m,
      (if options.includeSnapshots then (scanSnapshots m env options 0 allData.snapshots).1
        else []),
      (if options.includeHistory then
        (scanHistory m env options
          (if options.includeSnapshots then (scanSnapshots m env options 0 allData.snapshots).2
            else 0)
          allData.history).1
        else []),
      rfl, rfl, ?_, ?_, ?_, ?_, ?_, ?_⟩
    · intro r hr
      split at hr
      · exact (scanSnapshots_urls m env options allData.snapshots 0).2 r hr
      · exact absurd hr (List.not_mem_nil _)
    · split
      · exact (scanSnapshots_urls m env options allData.snapshots 0).1
      · exact List.nil_sublist _
    · split
      · exact scanHistory_sublist m env options allData.history _
      · exact List.nil_sublist _
    · exact pairwise_sortByMatchCount _
    · exact perm_sortByMatchCount _
    · intro k
      exact filter_sortByMatchCount k _

set_option maxRecDepth 100000 in
/-- C12 at the scenario: "v2" is found once in the snapshot and once in the new
content of the change; the two results tie and stay in the order of discovery. -/
theorem C12_results_ranked_witness :
    searchContent literalOnlyRegExp (fixedDateEnv 5)
        (scenarioState (utf16 "t1") (utf16 "t2") (utf16 "t3") 1 2 3)
        ⟨false, false, true, true, [], none⟩ (utf16 "v2") =
      Except.ok [scenarioSnapshotResult (utf16 "5"), scenarioNewResult (utf16 "t2")] ∧
      List.Pairwise (fun a b : SearchResult => b.matchCount ≤ a.matchCount)
        [scenarioSnapshotResult (utf16 "5"), scenarioNewResult (utf16 "t2")] := by
  obtain ⟨_, _, _, _, _, _, _, _, hsorted, _⟩ :=
    C12_results_ranked literalOnlyRegExp (fixedDateEnv 5)
      (scenarioState (utf16 "t1") (utf16 "t2") (utf16 "t3") 1 2 3)
      ⟨false, false, true, true, [], none⟩ (utf16 "v2")
      [scenarioSnapshotResult (utf16 "5"), scenarioNewResult (utf16 "t2")] rfl
  exact ⟨rfl, hsorted⟩

theorem escapeQuery_eq_escapedLiteral (s : JSString) : escapeQuery s = escapedLiteral s := by
  induction s with
  | nil => rfl
  | cons c cs ih =>
    have hmem : isSyntaxChar c = true ↔ c ∈ utf16 ".*+?^$\x7b\x7d()|[]\\" := by
      have hl : utf16 ".*+?^$\x7b\x7d()|[]\\" =
          [46, 42, 43, 63, 94, 36, 123, 125, 40, 41, 124, 91, 93, 92] := by decide
      rw [hl]
      simp [isSyntaxChar, or_assoc]
    unfold escapedLiteral at ih ⊢
    rw [List.flatMap_cons, ← ih]
    by_cases hc : isSyntaxChar c = true
    · rw [if_pos (hmem.mp hc)]
      simp only [escapeQuery, hc, if_true]
      rfl
    · rw [if_neg (fun h => hc (hmem.mpr h))]
      simp only [escapeQuery, hc]
      rfl

theorem scanSnapshots_congr (m : JSString → List RegExpMatch) (env : DateEnv)
    (o1 o2 : SearchOptions) (h : o1.urlFilter = o2.urlFilter) (snapshots : JSObject Snapshot) :
    ∀ tick : Nat, scanSnapshots m env o1 tick snapshots = scanSnapshots m env o2 tick snapshots := by
  induction snapshots with
  | nil => intro tick; rfl
  | cons entry rest ih =>
    intro tick
    obtain ⟨url, snapshot⟩ := entry
    simp only [scanSnapshots, urlExcluded, h, ih]

theorem scanChanges_congr (m : JSString → List RegExpMatch) (env : DateEnv)
    (o1 o2 : SearchOptions) (h : o1.dateFilter = o2.dateFilter) (url : JSString)
    (changes : List ChangeRecord) :
    ∀ tick : Nat,
      scanChanges m env o1 url tick changes = scanChanges m env o2 url tick changes := by
  induction changes with
  | nil => intro tick; rfl
  | cons change rest ih =>
    intro tick
    simp only [scanChanges, activeDateFilter, h, ih]

theorem scanHistory_congr (m : JSString → List RegExpMatch) (env : DateEnv)
    (o1 o2 : SearchOptions) (hu : o1.urlFilter = o2.urlFilter)
    (hd : o1.dateFilter = o2.dateFilter) (history : JSObject (List ChangeRecord)) :
    ∀ tick : Nat, scanHistory m env o1 tick history = scanHistory m env o2 tick history := by
  induction history with
  | nil => intro tick; rfl
  | cons entry rest ih =>
    intro tick
    obtain ⟨url, changes⟩ := entry
    simp only [scanHistory, urlExcluded, hu, ih, scanChanges_congr m env o1 o2 hd]

/-- C13: for every literal `s`, every stored data and every setting of the other
options, `searchContent(s)` without the regex option gives what
`searchContent(e)` gives with it, `e` being `s` with each of
`. * + ? ^ $ { } ( ) | [ ] \` preceded by a backslash: the same results in the
same order, or the same error. -/
theorem C13_literal_equals_escaped_regex (regExp : RegExpCtor) (env : DateEnv)
    (allData : State) (options : SearchOptions) (s : JSString) :
    searchContent regExp env allData { options with useRegex := false } s =
      searchContent regExp env allData { options with useRegex := true } (escapedLiteral s) := by
  have hp : searchPattern regExp { options with useRegex := false } s =
      searchPattern regExp { options with useRegex := true } (escapedLiteral s) := by
    rw [← escapeQuery_eq_escapedLiteral]
    rfl
  have hd : ∀ m : JSString → List RegExpMatch,
      discoverResults m env allData { options with useRegex := false } =
        discoverResults m env allData { options with useRegex := true } := by
    intro m
    unfold discoverResults
    rw [scanSnapshots_congr m env { options with useRegex := false }
        { options with useRegex := true } rfl,
      scanHistory_congr m env { options with useRegex := false }
        { options with useRegex := true } rfl rfl]
  unfold searchContent
  rw [hp]
  cases searchPattern regExp { options with useRegex := true } (escapedLiteral s) with
  | error message => rfl
  | ok m => simp only [hd m]

/-- C14: with the regex option set and a query that does not compile,
`searchContent` fails with the invalid-expression error.  The failure is the
same whatever is stored and whatever the clock shows, so nothing was scanned;
it carries no results, and the function writes nothing. -/
theorem C14_invalid_pattern_aborts (regExp : RegExpCtor) (env : DateEnv) (allData : State)
    (options : SearchOptions) (query message : JSString)
    (hregex : options.useRegex = true)
    (hbad : regExp query (searchFlags options) = Except.error message) :
    searchContent regExp env allData options query =
        Except.error (utf16 "Invalid regular expression: " ++ message) ∧
      ∀ (env2 : DateEnv) (allData2 : State),
        searchContent regExp env2 allData2 options query =
          searchContent regExp env allData options query := by
  have hp : searchPattern regExp options query = Except.error message := by
    unfold searchPattern
    rw [if_pos hregex, hbad]
  refine ⟨?_, ?_⟩
  · unfold searchContent
    rw [hp]
  · intro env2 allData2
    unfold searchContent
    rw [hp]

set_option maxRecDepth 100000 in
/-- C14 at an example: the query `(` over the scenario. -/
theorem C14_invalid_pattern_aborts_witness :
    searchContent literalOnlyRegExp (fixedDateEnv 5)
        (scenarioState (utf16 "t1") (utf16 "t2") (utf16 "t3") 1 2 3)
        ⟨false, true, true, true, [], none⟩ (utf16 "(") =
      Except.error (utf16 "Invalid regular expression: " ++ utf16 "unsupported pattern") :=
  (C14_invalid_pattern_aborts literalOnlyRegExp (fixedDateEnv 5)
    (scenarioState (utf16 "t1") (utf16 "t2") (utf16 "t3") 1 2 3)
    ⟨false, true, true, true, [], none⟩ (utf16 "(") (utf16 "unsupported pattern") rfl rfl).1

set_option maxRecDepth 100000 in
/-- C15: from the empty store, observing the example address with the html of
"v1", then with the html of "v2", then with the html of "v2" again takes the
first-seen, the change and the unchanged branch and leaves one change record,
from the "v1" content to the "v2" content; over that state
`searchContent("v2")` without the regex option, with history and without
snapshots (no address or date filter, case-sensitive or not) returns exactly
one result, of type `history_new`, with one match. -/
theorem C15_scenario_search (other : RegExpCtor) (env : DateEnv) (t1 t2 t3 : JSString)
    (n1 n2 n3 : Nat) (caseSensitive : Bool) :
    (pageContent State.empty exampleUrl (some (utf16 "<html><body>v1</body></html>")) t1
        n1).outcome = Except.ok DetectionOutcome.FirstSeen ∧
      (pageContent
        (pageContent State.empty exampleUrl (some (utf16 "<html><body>v1</body></html>")) t1
          n1).state
        exampleUrl (some (utf16 "<html><body>v2</body></html>")) t2 n2).outcome =
        Except.ok DetectionOutcome.Changed ∧
      (pageContent
        (pageContent
          (pageContent State.empty exampleUrl (some (utf16 "<html><body>v1</body></html>")) t1
            n1).state
          exampleUrl (some (utf16 "<html><body>v2</body></html>")) t2 n2).state
        exampleUrl (some (utf16 "<html><body>v2</body></html>")) t3 n3).outcome =
        Except.ok DetectionOutcome.Unchanged ∧
      (scenarioState t1 t2 t3 n1 n2 n3).history =
        [(exampleUrl, [ChangeRecord.mk t2 (utf16 "<html><body>v1</body></html>")
          (utf16 "<html><body>v2</body></html>")])] ∧
      searchContent (literalRegExp other) env (scenarioState t1 t2 t3 n1 n2 n3)
          ⟨caseSensitive, false, true, false, [], none⟩ (utf16 "v2") =
        Except.ok [scenarioNewResult t2] ∧
      (scenarioNewResult t2).kind = ResultType.history_new ∧
      (scenarioNewResult t2).matchCount = 1 := by
  cases caseSensitive <;> exact ⟨rfl, rfl, rfl, rfl, rfl, rfl, rfl⟩

/-! ## The date filter -/

theorem scanChanges_readings (m : JSString → List RegExpMatch) (env : DateEnv)
    (options : SearchOptions) (d : Int) (hd : activeDateFilter options = some d)
    (url : JSString) (changes : List ChangeRecord) :
    ∀ tick : Nat,
      (scanChanges m env options url tick changes).1 =
          (changes.enumFrom tick).flatMap (fun ic =>
            if olderThanCutoff env ic.2 (env.clock ic.1) d then [] else sideResults m url ic.2) ∧
        (scanChanges m env options url tick changes).2 = tick + changes.length := by
  induction changes with
  | nil => intro tick; exact ⟨rfl, rfl⟩
  | cons change rest ih =>
    intro tick
    simp only [scanChanges, hd, List.enumFrom_cons, List.flatMap_cons, List.length_cons]
    split
    · refine ⟨by rw [(ih (tick + 1)).1]; simp, by rw [(ih (tick + 1)).2]; omega⟩
    · refine ⟨by rw [(ih (tick + 1)).1], by rw [(ih (tick + 1)).2]; omega⟩

theorem scanChanges_fixed_clock (m : JSString → List RegExpMatch) (env : DateEnv)
    (options : SearchOptions) (now : Int) (hclock : ∀ n : Nat, env.clock n = now)
    (url : JSString) (changes : List ChangeRecord) :
    ∀ tick : Nat,
      (scanChanges m env options url tick changes).1 =
        changes.flatMap (fun change =>
          match activeDateFilter options with
          | some d => if olderThanCutoff env change now d then [] else sideResults m url change
          | none => sideResults m url change) := by
  induction changes with
  | nil => intro tick; rfl
  | cons change rest ih =>
    intro tick
    simp only [scanChanges, List.flatMap_cons, hclock]
    cases hf : activeDateFilter options with
    | none =>
      simp only
      rw [ih tick, hf]
    | some d =>
      simp only
      split
      · rw [ih (tick + 1), hf]; simp
      · rw [ih (tick + 1), hf]

theorem scanHistory_fixed_clock (m : JSString → List RegExpMatch) (env : DateEnv)
    (options : SearchOptions) (now : Int) (hclock : ∀ n : Nat, env.clock n = now)
    (history : JSObject (List ChangeRecord)) :
    ∀ tick : Nat,
      (scanHistory m env options tick history).1 = historyResultsAt m env options now history := by
  induction history with
  | nil => intro tick; rfl
  | cons entry rest ih =>
    intro tick
    obtain ⟨url, changes⟩ := entry
    unfold historyResultsAt at ih ⊢
    rw [List.flatMap_cons]
    unfold scanHistory
    split
    · rename_i hx
      simp only [hx, if_true, List.nil_append]
      exact ih tick
    · rename_i hx
      simp only [hx]
      rw [scanChanges_fixed_clock m env options now hclock url changes tick, ih]

/-- C16, amended: with the date filter set to `d` days, the clock is read once
for every change examined, and the change is judged against that reading less
`d` days: the changes of an address give, in order, the results of their
matching sides unless the change is older than its own cutoff.  When every
reading of the call shows the same time `now`, all changes are judged against
the one cutoff `now` less `d` days.  The snapshot results do not depend on the
date filter. -/
theorem C16_date_filter_per_reading (m : JSString → List RegExpMatch) (env : DateEnv)
    (options : SearchOptions) (d : Int)
    (hd : options.dateFilter = some d) (hd0 : d ≠ 0) :
    (∀ (url : JSString) (tick : Nat) (changes : List ChangeRecord),
        (scanChanges m env options url tick changes).1 =
            (changes.enumFrom tick).flatMap (fun ic =>
              if olderThanCutoff env ic.2 (env.clock ic.1) d then []
              else sideResults m url ic.2) ∧
          (scanChanges m env options url tick changes).2 = tick + changes.length) ∧
      (∀ now : Int, (∀ n : Nat, env.clock n = now) → ∀ allData : State,
        discoverResults m env allData options =
          (if options.includeSnapshots then
              (scanSnapshots m env options 0 allData.snapshots).1 else []) ++
            (if options.includeHistory then
              allData.history.flatMap (fun entry =>
                if urlExcluded options entry.1 then []
                else entry.2.flatMap (fun change =>
                  if olderThanCutoff env change now d then []
                  else sideResults m entry.1 change))
              else [])) ∧
      (∀ (other : Option Int) (tick : Nat) (snapshots : JSObject Snapshot),
        scanSnapshots m env { options with dateFilter := other } tick snapshots =
          scanSnapshots m env options tick snapshots) := by
  have hact : activeDateFilter options = some d := by
    simp [activeDateFilter, hd, hd0]
  refine ⟨fun url tick changes => scanChanges_readings m env options d hact url changes tick,
    ?_, fun other tick snapshots =>
      scanSnapshots_congr m env { options with dateFilter := other } options rfl snapshots tick⟩
  intro now hclock allData
  unfold discoverResults
  congr 1
  split
  · rw [scanHistory_fixed_clock m env options now hclock]
    unfold historyResultsAt
    simp only [hact]
  · rfl

set_option maxRecDepth 100000 in
/-- C16, amended, at the example: the first change is read against the first
reading and kept, the second against the second reading and passed over. -/
theorem C16_date_filter_per_reading_witness :
    twoChangesState.history = [(exampleUrl, [firstChange, secondChange])] ∧
      (scanChanges (literalMatchAll true (utf16 "v2")) driftingDateEnv oneDayOptions exampleUrl 0
        [firstChange, secondChange]).1 =
        [newResult (literalMatchAll true (utf16 "v2")) exampleUrl firstChange] := by
  refine ⟨rfl, ?_⟩
  rw [((C16_date_filter_per_reading (literalMatchAll true (utf16 "v2")) driftingDateEnv
    oneDayOptions 1 rfl (by decide)).1 exampleUrl 0 [firstChange, secondChange]).1]
  rfl

set_option maxRecDepth 100000 in
/-- C16 as stated fails: with a clock that advances during the call, the change of
2024-01-01T00:00:00.000Z is kept and the later change of
2024-01-01T00:00:00.001Z, whose old and new content both contain "v2", gives no
result; no single cutoff keeps the first and drops the second. -/
theorem C16_one_cutoff_counterexample :
    searchContent literalOnlyRegExp driftingDateEnv twoChangesState oneDayOptions (utf16 "v2") =
        Except.ok [newResult (literalMatchAll true (utf16 "v2")) exampleUrl firstChange] ∧
      sideResults (literalMatchAll true (utf16 "v2")) exampleUrl secondChange =
        [oldResult (literalMatchAll true (utf16 "v2")) exampleUrl secondChange,
          newResult (literalMatchAll true (utf16 "v2")) exampleUrl secondChange] ∧
      ¬ ∃ now : Int,
        discoverResults (literalMatchAll true (utf16 "v2")) driftingDateEnv twoChangesState
            oneDayOptions =
          historyResultsAt (literalMatchAll true (utf16 "v2")) driftingDateEnv oneDayOptions now
            twoChangesState.history := by
  refine ⟨rfl, rfl, ?_⟩
  rintro ⟨now, h⟩
  have hl : discoverResults (literalMatchAll true (utf16 "v2")) driftingDateEnv twoChangesState
      oneDayOptions = [newResult (literalMatchAll true (utf16 "v2")) exampleUrl firstChange] :=
    rfl
  have hh : twoChangesState.history = [(exampleUrl, [firstChange, secondChange])] := rfl
  have hx : urlExcluded oneDayOptions exampleUrl = false := rfl
  have ha : activeDateFilter oneDayOptions = some 1 := rfl
  have p1 : driftingDateEnv.parseDate firstChange.timestamp = some 1704067200000 := by decide
  have p2 : driftingDateEnv.parseDate secondChange.timestamp = some 1704067200001 := by decide
  have s1 : sideResults (literalMatchAll true (utf16 "v2")) exampleUrl firstChange =
      [newResult (literalMatchAll true (utf16 "v2")) exampleUrl firstChange] := rfl
  have s2 : sideResults (literalMatchAll true (utf16 "v2")) exampleUrl secondChange =
      [oldResult (literalMatchAll true (utf16 "v2")) exampleUrl secondChange,
        newResult (literalMatchAll true (utf16 "v2")) exampleUrl secondChange] := rfl
  have e : now - 1 * 24 * 60 * 60 * 1000 = now - 86400000 := by norm_num
  rw [hl, hh] at h
  simp only [historyResultsAt, List.flatMap_cons, List.flatMap_nil, List.append_nil, hx, ha,
    olderThanCutoff, p1, p2, s1, s2, e] at h
  generalize now - 86400000 = c at h
  by_cases hv : -8640000000000000 ≤ c ∧ c ≤ 8640000000000000
  · have tc : timeClip c = some c := if_pos hv
    rw [tc] at h
    simp only [dateLess, decide_eq_true_eq] at h
    by_cases h1 : (1704067200000 : Int) < c
    · by_cases h2 : (1704067200001 : Int) < c
      · simp [h1, h2] at h
      · simp [h1, h2] at h
    · by_cases h2 : (1704067200001 : Int) < c
      · omega
      · simp [h1, h2] at h
  · have tc : timeClip c = none := if_neg hv
    rw [tc] at h
    simp [dateLess] at h

/-! ## Properties of getMatchContexts -/

theorem slice_append (content : JSString) (a b d : Nat) (hab : a ≤ b) (hbd : b ≤ d) :
    slice content a b ++ slice content b d = slice content a d := by
  unfold slice
  have h1 : d - a = (b - a) + (d - b) := by omega
  rw [h1, List.take_add, List.drop_drop]
  have h2 : a + (b - a) = b := by omega
  rw [h2]

theorem substring_eq_slice (content : JSString) (a b : Nat) (hab : a ≤ b) :
    substring content a b = slice content a b := by
  unfold substring slice
  rw [Nat.max_eq_right hab, Nat.min_eq_left hab, List.drop_take]

theorem matchContext_eq_expected (escape : JSString → JSString) (content : JSString)
    (m : RegExpMatch) (hin : m.index + m.text.length ≤ content.length) :
    matchContext escape content 200 m = expectedContext escape content m := by
  have hs : m.index - 200 ≤ min content.length (m.index + m.text.length + 200) := by
    rw [Nat.le_min]; omega
  have hk : m.index - (m.index - 200) ≤
      min content.length (m.index + m.text.length + 200) - (m.index - 200) := by
    have : m.index ≤ min content.length (m.index + m.text.length + 200) := by
      rw [Nat.le_min]; omega
    omega
  have hbefore : substring
      (substring content (m.index - 200) (min content.length (m.index + m.text.length + 200)))
      0 (m.index - (m.index - 200)) = slice content (m.index - 200) m.index := by
    rw [substring_eq_slice content _ _ hs, substring_eq_slice _ 0 _ (Nat.zero_le _)]
    unfold slice
    rw [List.drop_zero, Nat.sub_zero, List.take_take, Nat.min_eq_left hk]
  have hafter : (substring content (m.index - 200)
      (min content.length (m.index + m.text.length + 200))).drop
        (m.index - (m.index - 200) + m.text.length) =
      slice content (m.index + m.text.length)
        (min content.length (m.index + m.text.length + 200)) := by
    rw [substring_eq_slice content _ _ hs]
    unfold slice
    rw [List.drop_take, List.drop_drop]
    have e1 : m.index - 200 + (m.index - (m.index - 200) + m.text.length) =
        m.index + m.text.length := by omega
    have e2 : min content.length (m.index + m.text.length + 200) - (m.index - 200) -
        (m.index - (m.index - 200) + m.text.length) =
        min content.length (m.index + m.text.length + 200) - (m.index + m.text.length) := by
      omega
    rw [e1, e2]
  unfold matchContext expectedContext
  rw [hbefore, hafter]

theorem getMatchContextsGo_map (escape : JSString → JSString) (content : JSString)
    (contextLength : Nat) (matchList : List RegExpMatch) :
    ∀ processedPositions : List Nat,
      (∀ m ∈ matchList, m.index ∉ processedPositions) →
      matchList.Pairwise (fun a b => a.index < b.index) →
      getMatchContextsGo escape content contextLength processedPositions matchList =
        matchList.map (matchContext escape content contextLength) := by
  induction matchList with
  | nil => intro _ _ _; rfl
  | cons m rest ih =>
    intro seen hseen hinc
    rw [List.pairwise_cons] at hinc
    unfold getMatchContextsGo
    rw [if_neg (hseen m (List.mem_cons_self _ _)), List.map_cons]
    congr 1
    apply ih _ _ hinc.2
    intro x hx hmem
    rcases List.mem_cons.mp hmem with e | hold
    · have := hinc.1 x hx
      omega
    · exact hseen x (List.mem_cons_of_mem _ hx) hold

theorem scanSnapshots_counts (m : JSString → List RegExpMatch) (env : DateEnv)
    (options : SearchOptions) (snapshots : JSObject Snapshot) :
    ∀ tick : Nat, ∀ r ∈ (scanSnapshots m env options tick snapshots).1,
      r.matchCount = r.matchList.length := by
  induction snapshots with
  | nil => intro tick r hr; exact absurd hr (List.not_mem_nil _)
  | cons entry rest ih =>
    intro tick r hr
    obtain ⟨url, snapshot⟩ := entry
    unfold scanSnapshots at hr
    split at hr
    · exact ih tick r hr
    · split at hr
      · rcases List.mem_cons.mp hr with e | hmem
        · rw [e]
        · exact ih (tick + 1) r hmem
      · exact ih tick r hr

theorem historyCandidates_counts (m : JSString → List RegExpMatch)
    (history : JSObject (List ChangeRecord)) :
    ∀ r ∈ historyCandidates m history, r.matchCount = r.matchList.length := by
  intro r hr
  unfold historyCandidates at hr
  simp only [List.mem_flatMap, List.mem_cons, List.mem_singleton, List.not_mem_nil,
    or_false] at hr
  obtain ⟨entry, _, change, _, h | h⟩ := hr
  · rw [h]; rfl
  · rw [h]; rfl

theorem searchContent_counts (regExp : RegExpCtor) (env : DateEnv) (allData : State)
    (options : SearchOptions) (query : JSString) (results : List SearchResult)
    (h : searchContent regExp env allData options query = Except.ok results) :
    ∀ r ∈ results, r.matchCount = r.matchList.length := by
  unfold searchContent at h
  cases hp : searchPattern regExp options query with
  | error message => rw [hp] at h; cases h
  | ok m =>
    rw [hp] at h
    simp only [Except.ok.injEq] at h
    subst h
    intro r hr
    have hmem := (perm_sortByMatchCount _).mem_iff.mp hr
    unfold discoverResults at hmem
    rcases List.mem_append.mp hmem with h1 | h1
    · split at h1
      · exact scanSnapshots_counts m env options _ 0 r h1
      · exact absurd h1 (List.not_mem_nil _)
    · split at h1
      · exact historyCandidates_counts m _ r
          ((scanHistory_sublist m env options allData.history _).subset h1)
      · exact absurd h1 (List.not_mem_nil _)

/-- C17: for matches with strictly increasing offsets that lie in the content,
`getMatchContexts` returns one context for each of the first 10 matches, in
order, so `min(10, n)` contexts; the context of a match at offset `i` with text
`t` is the escaped `content[max(0, i-200) .. i)`, the escaped `t` in the
highlight span and the escaped `content[i+|t| .. min(|content|, i+|t|+200))`,
which together cover `content[max(0, i-200) .. min(|content|, i+|t|+200))`,
with `...` in front exactly when the window starts after 0 and `...` behind
exactly when it ends before the end of the content.  Matches after the tenth
add nothing, while `matchCount` of a search result counts all its matches. -/
theorem C17_match_contexts (escape : JSString → JSString) (content : JSString)
    (matchList : List RegExpMatch)
    (hinc : matchList.Pairwise (fun a b => a.index < b.index))
    (hin : ∀ m ∈ matchList, m.index + m.text.length ≤ content.length ∧
      slice content m.index (m.index + m.text.length) = m.text) :
    getMatchContexts escape content matchList 200 =
        (matchList.take 10).map (expectedContext escape content) ∧
      (getMatchContexts escape content matchList 200).length = min 10 matchList.length ∧
      getMatchContexts escape content matchList 200 =
        getMatchContexts escape content (matchList.take 10) 200 ∧
      (∀ m ∈ matchList,
        slice content (m.index - 200) m.index ++ m.text ++
            slice content (m.index + m.text.length)
              (min content.length (m.index + m.text.length + 200)) =
          slice content (m.index - 200) (min content.length (m.index + m.text.length + 200))) ∧
      (∀ (regExp : RegExpCtor) (env : DateEnv) (allData : State) (options : SearchOptions)
          (query : JSString) (results : List SearchResult),
        searchContent regExp env allData options query = Except.ok results →
        ∀ r ∈ results, r.matchCount = r.matchList.length) := by
  have hmain : getMatchContexts escape content matchList 200 =
      (matchList.take 10).map (expectedContext escape content) := by
    unfold getMatchContexts
    rw [getMatchContextsGo_map escape content 200 (matchList.take 10) []
      (fun _ _ h => absurd h (List.not_mem_nil _))
      (List.Pairwise.sublist (List.take_sublist 10 matchList) hinc)]
    apply List.map_congr_left
    intro m hm
    exact matchContext_eq_expected escape content m (hin m (List.mem_of_mem_take hm)).1
  refine ⟨hmain, ?_, ?_, ?_, searchContent_counts⟩
  · rw [hmain, List.length_map, List.length_take]
  · unfold getMatchContexts
    rw [List.take_take, Nat.min_self]
  · intro m hm
    obtain ⟨hle, htext⟩ := hin m hm
    have hf : m.index + m.text.length ≤ min content.length (m.index + m.text.length + 200) := by
      rw [Nat.le_min]; omega
    rw [← htext, List.append_assoc]
    have hlen : (slice content m.index (m.index + m.text.length)).length = m.text.length := by
      rw [htext]
    rw [hlen, slice_append content m.index _ _ (by omega) hf,
      slice_append content (m.index - 200) m.index _ (by omega) (by omega)]

set_option maxRecDepth 100000 in
/-- C17 at an example: the two matches of "o" in "hello world" (with 200 code
units of context the whole content is in each window). -/
theorem C17_match_contexts_witness :
    getMatchContexts escapeHtml (utf16 "hello world")
        (literalMatchAll true (utf16 "o") (utf16 "hello world")) 200 =
      [utf16 "hell<span class=\"search-highlight\">o</span> world",
        utf16 "hello w<span class=\"search-highlight\">o</span>rld"] := by
  rw [(C17_match_contexts escapeHtml (utf16 "hello world")
    (literalMatchAll true (utf16 "o") (utf16 "hello world")) (by decide) (by decide)).1]
  decide

/-! ## Properties of generateReport -/

theorem foldl_matchCount (l : List SearchResult) :
    ∀ acc : Nat, l.foldl (fun sum result => sum + result.matchCount) acc =
      acc + (l.map (fun r => r.matchCount)).sum := by
  induction l with
  | nil => intro acc; simp
  | cons r rest ih =>
    intro acc
    rw [List.foldl_cons, ih, List.map_cons, List.sum_cons]
    omega

theorem totalMatchCount_eq_sum (l : List SearchResult) :
    totalMatchCount l = (l.map (fun r => r.matchCount)).sum := by
  unfold totalMatchCount
  rw [foldl_matchCount]
  omega

theorem totalMatchCount_append_singleton (l : List SearchResult) (r : SearchResult) :
    totalMatchCount (l ++ [r]) = totalMatchCount l + r.matchCount := by
  rw [totalMatchCount_eq_sum, totalMatchCount_eq_sum, List.map_append, List.sum_append]
  simp

theorem foldl_uniqueUrls (l : List SearchResult) :
    ∀ set : List JSString, set.Nodup →
      (l.foldl (fun set result => if result.url ∈ set then set else set ++ [result.url])
          set).Nodup ∧
        ∀ u : JSString,
          u ∈ l.foldl (fun set result => if result.url ∈ set then set else set ++ [result.url])
              set ↔
            u ∈ set ∨ u ∈ l.map (fun r => r.url) := by
  induction l with
  | nil => intro set h; exact ⟨h, fun u => by simp⟩
  | cons r rest ih =>
    intro set h
    rw [List.foldl_cons]
    by_cases hr : r.url ∈ set
    · rw [if_pos hr]
      refine ⟨(ih set h).1, fun u => ?_⟩
      rw [(ih set h).2 u, List.map_cons, List.mem_cons]
      constructor
      · rintro (h1 | h1)
        · exact Or.inl h1
        · exact Or.inr (Or.inr h1)
      · rintro (h1 | h1 | h1)
        · exact Or.inl h1
        · exact Or.inl (by rw [h1]; exact hr)
        · exact Or.inr h1
    · rw [if_neg hr]
      have hn : (set ++ [r.url]).Nodup := by
        rw [List.nodup_append]
        refine ⟨h, List.nodup_singleton _, ?_⟩
        intro a ha hb
        rw [List.mem_singleton.mp hb] at ha
        exact hr ha
      refine ⟨(ih _ hn).1, fun u => ?_⟩
      rw [(ih _ hn).2 u, List.map_cons, List.mem_cons, List.mem_append, List.mem_singleton]
      tauto

theorem uniqueUrls_length (results : List SearchResult) :
    (uniqueUrls results).length = (results.map (fun r => r.url)).dedup.length := by
  have h := foldl_uniqueUrls results [] List.nodup_nil
  have hset : (uniqueUrls results).toFinset = (results.map (fun r => r.url)).toFinset := by
    ext u
    rw [List.mem_toFinset, List.mem_toFinset]
    unfold uniqueUrls
    rw [h.2 u]
    simp
  have hn : (uniqueUrls results).Nodup := h.1
  rw [← List.toFinset_card_of_nodup hn, hset, List.card_toFinset]

theorem getProp_eq_none_iff {α : Type} (o : JSObject α) (key : JSString) :
    getProp o key = none ↔ key ∉ o.map (fun entry => entry.1) := by
  induction o with
  | nil => simp [getProp]
  | cons kv rest ih =>
    obtain ⟨k, v⟩ := kv
    by_cases h : k = key
    · simp [getProp, h]
    · simp only [getProp, h, if_false, ih, List.map_cons, List.mem_cons]
      constructor
      · intro h1 h2
        rcases h2 with e | e
        · exact h e.symm
        · exact h1 e
      · intro h1 h2
        exact h1 (Or.inr h2)

theorem getProp_of_mem {α : Type} (o : JSObject α) (key : JSString) (value : α)
    (hnodup : (o.map (fun entry => entry.1)).Nodup) (hmem : (key, value) ∈ o) :
    getProp o key = some value := by
  induction o with
  | nil => exact absurd hmem (List.not_mem_nil _)
  | cons kv rest ih =>
    obtain ⟨k, v⟩ := kv
    rw [List.map_cons, List.nodup_cons] at hnodup
    rcases List.mem_cons.mp hmem with e | hrest
    · cases e
      simp [getProp]
    · have hk : k ≠ key := by
        intro e
        apply hnodup.1
        rw [e]
        exact List.mem_map_of_mem (fun entry => entry.1) hrest
      simp only [getProp, hk, if_false]
      exact ih hnodup.2 hrest

theorem keys_setProp {α : Type} (o : JSObject α) (key : JSString) (value : α) :
    (setProp o key value).map (fun entry => entry.1) =
      if key ∈ o.map (fun entry => entry.1) then o.map (fun entry => entry.1)
      else o.map (fun entry => entry.1) ++ [key] := by
  induction o with
  | nil => simp [setProp]
  | cons kv rest ih =>
    obtain ⟨k, v⟩ := kv
    by_cases h : k = key
    · simp [setProp, h]
    · have h2 : ¬ key = k := fun e => h e.symm
      simp only [setProp, h, if_false, List.map_cons, ih, List.mem_cons, h2, false_or]
      split <;> simp

theorem subtotals_setProp (o : JSObject (List SearchResult)) (r : SearchResult) :
    ((setProp o r.url ((getProp o r.url).getD [] ++ [r])).map
        (fun entry => totalMatchCount entry.2)).sum =
      (o.map (fun entry => totalMatchCount entry.2)).sum + r.matchCount := by
  induction o with
  | nil => simp [setProp, getProp, totalMatchCount]
  | cons kv rest ih =>
    obtain ⟨k, v⟩ := kv
    by_cases h : k = r.url
    · simp only [setProp, getProp, h, if_true, Option.getD_some, List.map_cons, List.sum_cons,
        totalMatchCount_append_singleton]
      omega
    · simp only [setProp, getProp, h, if_false, List.map_cons, List.sum_cons, ih]
      omega

/-- What the grouping loop has built when it has gone through `done`. -/
theorem groupByUrl_invariant (rest : List SearchResult) :
    ∀ (obj : JSObject (List SearchResult)) (done : List SearchResult),
      ((obj.map (fun entry => entry.1)).Nodup ∧
        (∀ u : JSString, getProp obj u =
          if u ∈ done.map (fun r => r.url) then
            some (done.filter (fun r => decide (r.url = u)))
          else none) ∧
        (obj.map (fun entry => totalMatchCount entry.2)).sum = totalMatchCount done) →
      (((rest.foldl
            (fun resultsByUrl result =>
              setProp resultsByUrl result.url
                ((getProp resultsByUrl result.url).getD [] ++ [result]))
            obj).map (fun entry => entry.1)).Nodup ∧
        (∀ u : JSString,
          getProp (rest.foldl
              (fun resultsByUrl result =>
                setProp resultsByUrl result.url
                  ((getProp resultsByUrl result.url).getD [] ++ [result]))
              obj) u =
            if u ∈ (done ++ rest).map (fun r => r.url) then
              some ((done ++ rest).filter (fun r => decide (r.url = u)))
            else none) ∧
        ((rest.foldl
            (fun resultsByUrl result =>
              setProp resultsByUrl result.url
                ((getProp resultsByUrl result.url).getD [] ++ [result]))
            obj).map (fun entry => totalMatchCount entry.2)).sum =
          totalMatchCount (done ++ rest)) := by
  induction rest with
  | nil => intro obj done h; simpa using h
  | cons r rest ih =>
    intro obj done ⟨hnodup, hget, hsum⟩
    rw [List.foldl_cons]
    have hstep := ih (setProp obj r.url ((getProp obj r.url).getD [] ++ [r])) (done ++ [r]) ?_
    · simpa [List.append_assoc] using hstep
    · refine ⟨?_, ?_, ?_⟩
      · rw [keys_setProp]
        split
        · exact hnodup
        · rename_i hk
          rw [List.nodup_append]
          refine ⟨hnodup, List.nodup_singleton _, ?_⟩
          intro a ha hb
          rw [List.mem_singleton.mp hb] at ha
          exact hk ha
      · intro u
        by_cases hu : u = r.url
        · subst hu
          rw [getProp_setProp_same, hget r.url]
          have hmem : r.url ∈ (done ++ [r]).map (fun r => r.url) := by simp
          rw [if_pos hmem]
          congr 1
          rw [List.filter_append]
          have hr : List.filter (fun x => decide (x.url = r.url)) [r] = [r] := by simp
          rw [hr]
          congr 1
          split
          · rfl
          · rename_i hno
            show [] = List.filter (fun x => decide (x.url = r.url)) done
            symm
            rw [List.filter_eq_nil_iff]
            intro x hx hxu
            exact hno (List.mem_map.mpr ⟨x, hx, of_decide_eq_true hxu⟩)
        · rw [getProp_setProp_other _ _ _ _ hu, hget u]
          have hiff : u ∈ (done ++ [r]).map (fun r => r.url) ↔
              u ∈ done.map (fun r => r.url) := by
            simp only [List.map_append, List.mem_append, List.map_cons, List.map_nil,
              List.mem_singleton]
            constructor
            · rintro (h1 | h1)
              · exact h1
              · exact absurd h1 hu
            · intro h1; exact Or.inl h1
          have hf : (done ++ [r]).filter (fun x => decide (x.url = u)) =
              done.filter (fun x => decide (x.url = u)) := by
            rw [List.filter_append]
            have hne : ¬ r.url = u := fun e => hu e.symm
            have : List.filter (fun x => decide (x.url = u)) [r] = [] := by
              simp [hne]
            rw [this, List.append_nil]
          by_cases hm : u ∈ done.map (fun r => r.url)
          · rw [if_pos hm, if_pos (hiff.mpr hm), hf]
          · rw [if_neg hm, if_neg (fun h => hm (hiff.mp h))]
      · rw [subtotals_setProp, hsum, totalMatchCount_append_singleton]

theorem groupByUrl_spec (results : List SearchResult) :
    ((groupByUrl results).map (fun entry => entry.1)).Nodup ∧
      (∀ u : JSString, getProp (groupByUrl results) u =
        if u ∈ results.map (fun r => r.url) then
          some (results.filter (fun r => decide (r.url = u)))
        else none) ∧
      ((groupByUrl results).map (fun entry => totalMatchCount entry.2)).sum =
        totalMatchCount results := by
  have h := groupByUrl_invariant results [] []
    ⟨List.nodup_nil, fun u => by simp [getProp], by simp [totalMatchCount]⟩
  simpa [groupByUrl] using h

/-! ## The report by address -/

theorem foldl_firstOccurrences (l : List SearchResult) :
    ∀ set : List JSString,
      l.foldl (fun set result => if result.url ∈ set then set else set ++ [result.url]) set =
        set ++ (firstOccurrences (l.map (fun r => r.url))).filter (fun v => decide (v ∉ set)) := by
  induction l with
  | nil => intro set; simp [firstOccurrences]
  | cons r rest ih =>
    intro set
    rw [List.foldl_cons, ih, List.map_cons, firstOccurrences]
    by_cases hr : r.url ∈ set
    · rw [if_pos hr, List.filter_cons_of_neg (by simpa using hr), List.filter_filter]
      congr 1
      apply List.filter_congr
      intro x _
      by_cases hx : x ∈ set
      · simp [hx]
      · have hne : x ≠ r.url := fun e => hx (e ▸ hr)
        simp [hx, hne]
    · rw [if_neg hr, List.filter_cons_of_pos (by simpa using hr), List.filter_filter,
        List.append_assoc, List.singleton_append]
      congr 2
      apply List.filter_congr
      intro x _
      by_cases hx : x ∈ set
      · simp [hx]
      · by_cases hne : x = r.url
        · simp [hne]
        · simp [hx, hne]

theorem uniqueUrls_eq_firstOccurrences (results : List SearchResult) :
    uniqueUrls results = firstOccurrences (results.map (fun r => r.url)) := by
  unfold uniqueUrls
  rw [foldl_firstOccurrences]
  simp

theorem keys_groupByUrl_fold (l : List SearchResult) :
    ∀ obj : JSObject (List SearchResult),
      (l.foldl
          (fun resultsByUrl result =>
            setProp resultsByUrl result.url
              ((getProp resultsByUrl result.url).getD [] ++ [result]))
          obj).map (fun entry => entry.1) =
        l.foldl (fun set result => if result.url ∈ set then set else set ++ [result.url])
          (obj.map (fun entry => entry.1)) := by
  induction l with
  | nil => intro obj; rfl
  | cons r rest ih =>
    intro obj
    rw [List.foldl_cons, List.foldl_cons, ih, keys_setProp]

theorem keys_groupByUrl (results : List SearchResult) :
    (groupByUrl results).map (fun entry => entry.1) =
      firstOccurrences (results.map (fun r => r.url)) := by
  rw [← uniqueUrls_eq_firstOccurrences]
  exact keys_groupByUrl_fold results []

theorem groupByUrl_entries (results : List SearchResult) :
    ∀ entry ∈ groupByUrl results,
      entry.2 = results.filter (fun r => decide (r.url = entry.1)) := by
  obtain ⟨hnodup, hget, _⟩ := groupByUrl_spec results
  intro entry hentry
  have hsome := getProp_of_mem (groupByUrl results) entry.1 entry.2 hnodup hentry
  rw [hget entry.1] at hsome
  split at hsome
  · exact (Option.some.inj hsome).symm
  · cases hsome

theorem entries_eq_map_keys {α : Type} (f : JSString → α) (o : JSObject α)
    (h : ∀ entry ∈ o, entry.2 = f entry.1) :
    o = (o.map (fun entry => entry.1)).map (fun u => (u, f u)) := by
  induction o with
  | nil => rfl
  | cons kv rest ih =>
    obtain ⟨k, v⟩ := kv
    have hv : v = f k := h (k, v) (List.mem_cons_self _ _)
    rw [List.map_cons, List.map_cons, ← ih (fun e he => h e (List.mem_cons_of_mem _ he)), hv]

theorem groupByUrl_eq (results : List SearchResult) :
    groupByUrl results =
      (firstOccurrences (results.map (fun r => r.url))).map
        (fun u => (u, results.filter (fun r => decide (r.url = u)))) := by
  have h := entries_eq_map_keys (fun u => results.filter (fun r => decide (r.url = u)))
    (groupByUrl results) (groupByUrl_entries results)
  rw [keys_groupByUrl] at h
  exact h

theorem firstOccurrences_nodup (l : List JSString) : (firstOccurrences l).Nodup := by
  induction l with
  | nil => exact List.nodup_nil
  | cons u us ih =>
    rw [firstOccurrences, List.nodup_cons]
    exact ⟨by simp, ih.filter _⟩

theorem mem_firstOccurrences (l : List JSString) (v : JSString) :
    v ∈ firstOccurrences l ↔ v ∈ l := by
  induction l with
  | nil => simp [firstOccurrences]
  | cons u us ih =>
    rw [firstOccurrences, List.mem_cons, List.mem_cons, List.mem_filter, ih]
    by_cases h : v = u
    · simp [h]
    · simp [h]

/-- C18: for a non-empty result list the report states as Total Matches the sum
of `matchCount` over all results, as URLs with Matches the number of distinct
addresses of the results and as Total Results the number of results; the section
by address has one block for every distinct address, each address once, in the
order of first appearance, and the block prints as its Total Matches the sum of
`matchCount` over the results of that address, followed by one line for each of
these results; the printed subtotals add up to the printed Total Matches. -/
theorem C18_report_totals (toLocaleString : JSString → JSString)
    (generated detailed query : JSString) (results : List SearchResult) (hne : results ≠ []) :
    generateReport toLocaleString generated detailed query results =
        some (utf16 "SEARCH REPORT\n" ++ utf16 "=============\n\n" ++
          utf16 "Search Query: \"" ++ query ++ utf16 "\"\n" ++
          utf16 "Generated: " ++ generated ++ utf16 "\n\n" ++
          (utf16 "SUMMARY\n" ++ utf16 "-------\n" ++
            utf16 "Total Matches: " ++
              intToString (Int.ofNat (results.map (fun r => r.matchCount)).sum) ++ utf16 "\n" ++
            utf16 "URLs with Matches: " ++
              intToString (Int.ofNat (results.map (fun r => r.url)).dedup.length) ++ utf16 "\n" ++
            utf16 "Total Results: " ++ intToString (Int.ofNat results.length) ++ utf16 "\n\n") ++
          utf16 "RESULTS BY URL\n" ++ utf16 "--------------\n" ++
          (firstOccurrences (results.map (fun r => r.url))).flatMap
            (fun u =>
              utf16 "\n" ++ u ++ utf16 "\n" ++
                utf16 "  Total Matches: " ++
                intToString (Int.ofNat
                  ((results.filter (fun r => decide (r.url = u))).map
                    (fun r => r.matchCount)).sum) ++
                utf16 "\n" ++
                (results.filter (fun r => decide (r.url = u))).flatMap
                  (fun r =>
                    utf16 "  - " ++
                      (match r.kind with
                        | ResultType.snapshot => utf16 "Current"
                        | ResultType.history_old => utf16 "Historical (Old)"
                        | ResultType.history_new => utf16 "Historical (New)") ++
                      utf16 ": " ++ intToString (Int.ofNat r.matchCount) ++
                      utf16 " matches (" ++ toLocaleString r.timestamp ++ utf16 ")\n")) ++
          detailed) ∧
      (firstOccurrences (results.map (fun r => r.url))).Nodup ∧
      (∀ u : JSString,
        u ∈ firstOccurrences (results.map (fun r => r.url)) ↔
          u ∈ results.map (fun r => r.url)) ∧
      (firstOccurrences (results.map (fun r => r.url))).length =
        (results.map (fun r => r.url)).dedup.length ∧
      ((firstOccurrences (results.map (fun r => r.url))).map
          (fun u =>
            ((results.filter (fun r => decide (r.url = u))).map (fun r => r.matchCount)).sum)).sum =
        (results.map (fun r => r.matchCount)).sum := by
  have hlen : ¬ results.length = 0 := fun h => hne (List.length_eq_zero.mp h)
  refine ⟨?_, firstOccurrences_nodup _, mem_firstOccurrences _, ?_, ?_⟩
  · unfold generateReport reportSummary
    rw [if_neg hlen, totalMatchCount_eq_sum, uniqueUrls_length, groupByUrl_eq,
      List.flatMap_map]
    have hblock : ∀ u : JSString,
        reportUrlBlock toLocaleString (u, results.filter (fun r => decide (r.url = u))) =
          utf16 "\n" ++ u ++ utf16 "\n" ++
            utf16 "  Total Matches: " ++
            intToString (Int.ofNat
              ((results.filter (fun r => decide (r.url = u))).map
                (fun r => r.matchCount)).sum) ++
            utf16 "\n" ++
            (results.filter (fun r => decide (r.url = u))).flatMap
              (fun r =>
                utf16 "  - " ++
                  (match r.kind with
                    | ResultType.snapshot => utf16 "Current"
                    | ResultType.history_old => utf16 "Historical (Old)"
                    | ResultType.history_new => utf16 "Historical (New)") ++
                  utf16 ": " ++ intToString (Int.ofNat r.matchCount) ++
                  utf16 " matches (" ++ toLocaleString r.timestamp ++ utf16 ")\n") := by
      intro u
      unfold reportUrlBlock
      rw [totalMatchCount_eq_sum]
      rfl
    simp only [hblock]
  · rw [← uniqueUrls_eq_firstOccurrences, uniqueUrls_length]
  · have hsum := (groupByUrl_spec results).2.2
    rw [groupByUrl_eq, List.map_map, totalMatchCount_eq_sum] at hsum
    rw [← hsum]
    congr 1
    apply List.map_congr_left
    intro u _
    exact (totalMatchCount_eq_sum _).symm

set_option maxRecDepth 100000 in
/-- C18 at three results, 3 and 1 matches at one address and 2 at another: six
matches, two addresses, three results; the first block prints 4 for its two
results, the second prints 2 for its one result. -/
theorem C18_report_totals_witness :
    generateReport (fun t => t) (utf16 "now") [] (utf16 "v2") reportResults =
      some (utf16 ("SEARCH REPORT\n=============\n\nSearch Query: \"v2\"\nGenerated: now\n\n" ++
        "SUMMARY\n-------\nTotal Matches: 6\nURLs with Matches: 2\nTotal Results: 3\n\n" ++
        "RESULTS BY URL\n--------------\n" ++
        "\nhttps://b.test\n  Total Matches: 4\n" ++
        "  - Historical (Old): 3 matches (t1)\n  - Current: 1 matches (t3)\n" ++
        "\nhttps://a.test\n  Total Matches: 2\n" ++
        "  - Current: 2 matches (t2)\n")) := by
  rw [(C18_report_totals (fun t => t) (utf16 "now") [] (utf16 "v2") reportResults
    (by decide)).1]
  decide

/-! ## The history as a transition log -/

theorem chain_at_index (records : List ChangeRecord)
    (h : List.Chain' (fun a b : ChangeRecord => b.oldContent = a.newContent) records) :
    ∀ (k : Nat) (a b : ChangeRecord), records[k]? = some a → records[k + 1]? = some b →
      b.oldContent = a.newContent := by
  induction records with
  | nil => intro k a b ha _; simp at ha
  | cons x xs ih =>
    intro k a b ha hb
    cases k with
    | zero =>
      simp only [List.getElem?_cons_zero, Option.some.injEq] at ha
      simp only [List.getElem?_cons_succ] at hb
      cases xs with
      | nil => simp at hb
      | cons y ys =>
        simp only [List.getElem?_cons_zero, Option.some.injEq] at hb
        rw [← ha, ← hb]
        exact (List.chain'_cons.mp h).1
    | succ k =>
      simp only [List.getElem?_cons_succ] at ha hb
      exact ih h.tail k a b ha hb

theorem consistentLog_firstSeen (st : State) (url content : JSString)
    (hinv : ConsistentLog st) (hnone : getProp st.snapshots url = none) :
    ConsistentLog (firstSeen st url (generateHash content) content).state := by
  obtain ⟨hs, hh⟩ := hinv
  refine ⟨?_, ?_⟩
  · intro other snap hsnap
    simp only [firstSeen] at hsnap
    by_cases ho : other = url
    · subst ho
      rw [getProp_setProp_same] at hsnap
      cases hsnap
      rfl
    · rw [getProp_setProp_other _ _ _ _ ho] at hsnap
      exact hs other snap hsnap
  · intro other records hrec
    simp only [firstSeen] at hrec ⊢
    obtain ⟨hchain, hlast⟩ := hh other records hrec
    refine ⟨hchain, ?_⟩
    intro last hl
    obtain ⟨snap, hsnap, hc⟩ := hlast last hl
    by_cases ho : other = url
    · subst ho
      rw [hnone] at hsnap
      cases hsnap
    · exact ⟨snap, by rw [getProp_setProp_other _ _ _ _ ho]; exact hsnap, hc⟩

theorem consistentLog_changeDetected (st : State) (url content timestamp : JSString)
    (nowMs : Nat) (storedSnapshot : Snapshot) (hinv : ConsistentLog st)
    (hstored : getProp st.snapshots url = some storedSnapshot) :
    ConsistentLog
      (changeDetected st url (generateHash content) content storedSnapshot timestamp
        nowMs).state := by
  obtain ⟨hs, hh⟩ := hinv
  refine ⟨?_, ?_⟩
  · intro other snap hsnap
    simp only [changeDetected] at hsnap
    by_cases ho : other = url
    · subst ho
      rw [getProp_setProp_same] at hsnap
      cases hsnap
      rfl
    · rw [getProp_setProp_other _ _ _ _ ho] at hsnap
      exact hs other snap hsnap
  · intro other records hrec
    simp only [changeDetected] at hrec ⊢
    by_cases ho : other = url
    · subst ho
      rw [getProp_setProp_same] at hrec ⊢
      have hold : List.Chain' (fun a b : ChangeRecord => b.oldContent = a.newContent)
            ((getProp st.history other).getD []) ∧
          ∀ last ∈ ((getProp st.history other).getD []).getLast?,
            last.newContent = storedSnapshot.content := by
        cases hg : getProp st.history other with
        | none => exact ⟨List.chain'_nil, fun last hl => by simp at hl⟩
        | some old =>
          obtain ⟨hchain, hlast⟩ := hh other old hg
          refine ⟨hchain, ?_⟩
          intro last hl
          obtain ⟨snap, hsnap, hc⟩ := hlast last hl
          rw [hstored] at hsnap
          cases hsnap
          exact hc
      have hfull : List.Chain' (fun a b : ChangeRecord => b.oldContent = a.newContent)
          ((getProp st.history other).getD [] ++
            [ChangeRecord.mk timestamp storedSnapshot.content content]) := by
        rw [List.chain'_append]
        refine ⟨hold.1, List.chain'_singleton _, ?_⟩
        intro x hx y hy
        simp only [List.head?_cons, Option.mem_def, Option.some.injEq] at hy
        rw [← hy]
        exact (hold.2 x hx).symm
      have hkeep := Option.some.inj hrec
      rw [keepLast10_eq_drop] at hkeep
      rw [← hkeep]
      refine ⟨hfull.drop _, ?_⟩
      intro last hl
      rw [Option.mem_def, List.getLast?_drop, if_neg (by simp; omega),
        List.getLast?_concat] at hl
      cases hl
      exact ⟨_, rfl, rfl⟩
    · rw [getProp_setProp_other _ _ _ _ ho] at hrec ⊢
      exact hh other records hrec

theorem consistentLog_pageContent (st : State) (url : JSString) (html : Option JSString)
    (timestamp : JSString) (nowMs : Nat) (hinv : ConsistentLog st) :
    ConsistentLog (pageContent st url html timestamp nowMs).state := by
  unfold pageContent
  split
  · exact hinv
  · exact hinv
  · split
    · rename_i hnone
      exact consistentLog_firstSeen st url _ hinv hnone
    · rename_i storedSnapshot hsome
      split
      · rename_i hempty
        exact absurd (by rw [← hinv.1 url storedSnapshot hsome]; exact hempty)
          (generateHash_ne_nil storedSnapshot.content)
      · split
        · exact consistentLog_changeDetected st url _ timestamp nowMs storedSnapshot hinv hsome
        · exact hinv

theorem reachable_consistentLog (st : State) (h : Reachable st) : ConsistentLog st := by
  induction h with
  | empty =>
    exact ⟨fun url snap hs => by simp [State.empty, getProp] at hs,
      fun url records hr => by simp [State.empty, getProp] at hr⟩
  | pageContent st url html timestamp nowMs _ ih =>
    exact consistentLog_pageContent st url html timestamp nowMs ih
  | clearHistory st _ ih =>
    exact ⟨ih.1, fun url records hr => by simp [clearHistory, getProp] at hr⟩
  | clearAllData st _ _ =>
    exact ⟨fun url snap hs => by simp [clearAllData, getProp] at hs,
      fun url records hr => by simp [clearAllData, getProp] at hr⟩
  | dismissNotification st n _ ih => exact ih

/-- C21: in every state reached from the empty store by `pageContent`,
`clearHistory` and `clearAllData` messages (and notification endings) the
history of every address is a consistent transition log: of two consecutive
records the later one has as `oldContent` the `newContent` of the earlier one;
the last record of a non-empty history has as `newContent` the content of the
snapshot stored for the address; and every stored snapshot has as `hash` the
fingerprint `generateHash` of its content. -/
theorem C21_history_transition_log (st : State) (h : Reachable st) :
    (∀ (url : JSString) (records : List ChangeRecord) (k : Nat) (a b : ChangeRecord),
        getProp st.history url = some records →
        records[k]? = some a → records[k + 1]? = some b → b.oldContent = a.newContent) ∧
      (∀ (url : JSString) (records : List ChangeRecord) (last : ChangeRecord),
        getProp st.history url = some records → records.getLast? = some last →
        ∃ snap : Snapshot, getProp st.snapshots url = some snap ∧
          last.newContent = snap.content) ∧
      (∀ (url : JSString) (snap : Snapshot), getProp st.snapshots url = some snap →
        snap.hash = generateHash snap.content) := by
  obtain ⟨hs, hh⟩ := reachable_consistentLog st h
  refine ⟨?_, ?_, hs⟩
  · intro url records k a b hrec ha hb
    exact chain_at_index records (hh url records hrec).1 k a b ha hb
  · intro url records last hrec hl
    exact (hh url records hrec).2 last hl

set_option maxRecDepth 100000 in
/-- C21 at the state with two changes: the second record starts from the content
the first ended with, and the snapshot holds the content the second ended
with, under its fingerprint. -/
theorem C21_history_transition_log_witness :
    getProp twoChangesState.history exampleUrl = some [firstChange, secondChange] ∧
      secondChange.oldContent = firstChange.newContent ∧
      (∃ snap : Snapshot, getProp twoChangesState.snapshots exampleUrl = some snap ∧
        secondChange.newContent = snap.content) := by
  have hreach : Reachable twoChangesState :=
    Reachable.pageContent _ exampleUrl _ _ _
      (Reachable.pageContent _ exampleUrl _ _ _
        (Reachable.pageContent State.empty exampleUrl (some (utf16 "<p>v1</p>"))
          (utf16 "2023-12-31T00:00:00.000Z") 1 Reachable.empty))
  have h := C21_history_transition_log twoChangesState hreach
  exact ⟨rfl, h.1 exampleUrl [firstChange, secondChange] 0 firstChange secondChange rfl rfl rfl,
    h.2.1 exampleUrl [firstChange, secondChange] secondChange rfl rfl⟩

end PageWatch
